import Mathlib

/-!
# Multy BTC node service: transaction classification, splitting and status pipeline

A shallow embedding of `btc/utils.go` and theorems about it.

Conventions of the embedding

* Go `int64` and `int` values are integers (`Int`); every arithmetic operation the
  source performs on them is followed by an explicit wrap-around (`wrapInt64`), and
  every `int32(..)` conversion by `wrapInt32`.  `int` is taken to be 64 bits wide.
* Go slices are lists; a `nil` slice and an empty slice are both `[]` (the source
  only ever tests `len`, or `!= nil` together with `len > 0`).
* A run-time panic (index out of range, nil dereference) is the result `none`.
* `float64` arithmetic is not part of the embedding: the operations the source uses
  are the fields of a `Float64Ops` record that every definition touching a
  `float64` takes as an argument.
* The RPC node, the users map, the chain tip and the wall clock are arguments.
-/

namespace Btc

/-! ## Machine integers -/

/-- Two's complement wrap-around of an integer to the `int64` range. -/
def wrapInt64 (x : Int) : Int :=
  (x + 9223372036854775808) % 18446744073709551616 - 9223372036854775808

/-- Two's complement wrap-around of an integer to the `int32` range. -/
def wrapInt32 (x : Int) : Int :=
  (x + 2147483648) % 4294967296 - 2147483648

/-- The value is representable as an `int64`. -/
def isInt64 (x : Int) : Prop :=
  -9223372036854775808 ≤ x ∧ x < 9223372036854775808

instance (x : Int) : Decidable (isInt64 x) := by
  unfold isInt64; exact inferInstance

/-! ## Constants (`utils.go`, lines 21-32) -/

def TxStatusAppearedInMempoolIncoming : Int := 1
def TxStatusAppearedInBlockIncoming : Int := 2
def TxStatusAppearedInMempoolOutcoming : Int := 3
def TxStatusAppearedInBlockOutcoming : Int := 4
def TxStatusInBlockConfirmedIncoming : Int := 5
def TxStatusInBlockConfirmedOutcoming : Int := 6

/-! ## Data model (`store` package types as used by `utils.go`) -/

/-- The record `store.AddressAmount`. -/
structure AddressAmount where
  Address : String
  Amount : Int
deriving DecidableEq

/-- The record `store.AddressForWallet`. -/
structure AddressForWallet where
  AddressIndex : Int
  Address : String
  Amount : Int
  AddressOutIndex : Int
deriving DecidableEq

/-- The record `store.WalletForTx`: one wallet touch on one side of a transaction. -/
structure WalletForTx where
  UserID : String
  WalletIndex : Int
  Address : AddressForWallet
deriving DecidableEq

/-- The record `store.MultyTx`.  The element type of `StockExchangeRate` is declared
outside this repository and is never inspected here, so it is the parameter `R`. -/
structure MultyTx (R : Type) where
  UserID : String
  TxID : String
  TxHash : String
  TxOutScript : String
  TxAddress : List String
  TxStatus : Int
  TxOutAmount : Int
  BlockTime : Int
  BlockHeight : Int
  Confirmations : Int
  TxFee : Int
  MempoolTime : Int
  StockExchangeRate : List R
  TxInputs : List AddressAmount
  TxOutputs : List AddressAmount
  WalletsInput : List WalletForTx
  WalletsOutput : List WalletForTx
deriving DecidableEq

/-- The Go zero value `store.MultyTx{}`. -/
def MultyTx.zero (R : Type) : MultyTx R :=
  { UserID := "", TxID := "", TxHash := "", TxOutScript := "", TxAddress := [],
    TxStatus := 0, TxOutAmount := 0, BlockTime := 0, BlockHeight := 0,
    Confirmations := 0, TxFee := 0, MempoolTime := 0, StockExchangeRate := [],
    TxInputs := [], TxOutputs := [], WalletsInput := [], WalletsOutput := [] }

/-! ## Node and wire types (`btcjson`, `pb`, `store`) as used by `utils.go` -/

/-- The `float64` operations `utils.go` uses.  `SatoshiToBitcoin` is the package
variable `float64(100000000)` and `toInt64` the conversion `int64(..)`. -/
structure Float64Ops where
  F : Type
  zero : F
  add : F → F → F
  sub : F → F → F
  mul : F → F → F
  SatoshiToBitcoin : F
  toInt64 : F → Int

/-- The record `btcjson.ScriptPubKeyResult` (fields read by `utils.go`). -/
structure ScriptPubKeyResult where
  Hex : String
  Addresses : List String
deriving DecidableEq

/-- The record `btcjson.Vout`; `N` is a `uint32`. -/
structure Vout (F : Type) where
  Value : F
  N : Nat
  ScriptPubKey : ScriptPubKeyResult
deriving DecidableEq

/-- The record `btcjson.Vin` (fields read by `utils.go`); `Vout` is a `uint32`. -/
structure Vin where
  Txid : String
  Vout : Nat
deriving DecidableEq

/-- The record `btcjson.TxRawResult` (fields read by the functions embedded here). -/
structure TxRawResult (F : Type) where
  Txid : String
  Hash : String
  Vin : List Vin
  Vout : List (Vout F)
  Time : Int
  Blocktime : Int
deriving DecidableEq

/-- The record `store.AddressExtended`, the value type of the users map. -/
structure AddressExtended where
  UserID : String
  WalletIndex : Int
  AddressIndex : Int
deriving DecidableEq

/-- The record `store.SpendableOutputs`. -/
structure SpendableOutputs where
  TxID : String
  TxOutID : Int
  TxOutAmount : Int
  TxOutScript : String
  Address : String
  UserID : String
  TxStatus : Int
  WalletIndex : Int
  AddressIndex : Int
deriving DecidableEq

/-- The record `store.DeleteSpendableOutput`. -/
structure DeleteSpendableOutput where
  UserID : String
  TxID : String
  Address : String
deriving DecidableEq

/-- The message `pb.AddSpOut`. -/
structure AddSpOut where
  TxID : String
  TxOutID : Int
  TxOutAmount : Int
  TxOutScript : String
  Address : String
  UserID : String
  TxStatus : Int
  WalletIndex : Int
  AddressIndex : Int
deriving DecidableEq

/-- The message `pb.ReqDeleteSpOut`. -/
structure ReqDeleteSpOut where
  UserID : String
  TxID : String
  Address : String
deriving DecidableEq

/-- The message `pb.BTCTransaction_AddresAmount`. -/
structure BTCTransaction_AddresAmount where
  Address : String
  Amount : Int
deriving DecidableEq

/-- The message `pb.BTCTransaction_WalletForTx`. -/
structure BTCTransaction_WalletForTx where
  Userid : String
  Address : String
  Amount : Int
  TxOutIndex : Int
deriving DecidableEq

/-- The message `pb.BTCTransaction`. -/
structure BTCTransaction where
  UserID : String
  TxID : String
  TxHash : String
  TxOutScript : String
  TxAddress : List String
  TxStatus : Int
  TxOutAmount : Int
  BlockTime : Int
  BlockHeight : Int
  Confirmations : Int
  TxFee : Int
  MempoolTime : Int
  TxInputs : List BTCTransaction_AddresAmount
  TxOutputs : List BTCTransaction_AddresAmount
  WalletsInput : List BTCTransaction_WalletForTx
  WalletsOutput : List BTCTransaction_WalletForTx
  Resync : Bool
deriving DecidableEq

/-- Modelled from the spec: the constant `store.TxStatusAppearedInMempoolIncoming` of the
`store` package, whose declaration is outside this repository; status code 1. -/
def storeTxStatusAppearedInMempoolIncoming : Int := 1

/-- Modelled from the spec: the constant `store.TxStatusAppearedInBlockIncoming` of the
`store` package, whose declaration is outside this repository; status code 2. -/
def storeTxStatusAppearedInBlockIncoming : Int := 2

/-- The function `newAddressAmount`. -/
def newAddressAmount (address : String) (amount : Int) : AddressAmount :=
  { Address := address, Amount := amount }

/-! ## `setTransactionInfo` (`utils.go`, lines 57-100)

`rpc txid` is the answer of the node to `GetRawTransactionVerbose` for the hash parsed
from `txid`; `none` when the hash does not parse or the call fails. -/

/-- The body of the first loop of `setTransactionInfo`, lines 64-68, on the pair
`(outputs, outputSum)`. -/
def setTransactionInfoOutput (fl : Float64Ops) (acc : List AddressAmount × fl.F)
    (out : Vout fl.F) : List AddressAmount × fl.F :=
  let outputs :=
    out.ScriptPubKey.Addresses.foldl
      (fun (outputs : List AddressAmount) address =>
        let amount := fl.toInt64 (fl.mul out.Value fl.SatoshiToBitcoin)
        outputs ++ [newAddressAmount address amount])
      acc.1
  (outputs, fl.add acc.2 out.Value)

/-- The first loop of `setTransactionInfo`, lines 63-69: the pair `(outputs, outputSum)`. -/
def setTransactionInfoOutputs (fl : Float64Ops) (vout : List (Vout fl.F)) :
    List AddressAmount × fl.F :=
  vout.foldl (setTransactionInfoOutput fl) ([], fl.zero)

/-- The body of the second loop of `setTransactionInfo`, lines 71-84, on the pair
`(inputs, inputSum)`.  A failed lookup is only logged, and the nil result is then
dereferenced: a panic, as is an index past the end of the previous outputs. -/
def setTransactionInfoInput (fl : Float64Ops) (rpc : String → Option (TxRawResult fl.F))
    (acc : List AddressAmount × fl.F) (input : Vin) : Option (List AddressAmount × fl.F) :=
  match rpc input.Txid with
  | none => none
  | some previousTxVerbose =>
    match previousTxVerbose.Vout[input.Vout]? with
    | none => none
    | some prevOut =>
      let inputs :=
        prevOut.ScriptPubKey.Addresses.foldl
          (fun (inputs : List AddressAmount) address =>
            let amount := fl.toInt64 (fl.mul prevOut.Value fl.SatoshiToBitcoin)
            inputs ++ [newAddressAmount address amount])
          acc.1
      some (inputs, fl.add acc.2 prevOut.Value)

/-- The second loop of `setTransactionInfo`, lines 70-85: the pair `(inputs, inputSum)`. -/
def setTransactionInfoInputs (fl : Float64Ops) (rpc : String → Option (TxRawResult fl.F))
    (vin : List Vin) : Option (List AddressAmount × fl.F) :=
  vin.foldlM (setTransactionInfoInput fl rpc) ([], fl.zero)

/-- The function `setTransactionInfo`. -/
def setTransactionInfo {R : Type} (fl : Float64Ops)
    (rpc : String → Option (TxRawResult fl.F)) (multyTx : MultyTx R)
    (txVerbose : TxRawResult fl.F) (blockHeight : Int) (isReSync : Bool) :
    Option (MultyTx R) :=
  let (outputs, outputSum) := setTransactionInfoOutputs fl txVerbose.Vout
  match setTransactionInfoInputs fl rpc txVerbose.Vin with
  | none => none
  | some (inputs, inputSum) =>
    let fee := fl.toInt64 (fl.mul (fl.sub inputSum outputSum) fl.SatoshiToBitcoin)
    let multyTx :=
      if blockHeight = -1 ∨ isReSync = true then
        { multyTx with MempoolTime := txVerbose.Time }
      else multyTx
    let multyTx :=
      if blockHeight ≠ -1 then { multyTx with BlockTime := txVerbose.Blocktime }
      else multyTx
    some { multyTx with TxInputs := inputs, TxOutputs := outputs, TxFee := fee }

/-! ## The parser (`utils.go`, lines 270-287 and 537-615)

`usersData` is the users map `*c.UsersData`, read at one point in time. -/

/-- The body of the inner loop of `parseInputs`, lines 549-574, for the address
`txInAddress` of the previous output `prevOut` that `input` spends. -/
def parseInputAddress {R : Type} (fl : Float64Ops)
    (usersData : String → Option AddressExtended) (txVerbose : TxRawResult fl.F)
    (input : Vin) (prevOut : Vout fl.F) (multyTx : MultyTx R) (txInAddress : String) :
    MultyTx R :=
  match usersData txInAddress with
  | none => multyTx
  | some addressEx =>
    let txInAmount := fl.toInt64 (fl.mul fl.SatoshiToBitcoin prevOut.Value)
    let currentWallet : WalletForTx :=
      { UserID := addressEx.UserID,
        WalletIndex := addressEx.WalletIndex,
        Address :=
          { AddressIndex := addressEx.AddressIndex,
            Address := txInAddress,
            Amount := txInAmount,
            AddressOutIndex := input.Vout } }
    { multyTx with
      WalletsInput := multyTx.WalletsInput ++ [currentWallet],
      TxID := txVerbose.Txid,
      TxHash := txVerbose.Hash }

/-- The body of the outer loop of `parseInputs`, lines 541-576.  A failed lookup skips
the input; an index past the end of the previous transaction's outputs is a panic. -/
def parseInput {R : Type} (fl : Float64Ops) (rpc : String → Option (TxRawResult fl.F))
    (usersData : String → Option AddressExtended) (txVerbose : TxRawResult fl.F)
    (multyTx : MultyTx R) (input : Vin) : Option (MultyTx R) :=
  match rpc input.Txid with
  | none => some multyTx
  | some previousTxVerbose =>
    match previousTxVerbose.Vout[input.Vout]? with
    | none => none
    | some prevOut =>
      some (prevOut.ScriptPubKey.Addresses.foldl
        (parseInputAddress fl usersData txVerbose input prevOut) multyTx)

/-- The function `parseInputs`. -/
def parseInputs {R : Type} (fl : Float64Ops) (rpc : String → Option (TxRawResult fl.F))
    (usersData : String → Option AddressExtended) (txVerbose : TxRawResult fl.F)
    (multyTx : MultyTx R) : Option (MultyTx R) :=
  txVerbose.Vin.foldlM (parseInput fl rpc usersData txVerbose) multyTx

/-- The body of the inner loop of `parseOutputs`, lines 589-611, for the address
`txOutAddress` of `output`. -/
def parseOutputAddress {R : Type} (fl : Float64Ops)
    (usersData : String → Option AddressExtended) (txVerbose : TxRawResult fl.F)
    (output : Vout fl.F) (multyTx : MultyTx R) (txOutAddress : String) : MultyTx R :=
  match usersData txOutAddress with
  | none => multyTx
  | some addressEx =>
    let currentWallet : WalletForTx :=
      { UserID := addressEx.UserID,
        WalletIndex := addressEx.WalletIndex,
        Address :=
          { AddressIndex := addressEx.AddressIndex,
            Address := txOutAddress,
            Amount := fl.toInt64 (fl.mul fl.SatoshiToBitcoin output.Value),
            AddressOutIndex := output.N } }
    { multyTx with
      WalletsOutput := multyTx.WalletsOutput ++ [currentWallet],
      TxID := txVerbose.Txid,
      TxHash := txVerbose.Hash }

/-- The function `parseOutputs`. -/
def parseOutputs {R : Type} (fl : Float64Ops) (usersData : String → Option AddressExtended)
    (txVerbose : TxRawResult fl.F) (multyTx : MultyTx R) : MultyTx R :=
  txVerbose.Vout.foldl
    (fun (multyTx : MultyTx R) output =>
      output.ScriptPubKey.Addresses.foldl
        (parseOutputAddress fl usersData txVerbose output) multyTx)
    multyTx

/-- The function `ParseRawTransaction`: the pair `(multyTx, related)`, the pointer being
`none` for `nil`. -/
def ParseRawTransaction (R : Type) (fl : Float64Ops)
    (rpc : String → Option (TxRawResult fl.F))
    (usersData : String → Option AddressExtended) (txVerbose : TxRawResult fl.F) :
    Option (Option (MultyTx R) × Bool) :=
  match parseInputs fl rpc usersData txVerbose (MultyTx.zero R) with
  | none => none
  | some multyTx =>
    let multyTx := parseOutputs fl usersData txVerbose multyTx
    if multyTx.TxID ≠ "" then some (some multyTx, true) else some (none, false)

/-! ## `setTransactionStatus` (`utils.go`, lines 617-653) -/

/-- The function `setTransactionStatus`; `transactionTime` is the value of
`time.Now().Unix()` read at its first line. -/
def setTransactionStatus {R : Type} (tx : MultyTx R) (blockDiff : Int)
    (currentBlockHeight : Int) (fromInput : Bool) (transactionTime : Int) : MultyTx R :=
  if blockDiff > currentBlockHeight then
    let tx := { tx with Confirmations := 0 }
    if fromInput then
      { tx with TxStatus := TxStatusAppearedInMempoolOutcoming,
                MempoolTime := transactionTime, BlockTime := -1 }
    else
      { tx with TxStatus := TxStatusAppearedInMempoolIncoming,
                MempoolTime := transactionTime, BlockTime := -1 }
  else if blockDiff ≥ 0 ∧ blockDiff < 6 then
    let tx := { tx with Confirmations := wrapInt64 (blockDiff + 1) }
    if fromInput then
      { tx with TxStatus := TxStatusAppearedInBlockOutcoming, BlockTime := transactionTime }
    else
      { tx with TxStatus := TxStatusAppearedInBlockIncoming, BlockTime := transactionTime }
  else if blockDiff ≥ 6 ∧ blockDiff < currentBlockHeight then
    let tx := { tx with Confirmations := wrapInt64 (blockDiff + 1) }
    if fromInput then
      { tx with TxStatus := TxStatusInBlockConfirmedOutcoming }
    else
      { tx with TxStatus := TxStatusInBlockConfirmedIncoming }
  else
    tx

/-! ## `newEntity` and `splitTransaction` (`utils.go`, lines 291-388) -/

/-- The function `newEntity`: a copy of the listed fields; `UserID` and `Confirmations`
are not among them and keep their zero values. -/
def newEntity {R : Type} (multyTx : MultyTx R) : MultyTx R :=
  { UserID := "",
    TxID := multyTx.TxID,
    TxHash := multyTx.TxHash,
    TxOutScript := multyTx.TxOutScript,
    TxAddress := multyTx.TxAddress,
    TxStatus := multyTx.TxStatus,
    TxOutAmount := multyTx.TxOutAmount,
    BlockTime := multyTx.BlockTime,
    BlockHeight := multyTx.BlockHeight,
    Confirmations := 0,
    TxFee := multyTx.TxFee,
    MempoolTime := multyTx.MempoolTime,
    StockExchangeRate := multyTx.StockExchangeRate,
    TxInputs := multyTx.TxInputs,
    TxOutputs := multyTx.TxOutputs,
    WalletsInput := multyTx.WalletsInput,
    WalletsOutput := multyTx.WalletsOutput }

/-- The flag `isTheSameWallet` after the inner loop of lines 309-314. -/
def isTheSameWallet (walletsInput : List WalletForTx) (walletOutput : WalletForTx) : Bool :=
  walletsInput.foldl
    (fun flag walletInput =>
      if walletInput.UserID = walletOutput.UserID
          ∧ walletInput.WalletIndex = walletOutput.WalletIndex then true else flag)
    false

/-- The outgoing pass, lines 304-321: the outgoing view before classification. -/
def outgoingEntity {R : Type} (multyTx : MultyTx R) : MultyTx R :=
  let outgoingTx := newEntity multyTx
  let outgoingTx := { outgoingTx with WalletsOutput := [] }
  multyTx.WalletsOutput.foldl
    (fun (o : MultyTx R) walletOutput =>
      if isTheSameWallet o.WalletsInput walletOutput then
        { o with WalletsOutput := o.WalletsOutput ++ [walletOutput] }
      else o)
    outgoingTx

/-- The flag `alreadyAdded` after the loop over `transactions`, lines 326-349.  The
branch guarded by `&transactions[i] == nil` can never be taken (the address of a slice
element is never nil) and is left out. -/
def alreadyAdded {R : Type} (transactions : List (MultyTx R)) (walletOutput : WalletForTx) :
    Bool :=
  transactions.foldl
    (fun flag t =>
      let flag :=
        if t.WalletsInput.length > 0 then
          t.WalletsInput.foldl
            (fun f splitedInput =>
              if splitedInput.UserID = walletOutput.UserID
                  ∧ splitedInput.WalletIndex = walletOutput.WalletIndex then true else f)
            flag
        else flag
      if t.WalletsOutput.length > 0 then
        t.WalletsOutput.foldl
          (fun f o =>
            if walletOutput.UserID = o.UserID
                ∧ walletOutput.WalletIndex = o.WalletIndex then true else f)
          flag
      else flag)
    false

/-- One iteration of the incoming pass, lines 325-362.  `clock k` is the value of
`time.Now().Unix()` read by the call of `setTransactionStatus` that classifies the
view at position `k` of the result. -/
def incomingStep {R : Type} (multyTx : MultyTx R) (blockDiff currentBlockHeight : Int)
    (clock : Nat → Int) (transactions : List (MultyTx R)) (walletOutput : WalletForTx) :
    List (MultyTx R) :=
  if alreadyAdded transactions walletOutput then transactions
  else
    let incomingTx := newEntity multyTx
    let incomingTx := { incomingTx with WalletsInput := [] }
    let incomingTx := { incomingTx with WalletsOutput := [] }
    let incomingTx := { incomingTx with WalletsOutput := incomingTx.WalletsOutput ++ [walletOutput] }
    let incomingTx :=
      setTransactionStatus incomingTx blockDiff currentBlockHeight false
        (clock transactions.length)
    transactions ++ [incomingTx]

/-- The function `splitTransaction`.  `currentBlockHeight` is what
`c.RPCClient.GetBlockCount()` returned. -/
def splitTransaction {R : Type} (multyTx : MultyTx R) (blockHeight : Int)
    (currentBlockHeight : Int) (clock : Nat → Int) : List (MultyTx R) :=
  let transactions : List (MultyTx R) := []
  let blockDiff := wrapInt64 (currentBlockHeight - blockHeight)
  let transactions :=
    if multyTx.WalletsInput.length > 0 then
      let outgoingTx := outgoingEntity multyTx
      let outgoingTx :=
        setTransactionStatus outgoingTx blockDiff currentBlockHeight true
          (clock transactions.length)
      transactions ++ [outgoingTx]
    else transactions
  if multyTx.WalletsOutput.length > 0 then
    multyTx.WalletsOutput.foldl
      (incomingStep multyTx blockDiff currentBlockHeight clock) transactions
  else transactions

/-! ## `finalizeTransaction` (`utils.go`, lines 655-695) -/

/-- The body of the innermost loop of `finalizeTransaction` (lines 672-675 and 686-689)
on the pair of the output touch and the view's `TxOutScript`. -/
def matchVoutAddress {F : Type} (txVerbose : TxRawResult F) (output : Vout F)
    (acc : WalletForTx × String) (outAddr : String) : Option (WalletForTx × String) :=
  if acc.1.Address.Address = outAddr then
    match txVerbose.Vout[output.N]? with
    | none => none
    | some matched =>
      some ({ acc.1 with Address := { acc.1.Address with AddressOutIndex := output.N } },
            matched.ScriptPubKey.Hex)
  else some acc

/-- The two inner loops of `finalizeTransaction` (lines 670-676 and 684-690) for one
output touch: the touch and the view's `TxOutScript` after them.  The index
`txVerbose.Vout[output.N]` past the end of the outputs is a panic. -/
def matchVout {F : Type} (txVerbose : TxRawResult F) (walletOutput : WalletForTx)
    (txOutScript : String) : Option (WalletForTx × String) :=
  txVerbose.Vout.foldlM
    (fun (acc : WalletForTx × String) output =>
      output.ScriptPubKey.Addresses.foldlM (matchVoutAddress txVerbose output) acc)
    (walletOutput, txOutScript)

/-- The body of the loop over `tx.WalletsInput` of the outgoing branch, lines 663-664. -/
def finalizeInput {R : Type} (tx : MultyTx R) (walletInput : WalletForTx) : MultyTx R :=
  { tx with
    TxOutAmount := wrapInt64 (tx.TxOutAmount + walletInput.Address.Amount),
    TxAddress := tx.TxAddress ++ [walletInput.Address.Address] }

/-- The loop over `tx.WalletsInput` of the outgoing branch, lines 662-665. -/
def finalizeInputs {R : Type} (tx : MultyTx R) : MultyTx R :=
  tx.WalletsInput.foldl finalizeInput tx

/-- The body of the loop over `tx.WalletsOutput` of the outgoing branch, lines 668-677,
for the touch `tx.WalletsOutput[i]`.  The touches already visited are collected in
`WalletsOutput` of the accumulator. -/
def finalizeOutgoingOutput {R F : Type} (txVerbose : TxRawResult F) (tx : MultyTx R)
    (walletOutput : WalletForTx) : Option (MultyTx R) :=
  let tx := { tx with TxOutAmount := wrapInt64 (tx.TxOutAmount - walletOutput.Address.Amount) }
  match matchVout txVerbose walletOutput tx.TxOutScript with
  | none => none
  | some (walletOutput, txOutScript) =>
    some { tx with
           WalletsOutput := tx.WalletsOutput ++ [walletOutput],
           TxOutScript := txOutScript }

/-- The loop over `tx.WalletsOutput` of the outgoing branch, lines 667-678. -/
def finalizeOutgoingOutputs {R F : Type} (txVerbose : TxRawResult F) (tx : MultyTx R) :
    Option (MultyTx R) :=
  tx.WalletsOutput.foldlM (finalizeOutgoingOutput txVerbose) { tx with WalletsOutput := [] }

/-- The body of the loop over `tx.WalletsOutput` of the incoming branch, lines 681-691,
for the touch `tx.WalletsOutput[i]`. -/
def finalizeIncomingOutput {R F : Type} (txVerbose : TxRawResult F) (tx : MultyTx R)
    (walletOutput : WalletForTx) : Option (MultyTx R) :=
  let tx :=
    { tx with
      TxOutAmount := wrapInt64 (tx.TxOutAmount + walletOutput.Address.Amount),
      TxAddress := tx.TxAddress ++ [walletOutput.Address.Address] }
  match matchVout txVerbose walletOutput tx.TxOutScript with
  | none => none
  | some (walletOutput, txOutScript) =>
    some { tx with
           WalletsOutput := tx.WalletsOutput ++ [walletOutput],
           TxOutScript := txOutScript }

/-- The loop over `tx.WalletsOutput` of the incoming branch, lines 680-692. -/
def finalizeIncomingOutputs {R F : Type} (txVerbose : TxRawResult F) (tx : MultyTx R) :
    Option (MultyTx R) :=
  tx.WalletsOutput.foldlM (finalizeIncomingOutput txVerbose) { tx with WalletsOutput := [] }

/-- The function `finalizeTransaction`, returning the transaction it leaves behind the
pointer.  Replacing a nil `TxAddress` by an empty slice changes nothing on lists. -/
def finalizeTransaction {R F : Type} (tx : MultyTx R) (txVerbose : TxRawResult F) :
    Option (MultyTx R) :=
  if tx.TxStatus = TxStatusInBlockConfirmedOutcoming
      ∨ tx.TxStatus = TxStatusAppearedInBlockOutcoming
      ∨ tx.TxStatus = TxStatusAppearedInMempoolOutcoming then
    finalizeOutgoingOutputs txVerbose (finalizeInputs tx)
  else
    finalizeIncomingOutputs txVerbose tx

/-! ## `storeTxToGenerated` and `saveMultyTransaction` (`utils.go`, lines 390-535) -/

/-- The function `storeTxToGenerated`; `Resync` has its zero value. -/
def storeTxToGenerated {R : Type} (tx : MultyTx R) : BTCTransaction :=
  let outs : List BTCTransaction_AddresAmount :=
    tx.TxOutputs.map (fun output => { Address := output.Address, Amount := output.Amount })
  let ins : List BTCTransaction_AddresAmount :=
    tx.TxInputs.map (fun inputs => { Address := inputs.Address, Amount := inputs.Amount })
  let walletsOutput : List BTCTransaction_WalletForTx :=
    tx.WalletsOutput.map (fun wOutput =>
      { Userid := wOutput.UserID,
        Address := wOutput.Address.Address,
        Amount := wOutput.Address.Amount,
        TxOutIndex := wrapInt32 wOutput.Address.AddressOutIndex })
  let walletsInput : List BTCTransaction_WalletForTx :=
    tx.WalletsInput.map (fun wInput =>
      { Userid := wInput.UserID,
        Address := wInput.Address.Address,
        Amount := wInput.Address.Amount,
        TxOutIndex := wrapInt32 wInput.Address.AddressOutIndex })
  { UserID := tx.UserID,
    TxID := tx.TxID,
    TxHash := tx.TxHash,
    TxOutScript := tx.TxOutScript,
    TxAddress := tx.TxAddress,
    TxStatus := wrapInt32 tx.TxStatus,
    TxOutAmount := tx.TxOutAmount,
    BlockTime := tx.BlockTime,
    BlockHeight := tx.BlockHeight,
    Confirmations := wrapInt32 tx.Confirmations,
    TxFee := tx.TxFee,
    MempoolTime := tx.MempoolTime,
    TxInputs := ins,
    TxOutputs := outs,
    WalletsInput := walletsInput,
    WalletsOutput := walletsOutput,
    Resync := false }

/-- The block of lines 395-410 (and 428-444): the amount that overrides `TxOutAmount`.
The index `tx.TxAddress[0]` on an empty `TxAddress` is a panic. -/
def overrideAmount {R : Type} (tx : MultyTx R) : Option Int :=
  let amount : Int := 0
  let amount :=
    if tx.TxAddress.length ≠ 0 then
      tx.TxInputs.foldlM
        (fun (amount : Int) in_ =>
          match tx.TxAddress[0]? with
          | none => none
          | some first =>
            some (if in_.Address = first then wrapInt64 (amount + in_.Amount) else amount))
        amount
    else some amount
  match amount with
  | none => none
  | some amount =>
    if amount = 0 then
      tx.TxOutputs.foldlM
        (fun (amount : Int) out =>
          match tx.TxAddress[0]? with
          | none => none
          | some first =>
            some (if out.Address = first then wrapInt64 (amount + out.Amount) else amount))
        amount
    else some amount

/-- The loops of lines 414-419 and 462-467: the first non-empty `UserID` of the touches,
if there is one, replaces `tx.UserID`. -/
def fetchUserID (wallets : List WalletForTx) (userID : String) : String :=
  match wallets.find? (fun w => w.UserID ≠ "") with
  | some w => w.UserID
  | none => userID

/-- The function `saveMultyTransaction`: the messages sent on `TransactionsCh`, in
order; `none` when it panics (which can only happen before the send). -/
def saveMultyTransaction {R : Type} (tx : MultyTx R) (resync : Bool) :
    Option (List BTCTransaction) :=
  if tx.WalletsInput.length > 0 then
    let tx? : Option (MultyTx R) :=
      if tx.WalletsInput.length > 0 ∧ tx.WalletsOutput.length > 0 then
        match overrideAmount tx with
        | none => none
        | some amount => some { tx with TxOutAmount := amount }
      else some tx
    match tx? with
    | none => none
    | some tx =>
      let tx := { tx with UserID := fetchUserID tx.WalletsInput tx.UserID }
      let outcomingTx := storeTxToGenerated tx
      some [outcomingTx]
  else if tx.WalletsOutput.length > 0 then
    let tx? : Option (MultyTx R) :=
      if tx.WalletsInput.length > 0 ∧ tx.WalletsOutput.length > 0 then
        match overrideAmount tx with
        | none => none
        | some amount => some { tx with TxOutAmount := amount }
      else some tx
    match tx? with
    | none => none
    | some tx =>
      let tx := { tx with UserID := fetchUserID tx.WalletsOutput tx.UserID }
      let incomingTx := storeTxToGenerated tx
      let incomingTx := { incomingTx with Resync := resync }
      some [incomingTx]
  else some []

/-! ## Spendable outputs (`utils.go`, lines 697-794) -/

/-- The function `spOutToGenerated`. -/
def spOutToGenerated (spOut : SpendableOutputs) : AddSpOut :=
  { TxID := spOut.TxID,
    TxOutID := wrapInt32 spOut.TxOutID,
    TxOutAmount := spOut.TxOutAmount,
    TxOutScript := spOut.TxOutScript,
    Address := spOut.Address,
    UserID := spOut.UserID,
    TxStatus := wrapInt32 spOut.TxStatus,
    WalletIndex := wrapInt32 spOut.WalletIndex,
    AddressIndex := wrapInt32 spOut.AddressIndex }

/-- The function `delSpOutToGenerated`. -/
def delSpOutToGenerated (del : DeleteSpendableOutput) : ReqDeleteSpOut :=
  { UserID := del.UserID, TxID := del.TxID, Address := del.Address }

/-- The function `CreateSpendableOutputs`: the messages sent on `c.AddSpOut`, in order. -/
def CreateSpendableOutputs (fl : Float64Ops) (usersData : String → Option AddressExtended)
    (tx : TxRawResult fl.F) (blockHeight : Int) : List AddSpOut :=
  tx.Vout.foldl
    (fun (sent : List AddSpOut) output =>
      match output.ScriptPubKey.Addresses with
      | [] => sent
      | address :: _ =>
        match usersData address with
        | none => sent
        | some addressEx =>
          let txStatus :=
            if blockHeight = -1 then storeTxStatusAppearedInMempoolIncoming
            else storeTxStatusAppearedInBlockIncoming
          let amount := fl.toInt64 (fl.mul output.Value fl.SatoshiToBitcoin)
          let spendableOutput : SpendableOutputs :=
            { TxID := tx.Txid,
              TxOutID := output.N,
              TxOutAmount := amount,
              TxOutScript := output.ScriptPubKey.Hex,
              Address := address,
              UserID := addressEx.UserID,
              TxStatus := txStatus,
              WalletIndex := addressEx.WalletIndex,
              AddressIndex := addressEx.AddressIndex }
          sent ++ [spOutToGenerated spendableOutput])
    []

/-- The function `DeleteSpendableOutputs`: the messages sent on `c.DelSpOut`, in order,
and whether the function ran to its end (`false`: it panicked on an index past the end
of the previous transaction's outputs, after sending the messages listed). -/
def DeleteSpendableOutputs {F : Type} (rpc : String → Option (TxRawResult F))
    (usersData : String → Option AddressExtended) :
    List Vin → List ReqDeleteSpOut × Bool
  | [] => ([], true)
  | input :: rest =>
    match rpc input.Txid with
    | none => DeleteSpendableOutputs rpc usersData rest
    | some previousTx =>
      match previousTx.Vout[input.Vout]? with
      | none => ([], false)
      | some prevOut =>
        match prevOut.ScriptPubKey.Addresses with
        | [] => DeleteSpendableOutputs rpc usersData rest
        | address :: _ =>
          match usersData address with
          | none => DeleteSpendableOutputs rpc usersData rest
          | some addressEx =>
            let reqDelete : DeleteSpendableOutput :=
              { UserID := addressEx.UserID, TxID := previousTx.Txid, Address := address }
            let del := delSpOutToGenerated reqDelete
            let later := DeleteSpendableOutputs rpc usersData rest
            (del :: later.1, later.2)

/-! ## `ResyncSpendableOutputs` (`utils.go`, lines 181-257) -/

/-- The first loop of `ResyncSpendableOutputs`, lines 186-222: the slice `spOuts`.  The
local `address` of the loop hides the parameter of the same name. -/
def resyncSpOuts (fl : Float64Ops) (usersData : String → Option AddressExtended)
    (tx : TxRawResult fl.F) (blockHeight : Int) : List AddSpOut :=
  tx.Vout.foldl
    (fun (spOuts : List AddSpOut) output =>
      match output.ScriptPubKey.Addresses with
      | [] => spOuts
      | address :: _ =>
        match usersData address with
        | none => spOuts
        | some addressEx =>
          let txStatus :=
            if blockHeight = -1 then storeTxStatusAppearedInMempoolIncoming
            else storeTxStatusAppearedInBlockIncoming
          let amount := fl.toInt64 (fl.mul output.Value fl.SatoshiToBitcoin)
          let spendableOutput : SpendableOutputs :=
            { TxID := tx.Txid,
              TxOutID := output.N,
              TxOutAmount := amount,
              TxOutScript := output.ScriptPubKey.Hex,
              Address := address,
              UserID := addressEx.UserID,
              TxStatus := txStatus,
              WalletIndex := addressEx.WalletIndex,
              AddressIndex := addressEx.AddressIndex }
          let spOut := spOutToGenerated spendableOutput
          spOuts ++ [spOut])
    []

/-- The body of the second loop of `ResyncSpendableOutputs`, lines 225-253, on the slice
`delOuts`.  An index past the end of the previous transaction's outputs is a panic. -/
def resyncDelOut {F : Type} (rpc : String → Option (TxRawResult F))
    (usersData : String → Option AddressExtended) (delOuts : List ReqDeleteSpOut)
    (input : Vin) : Option (List ReqDeleteSpOut) :=
  match rpc input.Txid with
  | none => some delOuts
  | some previousTx =>
    match previousTx.Vout[input.Vout]? with
    | none => none
    | some prevOut =>
      match prevOut.ScriptPubKey.Addresses with
      | [] => some delOuts
      | address :: _ =>
        match usersData address with
        | none => some delOuts
        | some addressEx =>
          let reqDelete : DeleteSpendableOutput :=
            { UserID := addressEx.UserID, TxID := previousTx.Txid, Address := address }
          let del := delSpOutToGenerated reqDelete
          some (delOuts ++ [del])

/-- The function `ResyncSpendableOutputs`: the pair `(spOuts, delOuts)` it returns, `none`
when it panics.  The parameters `address` and `userid` are never read by the source (the
loops declare their own `address`). -/
def ResyncSpendableOutputs (fl : Float64Ops) (rpc : String → Option (TxRawResult fl.F))
    (usersData : String → Option AddressExtended) (tx : TxRawResult fl.F)
    (blockHeight : Int) (_address _userid : String) :
    Option (List AddSpOut × List ReqDeleteSpOut) :=
  let spOuts := resyncSpOuts fl usersData tx blockHeight
  match tx.Vin.foldlM (resyncDelOut rpc usersData) [] with
  | none => none
  | some delOuts => some (spOuts, delOuts)

/-! ## `ProcessTransaction` (`utils.go`, lines 130-151) -/

/-- One message sent by `ProcessTransaction`, tagged with the channel it is sent on. -/
inductive Event where
  | addSpOut (m : AddSpOut)
  | delSpOut (m : ReqDeleteSpOut)
  | transaction (m : BTCTransaction)
deriving DecidableEq

/-- The loop of lines 146-149 over the views: the messages sent on `c.TransactionsCh`,
in order, and whether the loop ran to its end. -/
def dispatchViews {R F : Type} (txVerbose : TxRawResult F) (isReSync : Bool) :
    List (MultyTx R) → List Event × Bool
  | [] => ([], true)
  | transaction :: rest =>
    match finalizeTransaction transaction txVerbose with
    | none => ([], false)
    | some transaction =>
      match saveMultyTransaction transaction isReSync with
      | none => ([], false)
      | some sent =>
        let later := dispatchViews txVerbose isReSync rest
        (sent.map Event.transaction ++ later.1, later.2)

/-- The function `ProcessTransaction`: every message it sends, in the order of the
sends, and whether it ran to its end (`false`: it panicked after the sends listed).
`currentBlockHeight` is the answer to `GetBlockCount` inside `splitTransaction`. -/
def ProcessTransaction (R : Type) (fl : Float64Ops)
    (rpc : String → Option (TxRawResult fl.F))
    (usersData : String → Option AddressExtended) (currentBlockHeight : Int)
    (clock : Nat → Int) (blockChainBlockHeight : Int) (txVerbose : TxRawResult fl.F)
    (isReSync : Bool) : List Event × Bool :=
  match ParseRawTransaction R fl rpc usersData txVerbose with
  | none => ([], false)
  | some (multyTx, related) =>
    let ledger : List Event × Bool :=
      if related then
        let created := CreateSpendableOutputs fl usersData txVerbose blockChainBlockHeight
        let deleted := DeleteSpendableOutputs rpc usersData txVerbose.Vin
        (created.map Event.addSpOut ++ deleted.1.map Event.delSpOut, deleted.2)
      else ([], true)
    if ledger.2 = false then ledger
    else
      match multyTx with
      | none => ledger
      | some multyTx =>
        let multyTx := { multyTx with BlockHeight := blockChainBlockHeight }
        match setTransactionInfo fl rpc multyTx txVerbose blockChainBlockHeight isReSync with
        | none => (ledger.1, false)
        | some multyTx =>
          let transactions :=
            splitTransaction multyTx blockChainBlockHeight currentBlockHeight clock
          let views := dispatchViews txVerbose isReSync transactions
          (ledger.1 ++ views.1, views.2)

/-! ## Auxiliary definitions for statements and proofs -/

/-- The pair `(UserID, WalletIndex)` that identifies a wallet. -/
structure WalletKey where
  UserID : String
  WalletIndex : Int
deriving DecidableEq

/-- The wallet a touch belongs to. -/
def walletKey (w : WalletForTx) : WalletKey := ⟨w.UserID, w.WalletIndex⟩

/-- The wallets of all input and output touches of a list of views, in order. -/
def coveredKeys {R : Type} : List (MultyTx R) → List (WalletKey)
  | [] => []
  | t :: ts => (t.WalletsInput.map walletKey ++ t.WalletsOutput.map walletKey) ++ coveredKeys ts

/-- The touches of a list whose wallet is not in `seen` and not the wallet of an earlier
touch of the list: the first touch of every wallet outside `seen`. -/
def freshTouches (seen : List (WalletKey)) : List WalletForTx → List WalletForTx
  | [] => []
  | w :: ws =>
    if walletKey w ∈ seen then freshTouches seen ws
    else w :: freshTouches (seen ++ [walletKey w]) ws

/-- The incoming view that lines 355-359 build for the output touch `w`. -/
def incomingView {R : Type} (multyTx : MultyTx R) (blockDiff tip now : Int) (w : WalletForTx) :
    MultyTx R :=
  setTransactionStatus { newEntity multyTx with WalletsInput := [], WalletsOutput := [w] }
    blockDiff tip false now

/-- The incoming view that lines 355-359 build for the output touch `w`. -/
def incomingViews {R : Type} (multyTx : MultyTx R) (blockDiff tip : Int) (clock : Nat → Int) :
    Nat → List WalletForTx → List (MultyTx R)
  | _, [] => []
  | k, w :: ws =>
    incomingView multyTx blockDiff tip (clock k) w
      :: incomingViews multyTx blockDiff tip clock (k + 1) ws

/-- The touch `w` with its `AddressOutIndex` replaced by `n`. -/
def withOutIndex (w : WalletForTx) (n : Int) : WalletForTx :=
  { w with Address := { w.Address with AddressOutIndex := n } }

/-- Every output of the raw transaction carries an index `N` within its list of outputs
(the node numbers the outputs `0, 1, ..`). -/
def outputsIndexed {F : Type} (txVerbose : TxRawResult F) : Prop :=
  ∀ output ∈ txVerbose.Vout, output.N < txVerbose.Vout.length

instance {F : Type} (txVerbose : TxRawResult F) : Decidable (outputsIndexed txVerbose) := by
  unfold outputsIndexed; exact inferInstance

/-- Rounding of a rational toward zero. -/
def truncToInt (q : ℚ) : Int := Int.tdiv q.num q.den

/-- Exact arithmetic on rationals in the place of `float64`: it gives what `float64`
gives whenever every operand and result is a binary fraction of at most 53 bits, as
for the amounts `0.5`, `1.0` and their products with `100000000`.  The conversion
`int64(..)` truncates toward zero. -/
def exactOps : Float64Ops :=
  { F := ℚ, zero := 0, add := fun a b => a + b, sub := fun a b => a - b,
    mul := fun a b => a * b, SatoshiToBitcoin := 100000000, toInt64 := truncToInt }

/-! ### The `float64` arithmetic of Go (IEEE 754 binary64) -/

/-- A `float64` value: a finite binary64 number, an infinity or a NaN.  The two zeros are
the one value `finite 0`: `utils.go` adds, subtracts and multiplies `float64` values and
converts them to `int64`, and none of these operations tells the zeros apart. -/
inductive Float64 where
  | finite (value : ℚ)
  | inf (negative : Bool)
  | nan
deriving DecidableEq

/-- The number of halvings that take `n` below 2, at most `fuel` of them. -/
def halvings : Nat → Nat → Nat
  | 0, _ => 0
  | fuel + 1, n => if 2 ≤ n then halvings fuel (n / 2) + 1 else 0

/-- The integer `e` with `2 ^ e ≤ n / d < 2 ^ (e + 1)`, for positive `n` and `d`. -/
def floorLog2 (n d : Nat) : Int :=
  let k : Int := (halvings n n : Int) - (halvings d d : Int)
  if (if 0 ≤ k then d * 2 ^ k.toNat ≤ n else d ≤ n * 2 ^ (-k).toNat) then k else k - 1

/-- The integer nearest to `n / d`, a tie going to the even one. -/
def roundHalfEven (n d : Nat) : Nat :=
  let f := n / d
  let r := n % d
  if 2 * r < d then f else if d < 2 * r then f + 1 else if f % 2 = 0 then f else f + 1

/-- Rounding of a rational to `float64` as IEEE 754 prescribes for binary64 in the default
mode: the nearest multiple of the quantum `2 ^ (max e (-1022) - 52)`, where
`2 ^ e ≤ |q| < 2 ^ (e + 1)`, a tie going to the even multiple, and an infinity when the
result reaches `2 ^ 1024`. -/
def roundFloat64 (q : ℚ) : Float64 :=
  if q.num = 0 then Float64.finite 0
  else
    let n := q.num.natAbs
    let d := q.den
    let p : Int := max (floorLog2 n d) (-1022) - 52
    if 0 ≤ p then
      let m := roundHalfEven n (d * 2 ^ p.toNat) * 2 ^ p.toNat
      if 2 ^ 1024 ≤ m then Float64.inf (decide (q.num < 0))
      else Float64.finite (if q.num < 0 then -((m : Nat) : ℚ) else ((m : Nat) : ℚ))
    else
      let m := mkRat (roundHalfEven (n * 2 ^ (-p).toNat) d) (2 ^ (-p).toNat)
      Float64.finite (if q.num < 0 then -m else m)

/-- The negation of a `float64`. -/
def Float64.neg : Float64 → Float64
  | Float64.finite a => Float64.finite (-a)
  | Float64.inf s => Float64.inf (!s)
  | Float64.nan => Float64.nan

/-- The sum `a + b` of two `float64`. -/
def Float64.add : Float64 → Float64 → Float64
  | Float64.finite a, Float64.finite b => roundFloat64 (a + b)
  | Float64.finite _, Float64.inf s => Float64.inf s
  | Float64.inf s, Float64.finite _ => Float64.inf s
  | Float64.inf s, Float64.inf t => if s = t then Float64.inf s else Float64.nan
  | Float64.nan, _ => Float64.nan
  | _, Float64.nan => Float64.nan

/-- The difference `a - b` of two `float64`. -/
def Float64.sub (a b : Float64) : Float64 := Float64.add a (Float64.neg b)

/-- The product `a * b` of two `float64`. -/
def Float64.mul : Float64 → Float64 → Float64
  | Float64.finite a, Float64.finite b => roundFloat64 (a * b)
  | Float64.finite a, Float64.inf s =>
    if a.num = 0 then Float64.nan else Float64.inf (s != decide (a.num < 0))
  | Float64.inf s, Float64.finite a =>
    if a.num = 0 then Float64.nan else Float64.inf (s != decide (a.num < 0))
  | Float64.inf s, Float64.inf t => Float64.inf (s != t)
  | Float64.nan, _ => Float64.nan
  | _, Float64.nan => Float64.nan

/-- The conversion `int64(x)` of a `float64`: the fraction is discarded.  For a value
that does not fit, where the Go specification leaves the result to the implementation,
the result is the one of amd64, `-2 ^ 63`. -/
def Float64.toInt64 : Float64 → Int
  | Float64.finite a =>
    if isInt64 (truncToInt a) then truncToInt a else -9223372036854775808
  | _ => -9223372036854775808

/-- The message is a create- or delete-spendable record. -/
def Event.isLedger : Event → Bool
  | Event.addSpOut _ => true
  | Event.delSpOut _ => true
  | Event.transaction _ => false

/-- The message is a view sent on the transaction stream. -/
def Event.isView : Event → Bool
  | Event.transaction _ => true
  | _ => false

/-- The previous outputs that the inputs spend, in input order; `none` when a lookup
fails or an index lies past the end of the previous transaction's outputs. -/
def resolveInputs {F : Type} (rpc : String → Option (TxRawResult F)) :
    List Vin → Option (List (Vout F))
  | [] => some []
  | input :: rest =>
    match rpc input.Txid with
    | none => none
    | some previousTxVerbose =>
      match previousTxVerbose.Vout[input.Vout]? with
      | none => none
      | some prevOut =>
        match resolveInputs rpc rest with
        | none => none
        | some outs => some (prevOut :: outs)

/-- One entry for every address of every output, with the output's value in satoshi. -/
def addressAmounts (fl : Float64Ops) (outs : List (Vout fl.F)) : List AddressAmount :=
  outs.flatMap (fun out =>
    out.ScriptPubKey.Addresses.map (fun address =>
      newAddressAmount address (fl.toInt64 (fl.mul out.Value fl.SatoshiToBitcoin))))

/-- The `float64` sum of the values of a list of outputs, each output added once, from
the left. -/
def valueSum (fl : Float64Ops) (outs : List (Vout fl.F)) : fl.F :=
  outs.foldl (fun sum out => fl.add sum out.Value) fl.zero

/-- The value is representable as an `int32`. -/
def isInt32 (x : Int) : Prop :=
  -2147483648 ≤ x ∧ x < 2147483648

instance (x : Int) : Decidable (isInt32 x) := by
  unfold isInt32; exact inferInstance

/-- The input touches the parser is to record for `input` spending `prevOut`: one for
every address of `prevOut` that is in the users map, in address order. -/
def expectedInputTouches (fl : Float64Ops) (usersData : String → Option AddressExtended)
    (input : Vin) (prevOut : Vout fl.F) : List WalletForTx :=
  prevOut.ScriptPubKey.Addresses.filterMap (fun address =>
    (usersData address).map (fun owner =>
      { UserID := owner.UserID,
        WalletIndex := owner.WalletIndex,
        Address :=
          { AddressIndex := owner.AddressIndex,
            Address := address,
            Amount := fl.toInt64 (fl.mul fl.SatoshiToBitcoin prevOut.Value),
            AddressOutIndex := input.Vout } }))

/-- The output touches the parser is to record for `output`: one for every address of
`output` that is in the users map, in address order. -/
def expectedOutputTouches (fl : Float64Ops) (usersData : String → Option AddressExtended)
    (output : Vout fl.F) : List WalletForTx :=
  output.ScriptPubKey.Addresses.filterMap (fun address =>
    (usersData address).map (fun owner =>
      { UserID := owner.UserID,
        WalletIndex := owner.WalletIndex,
        Address :=
          { AddressIndex := owner.AddressIndex,
            Address := address,
            Amount := fl.toInt64 (fl.mul fl.SatoshiToBitcoin output.Value),
            AddressOutIndex := output.N } }))

/-- The transaction `m` after the parser has recorded the input touches `touches`. -/
def withInputTouches {R F : Type} (txVerbose : TxRawResult F) (m : MultyTx R)
    (touches : List WalletForTx) : MultyTx R :=
  if touches = [] then m
  else { m with WalletsInput := m.WalletsInput ++ touches,
                TxID := txVerbose.Txid, TxHash := txVerbose.Hash }

/-- The transaction `m` after the parser has recorded the output touches `touches`. -/
def withOutputTouches {R F : Type} (txVerbose : TxRawResult F) (m : MultyTx R)
    (touches : List WalletForTx) : MultyTx R :=
  if touches = [] then m
  else { m with WalletsOutput := m.WalletsOutput ++ touches,
                TxID := txVerbose.Txid, TxHash := txVerbose.Hash }

/-! ## Example inputs: the scenarios of the specification -/

/-- A touch of the wallet `(userID, walletIndex)` at `address` with `amount` satoshi. -/
def exampleTouch (userID : String) (walletIndex : Int) (address : String) (amount : Int)
    (outIndex : Int) : WalletForTx :=
  { UserID := userID, WalletIndex := walletIndex,
    Address := { AddressIndex := 0, Address := address, Amount := amount,
                 AddressOutIndex := outIndex } }

/-- Scenario 5: a transfer from wallet 0 to wallet 1 of the user `U`. -/
def selfTransferTx : MultyTx Unit :=
  { MultyTx.zero Unit with
    TxID := "t5", TxHash := "h5",
    WalletsInput := [exampleTouch "U" 0 "A" 100000000 0],
    WalletsOutput := [exampleTouch "U" 1 "B" 99000000 0] }

/-- Outputs to wallet `(U, 0)`, wallet `(V, 3)` and again wallet `(U, 0)`. -/
def threeOutputsTx : MultyTx Unit :=
  { MultyTx.zero Unit with
    TxID := "t4", TxHash := "h4",
    WalletsOutput :=
      [exampleTouch "U" 0 "A" 20000000 0, exampleTouch "V" 3 "B" 30000000 1,
       exampleTouch "U" 0 "C" 10000000 2] }

/-- Scenario 1: two inputs and two outputs, none of a tracked address. -/
def untrackedTx : TxRawResult ℚ :=
  { Txid := "t1", Hash := "h1",
    Vin := [{ Txid := "p1", Vout := 0 }, { Txid := "p2", Vout := 1 }],
    Vout := [{ Value := 1 / 2, N := 0, ScriptPubKey := { Hex := "s0", Addresses := ["X"] } },
             { Value := 1 / 4, N := 1, ScriptPubKey := { Hex := "s1", Addresses := ["Y"] } }],
    Time := 1700000000, Blocktime := 1700000600 }

/-- The transaction whose output 0 the first input of scenario 1 spends. -/
def untrackedPrev1 : TxRawResult ℚ :=
  { Txid := "p1", Hash := "hp1", Vin := [],
    Vout := [{ Value := 1 / 2, N := 0, ScriptPubKey := { Hex := "q0", Addresses := ["P"] } }],
    Time := 1699990000, Blocktime := 1699990600 }

/-- The transaction whose output 1 the second input of scenario 1 spends. -/
def untrackedPrev2 : TxRawResult ℚ :=
  { Txid := "p2", Hash := "hp2", Vin := [],
    Vout := [{ Value := 1, N := 0, ScriptPubKey := { Hex := "r0", Addresses := ["Q"] } },
             { Value := 1 / 2, N := 1, ScriptPubKey := { Hex := "r1", Addresses := ["Q2"] } }],
    Time := 1699990000, Blocktime := 1699990600 }

/-- The previous transactions of scenario 1 as the node returns them. -/
def untrackedRpc (txid : String) : Option (TxRawResult ℚ) :=
  if txid = "p1" then some untrackedPrev1
  else if txid = "p2" then some untrackedPrev2
  else none

/-- Scenario 3 after parsing and enrichment: input `A` of wallet `(U, 0)` with 1 BTC,
outputs 0.7 BTC to the external `X` and 0.29 BTC to `B` of wallet `(U, 0)`. -/
def scenario3Tx : MultyTx Unit :=
  { MultyTx.zero Unit with
    TxID := "t3", TxHash := "h3", BlockHeight := 50, TxFee := 1000000,
    TxInputs := [{ Address := "A", Amount := 100000000 }],
    TxOutputs := [{ Address := "X", Amount := 70000000 },
                  { Address := "B", Amount := 29000000 }],
    WalletsInput := [exampleTouch "U" 0 "A" 100000000 0],
    WalletsOutput := [exampleTouch "U" 0 "B" 29000000 1] }

/-- The raw transaction of scenario 3. -/
def scenario3Verbose : TxRawResult ℚ :=
  { Txid := "t3", Hash := "h3", Vin := [{ Txid := "p3", Vout := 0 }],
    Vout := [{ Value := 7 / 10, N := 0, ScriptPubKey := { Hex := "sx", Addresses := ["X"] } },
             { Value := 29 / 100, N := 1,
               ScriptPubKey := { Hex := "sb", Addresses := ["B"] } }],
    Time := 1700000000, Blocktime := 1700000600 }

/-- The outgoing view of scenario 3 as the splitter classifies it at tip 100. -/
def scenario3View : MultyTx Unit :=
  { scenario3Tx with TxStatus := 6, Confirmations := 51 }

/-- Scenario 2 after parsing: one output touch `A` of wallet `(U, 0)` with 0.5 BTC. -/
def scenario2Tx : MultyTx Unit :=
  { MultyTx.zero Unit with
    TxID := "t2", TxHash := "h2", BlockHeight := 100,
    TxOutputs := [{ Address := "A", Amount := 50000000 }],
    WalletsOutput := [exampleTouch "U" 0 "A" 50000000 0] }

/-- The raw transaction of scenario 2. -/
def scenario2Verbose : TxRawResult ℚ :=
  { Txid := "t2", Hash := "h2", Vin := [{ Txid := "p2", Vout := 0 }],
    Vout := [{ Value := 1 / 2, N := 0, ScriptPubKey := { Hex := "sa", Addresses := ["A"] } }],
    Time := 1700000000, Blocktime := 1700000600 }

/-- The incoming view of scenario 2 as the splitter classifies it at tip 100. -/
def scenario2View : MultyTx Unit :=
  { scenario2Tx with TxStatus := 2, Confirmations := 1, BlockTime := 1700000700 }

/-- Scenario 6: a transaction with one tracked output touch and no input touch. -/
def resyncTx : MultyTx Unit :=
  { MultyTx.zero Unit with
    TxID := "t6", TxHash := "h6",
    WalletsOutput := [exampleTouch "U" 0 "A" 50000000 0] }

/-- A transaction paying 0.5 BTC to the tracked address `A`, spending an untracked output. -/
def trackedOutputTx : TxRawResult ℚ :=
  { Txid := "t7", Hash := "h7", Vin := [{ Txid := "p1", Vout := 0 }],
    Vout := [{ Value := 1 / 2, N := 0, ScriptPubKey := { Hex := "sa", Addresses := ["A"] } }],
    Time := 1700000000, Blocktime := 1700000600 }

/-- A users map that tracks the address `A` for wallet `(U, 0)`. -/
def usersOfA (address : String) : Option AddressExtended :=
  if address = "A" then some { UserID := "U", WalletIndex := 0, AddressIndex := 0 } else none

/-- What the parser returns for `trackedOutputTx` under the users map `usersOfA`. -/
def trackedOutputParsed : MultyTx Unit :=
  { MultyTx.zero Unit with
    TxID := "t7", TxHash := "h7",
    WalletsOutput := [exampleTouch "U" 0 "A" 50000000 0] }

/-- A node that cannot return any previous transaction. -/
def failingRpc (_txid : String) : Option (TxRawResult ℚ) := none

/-- A users map that tracks the address `Q2` for wallet `(V, 3)`. -/
def usersOfQ2 (address : String) : Option AddressExtended :=
  if address = "Q2" then some { UserID := "V", WalletIndex := 3, AddressIndex := 7 } else none

/-- Inputs spending an output of an unknown transaction, output 1 of `untrackedPrev2`
(address `Q2`) and output 0 of `untrackedPrev1` (address `P`). -/
def spendingVin : List Vin :=
  [{ Txid := "unknown", Vout := 0 }, { Txid := "p2", Vout := 1 }, { Txid := "p1", Vout := 0 }]

/-- Scenario 4 after parsing: output touches `A` of wallet `(U, 0)` with 0.2 BTC and `B`
of wallet `(V, 3)` with 0.3 BTC, no input touch. -/
def scenario4Tx : MultyTx Unit :=
  { MultyTx.zero Unit with
    TxID := "t4", TxHash := "h4", BlockHeight := -1,
    WalletsOutput := [exampleTouch "U" 0 "A" 20000000 0, exampleTouch "V" 3 "B" 30000000 1] }

/-- The raw transaction of scenario 4, seen in the mempool at time 1700000000. -/
def scenario4Verbose : TxRawResult ℚ :=
  { Txid := "t4", Hash := "h4", Vin := [{ Txid := "p2", Vout := 0 }],
    Vout := [{ Value := 1 / 5, N := 0, ScriptPubKey := { Hex := "sa", Addresses := ["A"] } },
             { Value := 3 / 10, N := 1, ScriptPubKey := { Hex := "sb", Addresses := ["B"] } }],
    Time := 1700000000, Blocktime := 0 }

/-- The outgoing view of scenario 3 after `finalizeTransaction`. -/
def scenario3Finalized : MultyTx Unit :=
  { scenario3View with TxOutAmount := 71000000, TxAddress := ["A"], TxOutScript := "sb" }

/-- A transaction handed to the splitter with its `UserID` already set, as
`ResyncAddresses` does at line 169. -/
def resyncUserTx : MultyTx Unit :=
  { MultyTx.zero Unit with
    UserID := "U", TxID := "t6", TxHash := "h6",
    WalletsOutput := [exampleTouch "U" 0 "A" 50000000 0] }

/-- A transaction spending 1 BTC of the tracked address `A`: 0.5 BTC to the external `X`
and 0.25 BTC back to `B`. -/
def changeRaw : TxRawResult ℚ :=
  { Txid := "t3", Hash := "h3", Vin := [{ Txid := "p3", Vout := 0 }],
    Vout := [{ Value := 1 / 2, N := 0, ScriptPubKey := { Hex := "sx", Addresses := ["X"] } },
             { Value := 1 / 4, N := 1, ScriptPubKey := { Hex := "sb", Addresses := ["B"] } }],
    Time := 1700000000, Blocktime := 1700000600 }

/-- The transaction whose output 0 (1 BTC at `A`) `changeRaw` spends. -/
def changePrev : TxRawResult ℚ :=
  { Txid := "p3", Hash := "hp3", Vin := [],
    Vout := [{ Value := 1, N := 0, ScriptPubKey := { Hex := "pa", Addresses := ["A"] } }],
    Time := 1699990000, Blocktime := 1699990600 }

/-- The node that knows `changePrev`. -/
def changeRpc (txid : String) : Option (TxRawResult ℚ) :=
  if txid = "p3" then some changePrev else none

/-- A users map in which `A` and `B` belong to wallet `(U, 0)`. -/
def usersOfAB (address : String) : Option AddressExtended :=
  if address = "A" then some { UserID := "U", WalletIndex := 0, AddressIndex := 0 }
  else if address = "B" then some { UserID := "U", WalletIndex := 0, AddressIndex := 1 }
  else none

/-- Scenario 3 finalised while unclassified (block height 0 under tip 100): the incoming
branch of `finalizeTransaction` has run on a view with touches on both sides. -/
def unclassifiedFinalized : MultyTx Unit :=
  { scenario3Tx with TxOutAmount := 29000000, TxAddress := ["B"], TxOutScript := "sb" }

/-! ## Theorems -/

/-! ### The splitter in closed form -/

theorem walletKey_eq_iff (a b : WalletForTx) :
    walletKey a = walletKey b ↔ a.UserID = b.UserID ∧ a.WalletIndex = b.WalletIndex := by
  simp [walletKey]

theorem flag_foldl {α : Type} (p : α → Prop) [DecidablePred p] (xs : List α) (b : Bool) :
    xs.foldl (fun flag x => if p x then true else flag) b = true
      ↔ b = true ∨ ∃ x ∈ xs, p x := by
  induction xs generalizing b with
  | nil => simp
  | cons x xs ih =>
    rw [List.foldl_cons, ih]
    by_cases h : p x
    · simp [h]
    · simp [h]

theorem isTheSameWallet_iff (ins : List WalletForTx) (w : WalletForTx) :
    isTheSameWallet ins w = true ↔ walletKey w ∈ ins.map walletKey := by
  unfold isTheSameWallet
  rw [flag_foldl (fun i : WalletForTx => i.UserID = w.UserID ∧ i.WalletIndex = w.WalletIndex)]
  simp only [List.mem_map, walletKey_eq_iff]
  simp

theorem alreadyAdded_fold_iff {R : Type} (ts : List (MultyTx R)) (w : WalletForTx) (b : Bool) :
    ts.foldl
      (fun flag t =>
        let flag :=
          if t.WalletsInput.length > 0 then
            t.WalletsInput.foldl
              (fun f splitedInput =>
                if splitedInput.UserID = w.UserID
                    ∧ splitedInput.WalletIndex = w.WalletIndex then true else f)
              flag
          else flag
        if t.WalletsOutput.length > 0 then
          t.WalletsOutput.foldl
            (fun f o =>
              if w.UserID = o.UserID
                  ∧ w.WalletIndex = o.WalletIndex then true else f)
            flag
        else flag) b = true
      ↔ b = true ∨ walletKey w ∈ coveredKeys ts := by
  induction ts generalizing b with
  | nil => simp [coveredKeys]
  | cons t ts ih =>
    rw [List.foldl_cons, ih]
    have hin : ∀ c : Bool, (if t.WalletsInput.length > 0 then
            t.WalletsInput.foldl
              (fun f splitedInput =>
                if splitedInput.UserID = w.UserID
                    ∧ splitedInput.WalletIndex = w.WalletIndex then true else f)
              c
          else c) = true ↔ c = true ∨ walletKey w ∈ t.WalletsInput.map walletKey := by
      intro c
      split
      · rw [flag_foldl (fun i : WalletForTx => i.UserID = w.UserID ∧ i.WalletIndex = w.WalletIndex)]
        simp only [List.mem_map, walletKey_eq_iff]
      · rename_i h
        have : t.WalletsInput = [] := by
          cases hh : t.WalletsInput with
          | nil => rfl
          | cons a l => simp [hh] at h
        simp [this]
    have hout : ∀ c : Bool, (if t.WalletsOutput.length > 0 then
          t.WalletsOutput.foldl
            (fun f o =>
              if w.UserID = o.UserID
                  ∧ w.WalletIndex = o.WalletIndex then true else f)
            c
        else c) = true ↔ c = true ∨ walletKey w ∈ t.WalletsOutput.map walletKey := by
      intro c
      split
      · rw [flag_foldl (fun o : WalletForTx => w.UserID = o.UserID ∧ w.WalletIndex = o.WalletIndex)]
        simp only [List.mem_map, walletKey_eq_iff]
        constructor
        · rintro (h | ⟨x, hx, h1, h2⟩)
          · exact Or.inl h
          · exact Or.inr ⟨x, hx, h1.symm, h2.symm⟩
        · rintro (h | ⟨x, hx, h1, h2⟩)
          · exact Or.inl h
          · exact Or.inr ⟨x, hx, h1.symm, h2.symm⟩
      · rename_i h
        have : t.WalletsOutput = [] := by
          cases hh : t.WalletsOutput with
          | nil => rfl
          | cons a l => simp [hh] at h
        simp [this]
    simp only [hout, hin, coveredKeys, List.mem_append]
    tauto

theorem alreadyAdded_iff {R : Type} (ts : List (MultyTx R)) (w : WalletForTx) :
    alreadyAdded ts w = true ↔ walletKey w ∈ coveredKeys ts := by
  unfold alreadyAdded
  rw [alreadyAdded_fold_iff]
  simp

theorem coveredKeys_append {R : Type} (ts us : List (MultyTx R)) :
    coveredKeys (ts ++ us) = coveredKeys ts ++ coveredKeys us := by
  induction ts with
  | nil => simp [coveredKeys]
  | cons t ts ih => simp [coveredKeys, ih]

theorem setTransactionStatus_wallets {R : Type} (tx : MultyTx R) (d tip : Int) (f : Bool)
    (now : Int) :
    (setTransactionStatus tx d tip f now).WalletsInput = tx.WalletsInput
    ∧ (setTransactionStatus tx d tip f now).WalletsOutput = tx.WalletsOutput := by
  unfold setTransactionStatus
  split_ifs <;> simp

theorem incomingView_wallets {R : Type} (m : MultyTx R) (d tip now : Int) (w : WalletForTx) :
    (incomingView m d tip now w).WalletsInput = []
    ∧ (incomingView m d tip now w).WalletsOutput = [w] := by
  unfold incomingView
  simp [setTransactionStatus_wallets]

theorem incomingStep_eq {R : Type} (m : MultyTx R) (d tip : Int) (clock : Nat → Int)
    (ts : List (MultyTx R)) (w : WalletForTx) :
    incomingStep m d tip clock ts w
      = if walletKey w ∈ coveredKeys ts then ts
        else ts ++ [incomingView m d tip (clock ts.length) w] := by
  unfold incomingStep
  by_cases h : walletKey w ∈ coveredKeys ts
  · simp [h, (alreadyAdded_iff ts w).2 h]
  · have h2 : alreadyAdded ts w = false := by
      cases hh : alreadyAdded ts w with
      | false => rfl
      | true => exact absurd ((alreadyAdded_iff ts w).1 hh) h
    simp [h, h2, incomingView]

theorem incoming_fold {R : Type} (m : MultyTx R) (d tip : Int) (clock : Nat → Int)
    (ws : List WalletForTx) (ts : List (MultyTx R)) :
    ws.foldl (incomingStep m d tip clock) ts
      = ts ++ incomingViews m d tip clock ts.length (freshTouches (coveredKeys ts) ws) := by
  induction ws generalizing ts with
  | nil => simp [freshTouches, incomingViews]
  | cons w ws ih =>
    rw [List.foldl_cons, incomingStep_eq]
    by_cases h : walletKey w ∈ coveredKeys ts
    · simp only [h, if_true, freshTouches]
      exact ih ts
    · simp only [h, if_false, freshTouches]
      rw [ih]
      simp [coveredKeys_append, coveredKeys, incomingViews, incomingView_wallets]

theorem incomingViews_length {R : Type} (m : MultyTx R) (d tip : Int) (clock : Nat → Int)
    (k : Nat) (ws : List WalletForTx) :
    (incomingViews m d tip clock k ws).length = ws.length := by
  induction ws generalizing k with
  | nil => rfl
  | cons w ws ih => simp [incomingViews, ih]

theorem mem_incomingViews {R : Type} (m : MultyTx R) (d tip : Int) (clock : Nat → Int)
    (k : Nat) (ws : List WalletForTx) (v : MultyTx R)
    (hv : v ∈ incomingViews m d tip clock k ws) :
    v.WalletsInput = [] ∧ ∃ w ∈ ws, v.WalletsOutput = [w] := by
  induction ws generalizing k with
  | nil => simp [incomingViews] at hv
  | cons w ws ih =>
    simp only [incomingViews, List.mem_cons] at hv
    rcases hv with rfl | hv
    · exact ⟨(incomingView_wallets m d tip _ w).1, w, by simp, (incomingView_wallets m d tip _ w).2⟩
    · obtain ⟨h1, w', hw', h2⟩ := ih (k + 1) hv
      exact ⟨h1, w', List.mem_cons_of_mem _ hw', h2⟩

theorem incomingViews_keys {R : Type} (m : MultyTx R) (d tip : Int) (clock : Nat → Int)
    (k : Nat) (ws : List WalletForTx) :
    (incomingViews m d tip clock k ws).flatMap (fun v => v.WalletsOutput.map walletKey)
      = ws.map walletKey := by
  induction ws generalizing k with
  | nil => rfl
  | cons w ws ih =>
    simp [incomingViews, ih, incomingView_wallets]

theorem mem_freshTouches (seen : List (WalletKey)) (ws : List WalletForTx) (w : WalletForTx)
    (hw : w ∈ freshTouches seen ws) : w ∈ ws ∧ walletKey w ∉ seen := by
  induction ws generalizing seen with
  | nil => simp [freshTouches] at hw
  | cons a ws ih =>
    unfold freshTouches at hw
    split_ifs at hw with h
    · exact ⟨List.mem_cons_of_mem _ (ih seen hw).1, (ih seen hw).2⟩
    · rcases List.mem_cons.1 hw with rfl | hw
      · exact ⟨by simp, h⟩
      · obtain ⟨h1, h2⟩ := ih _ hw
        exact ⟨List.mem_cons_of_mem _ h1, fun hc => h2 (List.mem_append_left _ hc)⟩

theorem freshTouches_key_fresh (seen : List (WalletKey)) (ws : List WalletForTx)
    (p : WalletKey) (hp : p ∈ (freshTouches seen ws).map walletKey) : p ∉ seen := by
  obtain ⟨w, hw, rfl⟩ := List.mem_map.1 hp
  exact (mem_freshTouches seen ws w hw).2

theorem freshTouches_covers (seen : List (WalletKey)) (ws : List WalletForTx)
    (w : WalletForTx) (hw : w ∈ ws) :
    walletKey w ∈ seen ∨ walletKey w ∈ (freshTouches seen ws).map walletKey := by
  induction ws generalizing seen with
  | nil => simp at hw
  | cons a ws ih =>
    unfold freshTouches
    rcases List.mem_cons.1 hw with rfl | hw
    · by_cases h : walletKey w ∈ seen
      · exact Or.inl h
      · simp [h]
    · by_cases h : walletKey a ∈ seen
      · simp only [h, if_true]
        exact ih seen hw
      · simp only [h, if_false, List.map_cons, List.mem_cons]
        rcases ih (seen ++ [walletKey a]) hw with h1 | h1
        · rcases List.mem_append.1 h1 with h2 | h2
          · exact Or.inl h2
          · exact Or.inr (Or.inl (by simpa using h2))
        · exact Or.inr (Or.inr h1)

theorem freshTouches_pairwise (seen : List (WalletKey)) (ws : List WalletForTx) :
    List.Pairwise
      (fun a b => (ws.map walletKey).indexOf a < (ws.map walletKey).indexOf b)
      ((freshTouches seen ws).map walletKey) := by
  induction ws generalizing seen with
  | nil => simp [freshTouches]
  | cons w ws ih =>
    unfold freshTouches
    by_cases h : walletKey w ∈ seen
    · simp only [h, if_true, List.map_cons]
      refine List.Pairwise.imp_of_mem ?_ (ih seen)
      intro a b ha hb hab
      have ha' : a ≠ walletKey w := fun hc => freshTouches_key_fresh seen ws a ha (hc ▸ h)
      have hb' : b ≠ walletKey w := fun hc => freshTouches_key_fresh seen ws b hb (hc ▸ h)
      rw [List.indexOf_cons_ne _ ha'.symm, List.indexOf_cons_ne _ hb'.symm]
      omega
    · simp only [h, if_false, List.map_cons]
      have hne : ∀ a ∈ (freshTouches (seen ++ [walletKey w]) ws).map walletKey,
          a ≠ walletKey w := by
        intro a ha hc
        exact freshTouches_key_fresh _ ws a ha (by simp [hc])
      refine List.Pairwise.cons ?_ ?_
      · intro b hb
        rw [List.indexOf_cons_self, List.indexOf_cons_ne _ (hne b hb).symm]
        omega
      · refine List.Pairwise.imp_of_mem ?_ (ih (seen ++ [walletKey w]))
        intro a b ha hb hab
        rw [List.indexOf_cons_ne _ (hne a ha).symm, List.indexOf_cons_ne _ (hne b hb).symm]
        omega

theorem freshTouches_nodup (seen : List (WalletKey)) (ws : List WalletForTx) :
    ((freshTouches seen ws).map walletKey).Nodup := by
  refine (freshTouches_pairwise seen ws).imp ?_
  intro a b hab hc
  subst hc
  exact lt_irrefl _ hab

theorem freshTouches_card (ws : List WalletForTx) :
    (freshTouches [] ws).length = (ws.map walletKey).toFinset.card := by
  have h1 : ((freshTouches [] ws).map walletKey).toFinset = (ws.map walletKey).toFinset := by
    ext p
    simp only [List.mem_toFinset]
    constructor
    · intro hp
      obtain ⟨w, hw, rfl⟩ := List.mem_map.1 hp
      exact List.mem_map.2 ⟨w, (mem_freshTouches [] ws w hw).1, rfl⟩
    · intro hp
      obtain ⟨w, hw, rfl⟩ := List.mem_map.1 hp
      rcases freshTouches_covers [] ws w hw with h | h
      · simp at h
      · exact h
  rw [← h1, List.toFinset_card_of_nodup (freshTouches_nodup [] ws), List.length_map]

theorem outgoing_fold {R : Type} (ws : List WalletForTx) (o : MultyTx R) :
    ws.foldl
      (fun (o : MultyTx R) walletOutput =>
        if isTheSameWallet o.WalletsInput walletOutput then
          { o with WalletsOutput := o.WalletsOutput ++ [walletOutput] }
        else o)
      o
    = { o with
        WalletsOutput :=
          o.WalletsOutput ++ ws.filter (fun w => isTheSameWallet o.WalletsInput w) } := by
  induction ws generalizing o with
  | nil => simp
  | cons w ws ih =>
    rw [List.foldl_cons, ih]
    by_cases h : isTheSameWallet o.WalletsInput w = true
    · simp [h]
    · simp [h]

theorem outgoingEntity_eq {R : Type} (m : MultyTx R) :
    outgoingEntity m
      = { newEntity m with
          WalletsOutput := m.WalletsOutput.filter (fun w => isTheSameWallet m.WalletsInput w) } := by
  unfold outgoingEntity
  simp only [outgoing_fold]
  simp [newEntity]

theorem isTheSameWallet_eq_decide (ins : List WalletForTx) (w : WalletForTx) :
    isTheSameWallet ins w
      = decide (∃ i ∈ ins, i.UserID = w.UserID ∧ i.WalletIndex = w.WalletIndex) := by
  rw [Bool.eq_iff_iff, isTheSameWallet_iff, decide_eq_true_iff]
  simp only [List.mem_map, walletKey_eq_iff]

theorem splitTransaction_eq {R : Type} (m : MultyTx R) (blockHeight tip : Int)
    (clock : Nat → Int) :
    splitTransaction m blockHeight tip clock
      = (if m.WalletsInput.length > 0 then
          [setTransactionStatus (outgoingEntity m) (wrapInt64 (tip - blockHeight)) tip true
            (clock 0)]
         else [])
        ++ incomingViews m (wrapInt64 (tip - blockHeight)) tip clock
            (if m.WalletsInput.length > 0 then 1 else 0)
            (freshTouches
              (if m.WalletsInput.length > 0 then
                m.WalletsInput.map walletKey
                  ++ (m.WalletsOutput.filter
                        (fun w => isTheSameWallet m.WalletsInput w)).map walletKey
               else [])
              m.WalletsOutput) := by
  unfold splitTransaction
  by_cases hout : m.WalletsOutput.length > 0
  · simp only [hout, if_true]
    rw [incoming_fold]
    by_cases hin : m.WalletsInput.length > 0
    · simp [hin, coveredKeys, setTransactionStatus_wallets, outgoingEntity_eq, newEntity]
    · simp [hin, coveredKeys]
  · have : m.WalletsOutput = [] := by
      cases hh : m.WalletsOutput with
      | nil => rfl
      | cons a l => simp [hh] at hout
    simp [this, freshTouches, incomingViews]


/-! ### C1: the status table -/

/-- C1: `setTransactionStatus` follows the status table, rows taken in order, for all
`int64` values of delta and tip and both directions. -/
theorem setTransactionStatus_table {R : Type} (tx : MultyTx R) (delta tip : Int)
    (fromInput : Bool) (now : Int) (hd : isInt64 delta) (ht : isInt64 tip) :
    (delta > tip →
      (setTransactionStatus tx delta tip fromInput now).Confirmations = 0
      ∧ (setTransactionStatus tx delta tip fromInput now).TxStatus
          = (if fromInput then 3 else 1)
      ∧ (setTransactionStatus tx delta tip fromInput now).MempoolTime = now
      ∧ (setTransactionStatus tx delta tip fromInput now).BlockTime = -1)
    ∧ (¬ delta > tip → 0 ≤ delta ∧ delta < 6 →
      (setTransactionStatus tx delta tip fromInput now).Confirmations = delta + 1
      ∧ (setTransactionStatus tx delta tip fromInput now).TxStatus
          = (if fromInput then 4 else 2)
      ∧ (setTransactionStatus tx delta tip fromInput now).BlockTime = now)
    ∧ (¬ delta > tip → ¬ (0 ≤ delta ∧ delta < 6) → 6 ≤ delta ∧ delta < tip →
      (setTransactionStatus tx delta tip fromInput now).Confirmations = delta + 1
      ∧ (setTransactionStatus tx delta tip fromInput now).TxStatus
          = (if fromInput then 6 else 5)
      ∧ (setTransactionStatus tx delta tip fromInput now).BlockTime = tx.BlockTime
      ∧ (setTransactionStatus tx delta tip fromInput now).MempoolTime = tx.MempoolTime) := by
  obtain ⟨hd1, hd2⟩ := hd
  obtain ⟨ht1, ht2⟩ := ht
  have hw : ∀ x : Int, -9223372036854775808 ≤ x → x < 9223372036854775808 →
      wrapInt64 x = x := by
    intro x h1 h2
    unfold wrapInt64
    omega
  refine ⟨?_, ?_, ?_⟩
  · intro h
    cases fromInput <;>
      simp [setTransactionStatus, h, TxStatusAppearedInMempoolOutcoming,
        TxStatusAppearedInMempoolIncoming]
  · intro h1 h2
    have h3 : wrapInt64 (delta + 1) = delta + 1 := hw _ (by omega) (by omega)
    cases fromInput <;>
      simp [setTransactionStatus, h1, h2, h3, TxStatusAppearedInBlockOutcoming,
        TxStatusAppearedInBlockIncoming]
  · intro h1 h2 h3
    have h4 : wrapInt64 (delta + 1) = delta + 1 := hw _ (by omega) (by omega)
    cases fromInput <;>
      simp [setTransactionStatus, h1, h2, h3, h4, TxStatusInBlockConfirmedOutcoming,
        TxStatusInBlockConfirmedIncoming]

/-- Witness for C1: delta 50 under tip 100, outgoing, lands in the third row. -/
theorem setTransactionStatus_table_witness :
    isInt64 50 ∧ isInt64 100
    ∧ (setTransactionStatus (MultyTx.zero Unit) 50 100 true 1700000000).Confirmations = 50 + 1
    ∧ (setTransactionStatus (MultyTx.zero Unit) 50 100 true 1700000000).TxStatus = 6 :=
  ⟨by decide, by decide,
    ((setTransactionStatus_table (MultyTx.zero Unit) 50 100 true 1700000000
        (by decide) (by decide)).2.2 (by decide) (by decide) (by decide)).1,
    ((setTransactionStatus_table (MultyTx.zero Unit) 50 100 true 1700000000
        (by decide) (by decide)).2.2 (by decide) (by decide) (by decide)).2.1⟩

/-! ### C2 and C3: the views of the splitter -/

theorem freshTouches_of_seen (seen : List WalletKey) (ws : List WalletForTx)
    (h : ∀ w ∈ ws, walletKey w ∈ seen) : freshTouches seen ws = [] := by
  induction ws with
  | nil => rfl
  | cons w ws ih =>
    unfold freshTouches
    rw [if_pos (h w (by simp))]
    exact ih (fun x hx => h x (List.mem_cons_of_mem _ hx))

theorem length_pos_of_ne_nil {α : Type} (l : List α) (h : l ≠ []) : l.length > 0 := by
  cases l with
  | nil => exact absurd rfl h
  | cons a l => simp

/-- C2: with a non-empty `wallets_input` the splitter returns the outgoing view first and
only once; it keeps the input touches and exactly the output touches of the input wallets,
and no later view has an output touch of an input wallet.  Inputs of wallet `(U, 0)` and
outputs of wallet `(U, 1)` give an outgoing view without output touches followed by one
incoming view for wallet 1. -/
theorem splitTransaction_outgoing {R : Type} (multyTx : MultyTx R) (blockHeight tip : Int)
    (clock : Nat → Int) (hin : multyTx.WalletsInput ≠ []) :
    (∃ out rest,
      splitTransaction multyTx blockHeight tip clock = out :: rest
      ∧ out.WalletsInput = multyTx.WalletsInput
      ∧ out.WalletsOutput
          = multyTx.WalletsOutput.filter
              (fun w => decide (∃ i ∈ multyTx.WalletsInput,
                i.UserID = w.UserID ∧ i.WalletIndex = w.WalletIndex))
      ∧ (∀ v ∈ rest, v.WalletsInput = [])
      ∧ (∀ v ∈ rest, ∀ w ∈ v.WalletsOutput, ∀ i ∈ multyTx.WalletsInput,
          ¬ (i.UserID = w.UserID ∧ i.WalletIndex = w.WalletIndex)))
    ∧ (∀ (U : String) (o : WalletForTx) (os : List WalletForTx),
        (∀ i ∈ multyTx.WalletsInput, i.UserID = U ∧ i.WalletIndex = 0) →
        multyTx.WalletsOutput = o :: os →
        (∀ w ∈ multyTx.WalletsOutput, w.UserID = U ∧ w.WalletIndex = 1) →
        ∃ out inc,
          splitTransaction multyTx blockHeight tip clock = [out, inc]
          ∧ out.WalletsInput = multyTx.WalletsInput ∧ out.WalletsOutput = []
          ∧ inc.WalletsInput = [] ∧ inc.WalletsOutput = [o]) := by
  have hlen : multyTx.WalletsInput.length > 0 := length_pos_of_ne_nil _ hin
  have hsplit := splitTransaction_eq multyTx blockHeight tip clock
  simp only [hlen, if_true] at hsplit
  have hfun : (fun w => isTheSameWallet multyTx.WalletsInput w)
      = (fun w => decide (∃ i ∈ multyTx.WalletsInput,
                i.UserID = w.UserID ∧ i.WalletIndex = w.WalletIndex)) := by
    funext w
    exact isTheSameWallet_eq_decide _ w
  constructor
  · refine ⟨_, _, hsplit, ?_, ?_, ?_, ?_⟩
    · simp [setTransactionStatus_wallets, outgoingEntity_eq, newEntity]
    · simp [setTransactionStatus_wallets, outgoingEntity_eq, hfun]
    · intro v hv
      exact (mem_incomingViews _ _ _ _ _ _ v hv).1
    · intro v hv w hw i hi hkey
      obtain ⟨_, w', hw', hvw⟩ := mem_incomingViews _ _ _ _ _ _ v hv
      rw [hvw] at hw
      have hww : w = w' := by simpa using hw
      subst hww
      apply (mem_freshTouches _ _ w hw').2
      apply List.mem_append_left
      exact List.mem_map.2 ⟨i, hi, (walletKey_eq_iff i w).2 hkey⟩
  · intro U o os hi ho hall
    have hfilter : multyTx.WalletsOutput.filter
        (fun w => isTheSameWallet multyTx.WalletsInput w) = [] := by
      rw [List.filter_eq_nil_iff]
      intro w hw hsame
      rw [isTheSameWallet_iff] at hsame
      obtain ⟨i, hi', hk⟩ := List.mem_map.1 hsame
      have h1 := (walletKey_eq_iff i w).1 hk
      have h2 := hi i hi'
      have h3 := hall w hw
      omega
    rw [hfilter] at hsplit
    have hfresh : freshTouches (multyTx.WalletsInput.map walletKey ++ ([] : List WalletForTx).map walletKey)
        multyTx.WalletsOutput = [o] := by
      rw [ho]
      unfold freshTouches
      have hnot : walletKey o ∉ multyTx.WalletsInput.map walletKey ++ ([] : List WalletForTx).map walletKey := by
        intro hc
        simp only [List.map_nil, List.append_nil] at hc
        obtain ⟨i, hi', hk⟩ := List.mem_map.1 hc
        have h1 := (walletKey_eq_iff i o).1 hk
        have h2 := hi i hi'
        have h3 := hall o (by simp [ho])
        omega
      rw [if_neg hnot]
      congr 1
      apply freshTouches_of_seen
      intro w hw
      apply List.mem_append_right
      have h3 := hall o (by simp [ho])
      have h4 := hall w (by simp [ho, hw])
      simp [walletKey, h3, h4]
    rw [hfresh] at hsplit
    refine ⟨_, _, hsplit, ?_, ?_, ?_, ?_⟩
    · simp [setTransactionStatus_wallets, outgoingEntity_eq, newEntity]
    · simp [setTransactionStatus_wallets, outgoingEntity_eq, hfilter]
    · exact (incomingView_wallets _ _ _ _ _).1
    · exact (incomingView_wallets _ _ _ _ _).2

/-- Witness for C2: scenario 5 on the concrete transfer from wallet 0 to wallet 1 of `U`. -/
theorem splitTransaction_outgoing_witness :
    selfTransferTx.WalletsInput ≠ []
    ∧ ∃ out inc,
        splitTransaction selfTransferTx 100 100 (fun _ => 1700000000) = [out, inc]
        ∧ out.WalletsInput = selfTransferTx.WalletsInput ∧ out.WalletsOutput = []
        ∧ inc.WalletsInput = [] ∧ inc.WalletsOutput = [exampleTouch "U" 1 "B" 99000000 0] :=
  ⟨by decide,
    (splitTransaction_outgoing selfTransferTx 100 100 (fun _ => 1700000000) (by decide)).2
      "U" (exampleTouch "U" 1 "B" 99000000 0) [] (by decide) rfl (by decide)⟩

/-- C3: with an empty `wallets_input` the splitter returns one view for every distinct
wallet of `wallets_output`: as many views as distinct wallets, each without input touches
and with a single output touch, no wallet carried twice, every wallet carried, and the
views in the order in which their wallets first occur in `wallets_output`. -/
theorem splitTransaction_incoming_only {R : Type} (multyTx : MultyTx R)
    (blockHeight tip : Int) (clock : Nat → Int) (hin : multyTx.WalletsInput = []) :
    (splitTransaction multyTx blockHeight tip clock).length
        = (multyTx.WalletsOutput.map walletKey).toFinset.card
    ∧ (∀ v ∈ splitTransaction multyTx blockHeight tip clock, v.WalletsInput = [])
    ∧ (∀ v ∈ splitTransaction multyTx blockHeight tip clock,
        ∃ w ∈ multyTx.WalletsOutput, v.WalletsOutput = [w])
    ∧ ((splitTransaction multyTx blockHeight tip clock).flatMap
        (fun v => v.WalletsOutput.map walletKey)).Nodup
    ∧ (∀ w ∈ multyTx.WalletsOutput,
        walletKey w ∈ (splitTransaction multyTx blockHeight tip clock).flatMap
          (fun v => v.WalletsOutput.map walletKey))
    ∧ List.Pairwise
        (fun a b => (multyTx.WalletsOutput.map walletKey).indexOf a
                      < (multyTx.WalletsOutput.map walletKey).indexOf b)
        ((splitTransaction multyTx blockHeight tip clock).flatMap
          (fun v => v.WalletsOutput.map walletKey)) := by
  have hsplit := splitTransaction_eq multyTx blockHeight tip clock
  simp only [hin, List.length_nil, gt_iff_lt, lt_self_iff_false, if_false,
    List.nil_append] at hsplit
  rw [hsplit, incomingViews_keys]
  refine ⟨?_, ?_, ?_, ?_, ?_, ?_⟩
  · rw [incomingViews_length, freshTouches_card]
  · intro v hv
    exact (mem_incomingViews _ _ _ _ _ _ v hv).1
  · intro v hv
    obtain ⟨_, w, hw, hvw⟩ := mem_incomingViews _ _ _ _ _ _ v hv
    exact ⟨w, (mem_freshTouches _ _ w hw).1, hvw⟩
  · exact freshTouches_nodup _ _
  · intro w hw
    rcases freshTouches_covers [] _ w hw with h | h
    · simp at h
    · exact h
  · exact freshTouches_pairwise _ _

/-- Witness for C3: three output touches of two wallets give two views. -/
theorem splitTransaction_incoming_only_witness :
    threeOutputsTx.WalletsInput = []
    ∧ (splitTransaction threeOutputsTx (-1) 100 (fun _ => 1700000000)).length
        = (threeOutputsTx.WalletsOutput.map walletKey).toFinset.card
    ∧ (splitTransaction threeOutputsTx (-1) 100 (fun _ => 1700000000)).length = 2 :=
  ⟨rfl,
    (splitTransaction_incoming_only threeOutputsTx (-1) 100 (fun _ => 1700000000) rfl).1,
    by decide⟩

/-! ### C4: transactions without tracked addresses -/

theorem parseInputAddress_fold_untracked {R : Type} (fl : Float64Ops)
    (usersData : String → Option AddressExtended) (txVerbose : TxRawResult fl.F)
    (input : Vin) (prevOut : Vout fl.F) (addrs : List String) (m : MultyTx R)
    (h : ∀ a ∈ addrs, usersData a = none) :
    addrs.foldl (parseInputAddress fl usersData txVerbose input prevOut) m = m := by
  induction addrs generalizing m with
  | nil => rfl
  | cons a addrs ih =>
    rw [List.foldl_cons]
    have ha : parseInputAddress fl usersData txVerbose input prevOut m a = m := by
      unfold parseInputAddress
      rw [h a (by simp)]
    rw [ha]
    exact ih m (fun b hb => h b (List.mem_cons_of_mem _ hb))

theorem parseOutputAddress_fold_untracked {R : Type} (fl : Float64Ops)
    (usersData : String → Option AddressExtended) (txVerbose : TxRawResult fl.F)
    (output : Vout fl.F) (addrs : List String) (m : MultyTx R)
    (h : ∀ a ∈ addrs, usersData a = none) :
    addrs.foldl (parseOutputAddress fl usersData txVerbose output) m = m := by
  induction addrs generalizing m with
  | nil => rfl
  | cons a addrs ih =>
    rw [List.foldl_cons]
    have ha : parseOutputAddress fl usersData txVerbose output m a = m := by
      unfold parseOutputAddress
      rw [h a (by simp)]
    rw [ha]
    exact ih m (fun b hb => h b (List.mem_cons_of_mem _ hb))

theorem parseOutputs_fold_untracked {R : Type} (fl : Float64Ops)
    (usersData : String → Option AddressExtended) (txVerbose : TxRawResult fl.F)
    (vout : List (Vout fl.F)) (m : MultyTx R)
    (h : ∀ output ∈ vout, ∀ a ∈ output.ScriptPubKey.Addresses, usersData a = none) :
    vout.foldl
      (fun (multyTx : MultyTx R) output =>
        output.ScriptPubKey.Addresses.foldl
          (parseOutputAddress fl usersData txVerbose output) multyTx)
      m = m := by
  induction vout generalizing m with
  | nil => rfl
  | cons o vout ih =>
    rw [List.foldl_cons, parseOutputAddress_fold_untracked fl usersData txVerbose o _ m
      (h o (by simp))]
    exact ih m (fun b hb => h b (List.mem_cons_of_mem _ hb))

theorem parseInputs_fold_untracked {R : Type} (fl : Float64Ops)
    (rpc : String → Option (TxRawResult fl.F))
    (usersData : String → Option AddressExtended) (txVerbose : TxRawResult fl.F)
    (vin : List Vin) (m : MultyTx R)
    (h : ∀ input ∈ vin, ∀ prev, rpc input.Txid = some prev →
          ∀ prevOut, prev.Vout[input.Vout]? = some prevOut →
            ∀ a ∈ prevOut.ScriptPubKey.Addresses, usersData a = none) :
    (vin.foldlM (parseInput fl rpc usersData txVerbose) m = none
      ∨ vin.foldlM (parseInput fl rpc usersData txVerbose) m = some m)
    ∧ ((∀ input ∈ vin, ∀ prev, rpc input.Txid = some prev →
          input.Vout < prev.Vout.length) →
        vin.foldlM (parseInput fl rpc usersData txVerbose) m = some m) := by
  induction vin generalizing m with
  | nil => simp
  | cons input vin ih =>
    have ih' := ih m (fun i hi => h i (List.mem_cons_of_mem _ hi))
    rw [List.foldlM_cons]
    cases hr : rpc input.Txid with
    | none =>
      have hstep : parseInput fl rpc usersData txVerbose m input = some m := by
        unfold parseInput
        rw [hr]
      rw [hstep]
      simp only [Option.some_bind, Option.bind_eq_bind]
      exact ⟨ih'.1, fun hrange => ih'.2 (fun i hi => hrange i (List.mem_cons_of_mem _ hi))⟩
    | some prev =>
      cases hp : prev.Vout[input.Vout]? with
      | none =>
        have hstep : parseInput fl rpc usersData txVerbose m input = none := by
          unfold parseInput
          rw [hr]
          simp only [hp]
        rw [hstep]
        refine ⟨Or.inl rfl, ?_⟩
        intro hrange
        have := hrange input (by simp) prev hr
        rw [List.getElem?_eq_none_iff] at hp
        omega
      | some prevOut =>
        have hstep : parseInput fl rpc usersData txVerbose m input = some m := by
          unfold parseInput
          rw [hr]
          simp only [hp]
          rw [parseInputAddress_fold_untracked fl usersData txVerbose input prevOut _ m
            (h input (by simp) prev hr prevOut hp)]
        rw [hstep]
        simp only [Option.some_bind, Option.bind_eq_bind]
        exact ⟨ih'.1, fun hrange => ih'.2 (fun i hi => hrange i (List.mem_cons_of_mem _ hi))⟩

/-- C4: when no output address and no address of a resolved previous output is in the
users map, `ProcessTransaction` sends no message on any channel; when moreover the
inputs' indices lie within the previous transactions' outputs (so that the parser does
not panic) `ParseRawTransaction` returns `(nil, false)` and `ProcessTransaction` runs to
its end; and `splitTransaction` on a transaction without touches returns no view. -/
theorem processTransaction_untracked (R : Type) (fl : Float64Ops)
    (rpc : String → Option (TxRawResult fl.F))
    (usersData : String → Option AddressExtended) (tip : Int) (clock : Nat → Int)
    (blockHeight : Int) (txVerbose : TxRawResult fl.F) (isReSync : Bool)
    (hout : ∀ output ∈ txVerbose.Vout, ∀ a ∈ output.ScriptPubKey.Addresses,
      usersData a = none)
    (hin : ∀ input ∈ txVerbose.Vin, ∀ prev, rpc input.Txid = some prev →
      ∀ prevOut, prev.Vout[input.Vout]? = some prevOut →
        ∀ a ∈ prevOut.ScriptPubKey.Addresses, usersData a = none) :
    (ProcessTransaction R fl rpc usersData tip clock blockHeight txVerbose isReSync).1 = []
    ∧ ((∀ input ∈ txVerbose.Vin, ∀ prev, rpc input.Txid = some prev →
          input.Vout < prev.Vout.length) →
        ParseRawTransaction R fl rpc usersData txVerbose = some (none, false)
        ∧ ProcessTransaction R fl rpc usersData tip clock blockHeight txVerbose isReSync
            = ([], true))
    ∧ (∀ multyTx : MultyTx R, multyTx.WalletsInput = [] → multyTx.WalletsOutput = [] →
        splitTransaction multyTx blockHeight tip clock = []) := by
  have hpi := parseInputs_fold_untracked fl rpc usersData txVerbose txVerbose.Vin
    (MultyTx.zero R) hin
  have hpo := parseOutputs_fold_untracked fl usersData txVerbose txVerbose.Vout
    (MultyTx.zero R) hout
  have hparse : parseInputs fl rpc usersData txVerbose (MultyTx.zero R) = some (MultyTx.zero R) →
      ParseRawTransaction R fl rpc usersData txVerbose = some (none, false) := by
    intro hp
    unfold ParseRawTransaction
    rw [hp]
    simp only [parseOutputs, hpo]
    simp [MultyTx.zero]
  refine ⟨?_, ?_, ?_⟩
  · rcases hpi.1 with hp | hp
    · have : ParseRawTransaction R fl rpc usersData txVerbose = none := by
        unfold ParseRawTransaction
        unfold parseInputs
        rw [hp]
      unfold ProcessTransaction
      rw [this]
    · unfold ProcessTransaction
      rw [hparse hp]
      simp
  · intro hrange
    have hp := hparse (hpi.2 hrange)
    refine ⟨hp, ?_⟩
    unfold ProcessTransaction
    rw [hp]
    simp
  · intro m h1 h2
    simp [splitTransaction, h1, h2]

/-- Witness for C4: scenario 1, two inputs and two outputs with no tracked address. -/
theorem processTransaction_untracked_witness :
    ParseRawTransaction Unit exactOps untrackedRpc (fun _ => none) untrackedTx
        = some (none, false)
    ∧ ProcessTransaction Unit exactOps untrackedRpc (fun _ => none) 100
        (fun _ => 1700000700) 100 untrackedTx false = ([], true) :=
  (processTransaction_untracked Unit exactOps untrackedRpc (fun _ => none) 100
      (fun _ => 1700000700) 100 untrackedTx false
      (fun _ _ _ _ => rfl) (fun _ _ _ _ _ _ _ _ => rfl)).2.1
    (by
      intro input hi prev hp
      simp only [untrackedTx, List.mem_cons, List.mem_singleton, List.not_mem_nil,
        or_false] at hi
      rcases hi with rfl | rfl
      · have h1 : untrackedRpc "p1" = some untrackedPrev1 := by
          unfold untrackedRpc
          rw [if_pos rfl]
        have h2 : prev = untrackedPrev1 := Option.some.inj (hp.symm.trans h1)
        rw [h2]
        decide
      · have h1 : untrackedRpc "p2" = some untrackedPrev2 := by
          unfold untrackedRpc
          rw [if_neg (by decide), if_pos rfl]
        have h2 : prev = untrackedPrev2 := Option.some.inj (hp.symm.trans h1)
        rw [h2]
        decide)

/-! ### C7 and C8: the finalizer -/

theorem wrapInt64_add_left (a b : Int) : wrapInt64 (wrapInt64 a + b) = wrapInt64 (a + b) := by
  unfold wrapInt64
  omega

theorem wrapInt64_sub_left (a b : Int) : wrapInt64 (wrapInt64 a - b) = wrapInt64 (a - b) := by
  unfold wrapInt64
  omega

theorem wrapInt64_of_isInt64 (x : Int) (h : isInt64 x) : wrapInt64 x = x := by
  unfold isInt64 at h
  unfold wrapInt64
  omega

theorem withOutIndex_withOutIndex (w : WalletForTx) (a b : Int) :
    withOutIndex (withOutIndex w a) b = withOutIndex w b := rfl

theorem matchVoutAddress_fold {F : Type} (txVerbose : TxRawResult F) (output : Vout F)
    (hN : output.N < txVerbose.Vout.length) (addrs : List String) (w : WalletForTx)
    (acc : WalletForTx × String) (hacc : ∃ n, acc.1 = withOutIndex w n) :
    ∃ n s, addrs.foldlM (matchVoutAddress txVerbose output) acc = some (withOutIndex w n, s) := by
  induction addrs generalizing acc with
  | nil =>
    obtain ⟨n, hn⟩ := hacc
    exact ⟨n, acc.2, by simp [← hn]⟩
  | cons a addrs ih =>
    rw [List.foldlM_cons]
    obtain ⟨n, hn⟩ := hacc
    by_cases h : acc.1.Address.Address = a
    · obtain ⟨matched, hm⟩ : ∃ matched, txVerbose.Vout[output.N]? = some matched :=
        ⟨txVerbose.Vout[output.N], List.getElem?_eq_getElem hN⟩
      have hstep : matchVoutAddress txVerbose output acc a
          = some (withOutIndex w output.N, matched.ScriptPubKey.Hex) := by
        unfold matchVoutAddress
        rw [if_pos h]
        simp only [hm]
        rw [hn]
        rfl
      rw [hstep]
      simp only [Option.some_bind, Option.bind_eq_bind]
      exact ih _ ⟨output.N, rfl⟩
    · have hstep : matchVoutAddress txVerbose output acc a = some acc := by
        unfold matchVoutAddress
        rw [if_neg h]
      rw [hstep]
      simp only [Option.some_bind, Option.bind_eq_bind]
      exact ih acc ⟨n, hn⟩

theorem matchVout_fold {F : Type} (txVerbose : TxRawResult F) (vout : List (Vout F))
    (hN : ∀ output ∈ vout, output.N < txVerbose.Vout.length) (w : WalletForTx)
    (acc : WalletForTx × String) (hacc : ∃ n, acc.1 = withOutIndex w n) :
    ∃ n s, vout.foldlM
        (fun (acc : WalletForTx × String) output =>
          output.ScriptPubKey.Addresses.foldlM (matchVoutAddress txVerbose output) acc)
        acc = some (withOutIndex w n, s) := by
  induction vout generalizing acc with
  | nil =>
    obtain ⟨n, hn⟩ := hacc
    exact ⟨n, acc.2, by simp [← hn]⟩
  | cons o vout ih =>
    rw [List.foldlM_cons]
    obtain ⟨n, s, hns⟩ := matchVoutAddress_fold txVerbose o (hN o (by simp))
      o.ScriptPubKey.Addresses w acc hacc
    rw [hns]
    simp only [Option.some_bind, Option.bind_eq_bind]
    exact ih (fun x hx => hN x (List.mem_cons_of_mem _ hx)) _ ⟨n, rfl⟩

theorem matchVout_spec {F : Type} (txVerbose : TxRawResult F) (h : outputsIndexed txVerbose)
    (w : WalletForTx) (script : String) :
    ∃ n s, matchVout txVerbose w script = some (withOutIndex w n, s) := by
  unfold matchVout
  exact matchVout_fold txVerbose txVerbose.Vout h w (w, script) ⟨w.Address.AddressOutIndex, rfl⟩

theorem finalizeInputs_fold {R : Type} (ws : List WalletForTx) (tx : MultyTx R) :
    ws.foldl finalizeInput tx
      = { tx with
          TxOutAmount :=
            if ws = [] then tx.TxOutAmount
            else wrapInt64 (tx.TxOutAmount + (ws.map (fun w => w.Address.Amount)).sum),
          TxAddress := tx.TxAddress ++ ws.map (fun w => w.Address.Address) } := by
  induction ws generalizing tx with
  | nil => simp
  | cons w ws ih =>
    rw [List.foldl_cons, ih]
    by_cases hws : ws = []
    · subst hws
      simp [finalizeInput]
    · simp only [hws, if_false, finalizeInput, List.map_cons, List.sum_cons,
        wrapInt64_add_left, List.append_assoc, List.singleton_append, add_assoc]
      simp

theorem finalizeOutgoingOutputs_fold {R F : Type} (txVerbose : TxRawResult F)
    (h : outputsIndexed txVerbose) (ws : List WalletForTx) (tx : MultyTx R) :
    ∃ (ns : List Int) (script : String), ns.length = ws.length
      ∧ ws.foldlM (finalizeOutgoingOutput txVerbose) tx
        = some { tx with
                 TxOutAmount :=
                   if ws = [] then tx.TxOutAmount
                   else wrapInt64 (tx.TxOutAmount - (ws.map (fun w => w.Address.Amount)).sum),
                 WalletsOutput := tx.WalletsOutput ++ List.zipWith withOutIndex ws ns,
                 TxOutScript := script } := by
  induction ws generalizing tx with
  | nil => exact ⟨[], tx.TxOutScript, rfl, by simp⟩
  | cons w ws ih =>
    rw [List.foldlM_cons]
    obtain ⟨n, s, hns⟩ := matchVout_spec txVerbose h w tx.TxOutScript
    have hstep : finalizeOutgoingOutput txVerbose tx w
        = some { tx with
                 TxOutAmount := wrapInt64 (tx.TxOutAmount - w.Address.Amount),
                 WalletsOutput := tx.WalletsOutput ++ [withOutIndex w n],
                 TxOutScript := s } := by
      unfold finalizeOutgoingOutput
      simp only [hns]
    rw [hstep]
    simp only [Option.some_bind, Option.bind_eq_bind]
    obtain ⟨ns, script, hlen, hfold⟩ := ih
      { tx with
        TxOutAmount := wrapInt64 (tx.TxOutAmount - w.Address.Amount),
        WalletsOutput := tx.WalletsOutput ++ [withOutIndex w n],
        TxOutScript := s }
    refine ⟨n :: ns, script, by simp [hlen], ?_⟩
    rw [hfold]
    by_cases hws : ws = []
    · subst hws
      simp
    · simp only [hws, if_false, List.map_cons, List.sum_cons, wrapInt64_sub_left,
        List.append_assoc, List.singleton_append, List.zipWith_cons_cons, sub_sub]
      simp

theorem finalizeIncomingOutputs_fold {R F : Type} (txVerbose : TxRawResult F)
    (h : outputsIndexed txVerbose) (ws : List WalletForTx) (tx : MultyTx R) :
    ∃ (ns : List Int) (script : String), ns.length = ws.length
      ∧ ws.foldlM (finalizeIncomingOutput txVerbose) tx
        = some { tx with
                 TxOutAmount :=
                   if ws = [] then tx.TxOutAmount
                   else wrapInt64 (tx.TxOutAmount + (ws.map (fun w => w.Address.Amount)).sum),
                 TxAddress := tx.TxAddress ++ ws.map (fun w => w.Address.Address),
                 WalletsOutput := tx.WalletsOutput ++ List.zipWith withOutIndex ws ns,
                 TxOutScript := script } := by
  induction ws generalizing tx with
  | nil => exact ⟨[], tx.TxOutScript, rfl, by simp⟩
  | cons w ws ih =>
    rw [List.foldlM_cons]
    obtain ⟨n, s, hns⟩ := matchVout_spec txVerbose h w tx.TxOutScript
    have hstep : finalizeIncomingOutput txVerbose tx w
        = some { tx with
                 TxOutAmount := wrapInt64 (tx.TxOutAmount + w.Address.Amount),
                 TxAddress := tx.TxAddress ++ [w.Address.Address],
                 WalletsOutput := tx.WalletsOutput ++ [withOutIndex w n],
                 TxOutScript := s } := by
      unfold finalizeIncomingOutput
      simp only [hns]
    rw [hstep]
    simp only [Option.some_bind, Option.bind_eq_bind]
    obtain ⟨ns, script, hlen, hfold⟩ := ih
      { tx with
        TxOutAmount := wrapInt64 (tx.TxOutAmount + w.Address.Amount),
        TxAddress := tx.TxAddress ++ [w.Address.Address],
        WalletsOutput := tx.WalletsOutput ++ [withOutIndex w n],
        TxOutScript := s }
    refine ⟨n :: ns, script, by simp [hlen], ?_⟩
    rw [hfold]
    by_cases hws : ws = []
    · subst hws
      simp
    · simp only [hws, if_false, List.map_cons, List.sum_cons, wrapInt64_add_left,
        List.append_assoc, List.singleton_append, List.zipWith_cons_cons, add_assoc]
      simp

theorem splitTransaction_single_output {R : Type} (m : MultyTx R) (blockHeight tip : Int)
    (clock : Nat → Int) (w : WalletForTx) (hin : m.WalletsInput = [])
    (hout : m.WalletsOutput = [w]) :
    splitTransaction m blockHeight tip clock
      = [incomingView m (wrapInt64 (tip - blockHeight)) tip (clock 0) w] := by
  rw [splitTransaction_eq]
  simp [hin, hout, freshTouches, incomingViews]

theorem finalizeTransaction_outgoing_eq {R F : Type} (tx : MultyTx R)
    (txVerbose : TxRawResult F) (hidx : outputsIndexed txVerbose)
    (hbranch : tx.TxStatus = TxStatusInBlockConfirmedOutcoming
      ∨ tx.TxStatus = TxStatusAppearedInBlockOutcoming
      ∨ tx.TxStatus = TxStatusAppearedInMempoolOutcoming) :
    ∃ (ns : List Int) (script : String), ns.length = tx.WalletsOutput.length
      ∧ finalizeTransaction tx txVerbose
        = some { tx with
            TxOutAmount :=
              if tx.WalletsOutput = [] then
                (if tx.WalletsInput = [] then tx.TxOutAmount
                 else wrapInt64 (tx.TxOutAmount
                    + (tx.WalletsInput.map (fun w => w.Address.Amount)).sum))
              else wrapInt64 (tx.TxOutAmount
                    + (tx.WalletsInput.map (fun w => w.Address.Amount)).sum
                    - (tx.WalletsOutput.map (fun w => w.Address.Amount)).sum),
            TxAddress := tx.TxAddress ++ tx.WalletsInput.map (fun w => w.Address.Address),
            WalletsOutput := List.zipWith withOutIndex tx.WalletsOutput ns,
            TxOutScript := script } := by
  obtain ⟨ns, script, hlen, hfold⟩ := finalizeOutgoingOutputs_fold txVerbose hidx
    tx.WalletsOutput { finalizeInputs tx with WalletsOutput := [] }
  refine ⟨ns, script, hlen, ?_⟩
  unfold finalizeTransaction
  rw [if_pos hbranch]
  unfold finalizeOutgoingOutputs
  have hw : (finalizeInputs tx).WalletsOutput = tx.WalletsOutput := by
    unfold finalizeInputs
    rw [finalizeInputs_fold]
  rw [hw, hfold]
  unfold finalizeInputs
  rw [finalizeInputs_fold]
  by_cases h1 : tx.WalletsInput = [] <;> by_cases h2 : tx.WalletsOutput = []
  · simp [h1, h2]
  · simp [h1, h2]
  · simp [h1, h2]
  · simp [h1, h2, wrapInt64_sub_left]

theorem finalizeTransaction_incoming_eq {R F : Type} (tx : MultyTx R)
    (txVerbose : TxRawResult F) (hidx : outputsIndexed txVerbose)
    (hbranch : ¬ (tx.TxStatus = TxStatusInBlockConfirmedOutcoming
      ∨ tx.TxStatus = TxStatusAppearedInBlockOutcoming
      ∨ tx.TxStatus = TxStatusAppearedInMempoolOutcoming)) :
    ∃ (ns : List Int) (script : String), ns.length = tx.WalletsOutput.length
      ∧ finalizeTransaction tx txVerbose
        = some { tx with
            TxOutAmount :=
              if tx.WalletsOutput = [] then tx.TxOutAmount
              else wrapInt64 (tx.TxOutAmount
                    + (tx.WalletsOutput.map (fun w => w.Address.Amount)).sum),
            TxAddress := tx.TxAddress ++ tx.WalletsOutput.map (fun w => w.Address.Address),
            WalletsOutput := List.zipWith withOutIndex tx.WalletsOutput ns,
            TxOutScript := script } := by
  obtain ⟨ns, script, hlen, hfold⟩ := finalizeIncomingOutputs_fold txVerbose hidx
    tx.WalletsOutput { tx with WalletsOutput := [] }
  refine ⟨ns, script, hlen, ?_⟩
  unfold finalizeTransaction
  rw [if_neg hbranch]
  unfold finalizeIncomingOutputs
  rw [hfold]
  simp

/-- C7: on an outgoing view (status 3, 4 or 6) with `tx_out_amount` 0 and no `tx_address`
yet, `finalizeTransaction` returns, `tx_out_amount` is the `int64` value of the sum of the
input touch amounts minus the sum of the output touch amounts (that difference itself
when it fits an `int64`), and `tx_address` lists the input touch addresses in order. -/
theorem finalizeTransaction_outgoing {R F : Type} (tx : MultyTx R)
    (txVerbose : TxRawResult F) (hidx : outputsIndexed txVerbose)
    (hstatus : tx.TxStatus = 3 ∨ tx.TxStatus = 4 ∨ tx.TxStatus = 6)
    (hamount : tx.TxOutAmount = 0) (haddr : tx.TxAddress = []) :
    ∃ tx', finalizeTransaction tx txVerbose = some tx'
      ∧ tx'.TxOutAmount
          = wrapInt64 ((tx.WalletsInput.map (fun w => w.Address.Amount)).sum
              - (tx.WalletsOutput.map (fun w => w.Address.Amount)).sum)
      ∧ (isInt64 ((tx.WalletsInput.map (fun w => w.Address.Amount)).sum
              - (tx.WalletsOutput.map (fun w => w.Address.Amount)).sum) →
          tx'.TxOutAmount
            = (tx.WalletsInput.map (fun w => w.Address.Amount)).sum
              - (tx.WalletsOutput.map (fun w => w.Address.Amount)).sum)
      ∧ tx'.TxAddress = tx.WalletsInput.map (fun w => w.Address.Address) := by
  have hbranch : tx.TxStatus = TxStatusInBlockConfirmedOutcoming
      ∨ tx.TxStatus = TxStatusAppearedInBlockOutcoming
      ∨ tx.TxStatus = TxStatusAppearedInMempoolOutcoming := by
    simp only [TxStatusInBlockConfirmedOutcoming, TxStatusAppearedInBlockOutcoming,
      TxStatusAppearedInMempoolOutcoming]
    omega
  obtain ⟨ns, script, _, hfin⟩ := finalizeTransaction_outgoing_eq tx txVerbose hidx hbranch
  have hval : (if tx.WalletsOutput = [] then
                (if tx.WalletsInput = [] then tx.TxOutAmount
                 else wrapInt64 (tx.TxOutAmount
                    + (tx.WalletsInput.map (fun w => w.Address.Amount)).sum))
              else wrapInt64 (tx.TxOutAmount
                    + (tx.WalletsInput.map (fun w => w.Address.Amount)).sum
                    - (tx.WalletsOutput.map (fun w => w.Address.Amount)).sum))
      = wrapInt64 ((tx.WalletsInput.map (fun w => w.Address.Amount)).sum
              - (tx.WalletsOutput.map (fun w => w.Address.Amount)).sum) := by
    rw [hamount]
    by_cases h1 : tx.WalletsInput = [] <;> by_cases h2 : tx.WalletsOutput = []
    · simp [h1, h2, wrapInt64]
    · simp [h1, h2]
    · simp [h1, h2]
    · simp [h1, h2]
  refine ⟨_, hfin, hval, ?_, ?_⟩
  · intro hfit
    show (if tx.WalletsOutput = [] then _ else _) = _
    rw [hval]
    exact wrapInt64_of_isInt64 _ hfit
  · show tx.TxAddress ++ _ = _
    simp [haddr]

/-- C8: on an incoming view (status 1, 2 or 5) with `tx_out_amount` 0 and no `tx_address`
yet, `finalizeTransaction` returns, `tx_out_amount` is the `int64` value of the sum of the
output touch amounts (the sum itself when it fits an `int64`) and `tx_address` lists the
output touch addresses in order.  Scenario 2: a transaction with the single output touch
`w` of 50_000_000 satoshi at block height 100 under tip 100 is split into exactly one
view, which is finalized to `tx_out_amount = 50_000_000`, `tx_status = 2`,
`confirmations = 1` and `tx_address = [w's address]`. -/
theorem finalizeTransaction_incoming {R F : Type} (tx : MultyTx R)
    (txVerbose : TxRawResult F) (hidx : outputsIndexed txVerbose)
    (hstatus : tx.TxStatus = 1 ∨ tx.TxStatus = 2 ∨ tx.TxStatus = 5)
    (hamount : tx.TxOutAmount = 0) (haddr : tx.TxAddress = []) :
    (∃ tx', finalizeTransaction tx txVerbose = some tx'
      ∧ tx'.TxOutAmount = wrapInt64 ((tx.WalletsOutput.map (fun w => w.Address.Amount)).sum)
      ∧ (isInt64 ((tx.WalletsOutput.map (fun w => w.Address.Amount)).sum) →
          tx'.TxOutAmount = (tx.WalletsOutput.map (fun w => w.Address.Amount)).sum)
      ∧ tx'.TxAddress = tx.WalletsOutput.map (fun w => w.Address.Address))
    ∧ (∀ (multyTx : MultyTx R) (clock : Nat → Int) (w : WalletForTx),
        multyTx.WalletsInput = [] → multyTx.WalletsOutput = [w] →
        w.Address.Amount = 50000000 →
        multyTx.TxOutAmount = 0 → multyTx.TxAddress = [] →
        ∃ view view',
          splitTransaction multyTx 100 100 clock = [view]
          ∧ finalizeTransaction view txVerbose = some view'
          ∧ view'.TxOutAmount = 50000000 ∧ view'.TxStatus = 2
          ∧ view'.Confirmations = 1 ∧ view'.TxAddress = [w.Address.Address]) := by
  have hne : ∀ s : Int, s = 1 ∨ s = 2 ∨ s = 5 →
      ¬ (s = TxStatusInBlockConfirmedOutcoming
      ∨ s = TxStatusAppearedInBlockOutcoming
      ∨ s = TxStatusAppearedInMempoolOutcoming) := by
    intro s hs
    simp only [TxStatusInBlockConfirmedOutcoming, TxStatusAppearedInBlockOutcoming,
      TxStatusAppearedInMempoolOutcoming]
    omega
  constructor
  · obtain ⟨ns, script, _, hfin⟩ :=
      finalizeTransaction_incoming_eq tx txVerbose hidx (hne _ hstatus)
    have hval : (if tx.WalletsOutput = [] then tx.TxOutAmount
              else wrapInt64 (tx.TxOutAmount
                    + (tx.WalletsOutput.map (fun w => w.Address.Amount)).sum))
        = wrapInt64 ((tx.WalletsOutput.map (fun w => w.Address.Amount)).sum) := by
      rw [hamount]
      by_cases h2 : tx.WalletsOutput = []
      · simp [h2, wrapInt64]
      · simp [h2]
    refine ⟨_, hfin, hval, ?_, ?_⟩
    · intro hfit
      show (if tx.WalletsOutput = [] then _ else _) = _
      rw [hval]
      exact wrapInt64_of_isInt64 _ hfit
    · show tx.TxAddress ++ _ = _
      simp [haddr]
  · intro multyTx clock w hin hout hw ha hadr
    have hsplit := splitTransaction_single_output multyTx 100 100 clock w hin hout
    have hview : incomingView multyTx (wrapInt64 (100 - 100)) 100 (clock 0) w
        = { newEntity multyTx with
            WalletsInput := [], WalletsOutput := [w], Confirmations := 1,
            TxStatus := 2, BlockTime := clock 0 } := by
      have h0 : wrapInt64 (100 - 100) = 0 := by decide
      have h1 : wrapInt64 1 = 1 := by decide
      rw [h0]
      simp [incomingView, setTransactionStatus, h1, TxStatusAppearedInBlockIncoming]
    rw [hview] at hsplit
    obtain ⟨ns, script, _, hfin⟩ := finalizeTransaction_incoming_eq
      ({ newEntity multyTx with
            WalletsInput := [], WalletsOutput := [w], Confirmations := 1,
            TxStatus := 2, BlockTime := clock 0 } : MultyTx R) txVerbose hidx
      (hne 2 (by decide))
    refine ⟨_, _, hsplit, hfin, ?_, rfl, rfl, ?_⟩
    · have h5 : wrapInt64 50000000 = 50000000 := by decide
      simp [newEntity, ha, hw, h5]
    · simp [newEntity, hadr]

/-- Witness for C7: the outgoing view of scenario 3 is finalized to the net amount 71_000_000. -/
theorem finalizeTransaction_outgoing_witness :
    outputsIndexed scenario3Verbose
    ∧ ∃ tx', finalizeTransaction scenario3View scenario3Verbose = some tx'
        ∧ tx'.TxOutAmount = 71000000 ∧ tx'.TxAddress = ["A"] := by
  obtain ⟨tx', h1, _, h3, h4⟩ :=
    finalizeTransaction_outgoing scenario3View scenario3Verbose (by decide)
      (Or.inr (Or.inr rfl)) rfl rfl
  exact ⟨by decide, tx', h1, h3 (by decide), h4⟩

/-- Witness for C8: scenario 2 on the concrete transaction paying 0.5 BTC to `A`. -/
theorem finalizeTransaction_incoming_witness :
    outputsIndexed scenario2Verbose
    ∧ (∃ tx', finalizeTransaction scenario2View scenario2Verbose = some tx'
        ∧ tx'.TxOutAmount = 50000000 ∧ tx'.TxAddress = ["A"])
    ∧ ∃ view view',
        splitTransaction scenario2Tx 100 100 (fun _ => 1700000700) = [view]
        ∧ finalizeTransaction view scenario2Verbose = some view'
        ∧ view'.TxOutAmount = 50000000 ∧ view'.TxStatus = 2
        ∧ view'.Confirmations = 1 ∧ view'.TxAddress = ["A"] := by
  have h := finalizeTransaction_incoming scenario2View scenario2Verbose (by decide)
    (Or.inr (Or.inl rfl)) rfl rfl
  obtain ⟨tx', h1, _, h3, h4⟩ := h.1
  exact ⟨by decide, ⟨tx', h1, h3 (by decide), h4⟩,
    h.2 scenario2Tx (fun _ => 1700000700) (exampleTouch "U" 0 "A" 50000000 0) rfl rfl rfl
      rfl rfl⟩

/-! ### C5: scenario 3 through the streaming pipeline -/

/-- Counterexample for C5: on scenario 3 the message sent does not carry `tx_out_amount` 71_000_000 (it carries 100_000_000). -/
theorem scenario3_event_counterexample :
    ¬ ∃ e : BTCTransaction,
        (dispatchViews scenario3Verbose false
            (splitTransaction scenario3Tx 50 100 (fun _ => 1700000700))).1
          = [Event.transaction e]
        ∧ e.WalletsInput
            = [{ Userid := "U", Address := "A", Amount := 100000000, TxOutIndex := 0 }]
        ∧ e.WalletsOutput
            = [{ Userid := "U", Address := "B", Amount := 29000000, TxOutIndex := 1 }]
        ∧ e.TxStatus = 6 ∧ e.Confirmations = 51 ∧ e.TxOutAmount = 71000000 := by
  rintro ⟨e, he, -, -, -, -, hamount⟩
  have hrun : (dispatchViews scenario3Verbose false
      (splitTransaction scenario3Tx 50 100 (fun _ => 1700000700))).1.map
        (fun ev => match ev with
          | Event.transaction m => m.TxOutAmount
          | _ => 0) = [100000000] := by decide
  rw [he] at hrun
  simp only [List.map_cons, List.map_nil, List.cons.injEq, and_true] at hrun
  omega

/-- C5 (amended): scenario 3 through `splitTransaction`, `finalizeTransaction` and
`saveMultyTransaction`.  Exactly one message is sent; it carries the input touch `a` and
the output touch `b`, `tx_status = 6`, `confirmations = 51`, and its `tx_out_amount` is
100_000_000: the override of `saveMultyTransaction` replaces the finalizer's net amount
71_000_000 by the sum of the `tx_inputs` entries at `tx_address[0]`, the address of `a`. -/
theorem scenario3_pipeline {R F : Type} (multyTx : MultyTx R) (txVerbose : TxRawResult F)
    (clock : Nat → Int) (isReSync : Bool) (a b : WalletForTx) (X : String)
    (hidx : outputsIndexed txVerbose)
    (hin : multyTx.WalletsInput = [a]) (hout : multyTx.WalletsOutput = [b])
    (hwallet : a.UserID = b.UserID ∧ a.WalletIndex = 0 ∧ b.WalletIndex = 0)
    (ha : a.Address.Amount = 100000000) (hb : b.Address.Amount = 29000000)
    (htxin : multyTx.TxInputs = [{ Address := a.Address.Address, Amount := 100000000 }])
    (htxout : multyTx.TxOutputs
      = [{ Address := X, Amount := 70000000 },
         { Address := b.Address.Address, Amount := 29000000 }])
    (haddr : multyTx.TxAddress = []) :
    ∃ e : BTCTransaction,
      dispatchViews txVerbose isReSync (splitTransaction multyTx 50 100 clock)
        = ([Event.transaction e], true)
      ∧ e.WalletsInput
          = [{ Userid := a.UserID, Address := a.Address.Address, Amount := 100000000,
               TxOutIndex := wrapInt32 a.Address.AddressOutIndex }]
      ∧ e.WalletsOutput.map (fun w => (w.Userid, w.Address, w.Amount))
          = [(b.UserID, b.Address.Address, 29000000)]
      ∧ e.TxStatus = 6 ∧ e.Confirmations = 51 ∧ e.TxOutAmount = 100000000 := by
  have hkey : walletKey b = walletKey a := by
    simp [walletKey, hwallet.1, hwallet.2.1, hwallet.2.2]
  have hsame : isTheSameWallet [a] b = true := by
    rw [isTheSameWallet_iff]
    simp [hkey]
  have hsplit : splitTransaction multyTx 50 100 clock
      = [{ newEntity multyTx with
           WalletsOutput := [b], Confirmations := 51, TxStatus := 6 }] := by
    rw [splitTransaction_eq]
    have h50 : wrapInt64 (100 - 50) = 50 := by decide
    have h51 : wrapInt64 51 = 51 := by decide
    have hfresh : freshTouches ([walletKey a] ++ [walletKey b]) [b] = [] :=
      freshTouches_of_seen _ _ (by simp)
    simp only [hin, hout, List.length_cons, List.length_nil, gt_iff_lt, Nat.zero_lt_succ,
      if_true, List.filter_cons, hsame, List.filter_nil, List.map_cons, List.map_nil, hfresh,
      incomingViews, List.append_nil, h50, outgoingEntity_eq]
    simp [setTransactionStatus, h51, TxStatusInBlockConfirmedOutcoming, hsame]
  obtain ⟨ns, script, hlen, hfin⟩ := finalizeTransaction_outgoing_eq
    ({ newEntity multyTx with
       WalletsOutput := [b], Confirmations := 51, TxStatus := 6 } : MultyTx R)
    txVerbose hidx (Or.inl rfl)
  obtain ⟨n, rfl⟩ : ∃ n, ns = [n] := by
    match ns, hlen with
    | [n], _ => exact ⟨n, rfl⟩
  have h100 : wrapInt64 100000000 = 100000000 := by decide
  have hsave : saveMultyTransaction
      ({ ({ newEntity multyTx with
            WalletsOutput := [b], Confirmations := 51, TxStatus := 6 } : MultyTx R) with
          TxOutAmount := wrapInt64 (multyTx.TxOutAmount + 100000000 - 29000000),
          TxAddress := [a.Address.Address],
          WalletsOutput := [withOutIndex b n],
          TxOutScript := script } : MultyTx R) isReSync
      = some [storeTxToGenerated
          ({ newEntity multyTx with
              WalletsOutput := [withOutIndex b n], Confirmations := 51, TxStatus := 6,
              TxOutAmount := 100000000, TxAddress := [a.Address.Address],
              TxOutScript := script,
              UserID := fetchUserID [a] "" } : MultyTx R)] := by
    simp [saveMultyTransaction, newEntity, hin, overrideAmount, htxin, htxout, h100]
  have hfin' : finalizeTransaction
      ({ newEntity multyTx with
         WalletsOutput := [b], Confirmations := 51, TxStatus := 6 } : MultyTx R) txVerbose
      = some ({ ({ newEntity multyTx with
            WalletsOutput := [b], Confirmations := 51, TxStatus := 6 } : MultyTx R) with
          TxOutAmount := wrapInt64 (multyTx.TxOutAmount + 100000000 - 29000000),
          TxAddress := [a.Address.Address],
          WalletsOutput := [withOutIndex b n],
          TxOutScript := script } : MultyTx R) := by
    rw [hfin]
    simp [newEntity, hin, haddr, ha, hb]
  refine ⟨storeTxToGenerated
          ({ newEntity multyTx with
              WalletsOutput := [withOutIndex b n], Confirmations := 51, TxStatus := 6,
              TxOutAmount := 100000000, TxAddress := [a.Address.Address],
              TxOutScript := script,
              UserID := fetchUserID [a] "" } : MultyTx R), ?_, ?_, ?_, ?_, ?_, ?_⟩
  · rw [hsplit]
    unfold dispatchViews
    simp only [hfin', hsave, dispatchViews, List.map_cons, List.map_nil, List.append_nil]
  · simp [storeTxToGenerated, newEntity, hin, ha]
  · simp [storeTxToGenerated, withOutIndex, hb]
  · simp [storeTxToGenerated]
    decide
  · simp [storeTxToGenerated]
    decide
  · simp [storeTxToGenerated]

/-- Witness for C5 (amended): scenario 3 on the concrete transaction. -/
theorem scenario3_pipeline_witness :
    outputsIndexed scenario3Verbose
    ∧ ∃ e : BTCTransaction,
        dispatchViews scenario3Verbose false
            (splitTransaction scenario3Tx 50 100 (fun _ => 1700000700))
          = ([Event.transaction e], true)
        ∧ e.TxStatus = 6 ∧ e.Confirmations = 51 ∧ e.TxOutAmount = 100000000 := by
  obtain ⟨e, h1, _, _, h4, h5, h6⟩ :=
    scenario3_pipeline scenario3Tx scenario3Verbose (fun _ => 1700000700) false
      (exampleTouch "U" 0 "A" 100000000 0) (exampleTouch "U" 0 "B" 29000000 1) "X"
      (by decide) rfl rfl (by decide) rfl rfl rfl rfl rfl
  exact ⟨by decide, e, h1, h4, h5, h6⟩

/-! ### C6: scenario 6 -/

/-- Counterexample for C6: under tip 100 the views at heights 10, 60 and 101 do not have confirmations 11, 41, 0 with statuses 5, 5, 1 (the first has 91 confirmations, the third keeps status 0). -/
theorem resync_batch_counterexample :
    ¬ ((splitTransaction resyncTx 10 100 (fun _ => 1700000700)).map
          (fun v => (v.Confirmations, v.TxStatus)) = [(11, 5)]
      ∧ (splitTransaction resyncTx 60 100 (fun _ => 1700000700)).map
          (fun v => (v.Confirmations, v.TxStatus)) = [(41, 5)]
      ∧ (splitTransaction resyncTx 101 100 (fun _ => 1700000700)).map
          (fun v => (v.Confirmations, v.TxStatus)) = [(0, 1)]) := by
  decide

/-- C6 (amended): under tip 100 a transaction with one output touch and no input touch
is split into one view; at block height 10 the view has 91 confirmations and status 5,
at block height 60 it has 41 confirmations and status 5, and at block height 101 it has
0 confirmations. -/
theorem resync_batch_views {R : Type} (multyTx : MultyTx R) (clock : Nat → Int)
    (w : WalletForTx) (hin : multyTx.WalletsInput = []) (hout : multyTx.WalletsOutput = [w]) :
    (∃ v, splitTransaction multyTx 10 100 clock = [v]
        ∧ v.Confirmations = 91 ∧ v.TxStatus = 5)
    ∧ (∃ v, splitTransaction multyTx 60 100 clock = [v]
        ∧ v.Confirmations = 41 ∧ v.TxStatus = 5)
    ∧ (∃ v, splitTransaction multyTx 101 100 clock = [v] ∧ v.Confirmations = 0) := by
  refine ⟨⟨_, splitTransaction_single_output multyTx 10 100 clock w hin hout, ?_, ?_⟩,
    ⟨_, splitTransaction_single_output multyTx 60 100 clock w hin hout, ?_, ?_⟩,
    ⟨_, splitTransaction_single_output multyTx 101 100 clock w hin hout, ?_⟩⟩
  · have h : wrapInt64 90 = 90 := by decide
    have h1 : wrapInt64 91 = 91 := by decide
    simp [incomingView, setTransactionStatus, h, h1]
  · have h : wrapInt64 90 = 90 := by decide
    simp [incomingView, setTransactionStatus, h, TxStatusInBlockConfirmedIncoming]
  · have h : wrapInt64 40 = 40 := by decide
    have h1 : wrapInt64 41 = 41 := by decide
    simp [incomingView, setTransactionStatus, h, h1]
  · have h : wrapInt64 40 = 40 := by decide
    simp [incomingView, setTransactionStatus, h, TxStatusInBlockConfirmedIncoming]
  · have h : wrapInt64 (-1) = -1 := by decide
    simp [incomingView, setTransactionStatus, h, newEntity]

/-- Witness for C6 (amended): the concrete transaction of scenario 6. -/
theorem resync_batch_views_witness :
    (∃ v, splitTransaction resyncTx 10 100 (fun _ => 1700000700) = [v]
        ∧ v.Confirmations = 91 ∧ v.TxStatus = 5)
    ∧ (∃ v, splitTransaction resyncTx 60 100 (fun _ => 1700000700) = [v]
        ∧ v.Confirmations = 41 ∧ v.TxStatus = 5)
    ∧ (∃ v, splitTransaction resyncTx 101 100 (fun _ => 1700000700) = [v]
        ∧ v.Confirmations = 0) :=
  resync_batch_views resyncTx (fun _ => 1700000700) (exampleTouch "U" 0 "A" 50000000 0)
    rfl rfl

/-! ### C10: the order of the messages of `ProcessTransaction` -/

theorem dispatchViews_views {R F : Type} (txVerbose : TxRawResult F) (isReSync : Bool)
    (transactions : List (MultyTx R)) :
    ∃ views : List BTCTransaction,
      (dispatchViews txVerbose isReSync transactions).1 = views.map Event.transaction := by
  induction transactions with
  | nil => exact ⟨[], rfl⟩
  | cons t ts ih =>
    obtain ⟨views, hviews⟩ := ih
    unfold dispatchViews
    split
    · exact ⟨[], rfl⟩
    · split
      · exact ⟨[], rfl⟩
      · rename_i sent _
        exact ⟨sent ++ views, by simp [hviews]⟩

/-- Counterexample for C10: for a transaction paying to a tracked address the first message sent is a create-spendable record, with no view before it. -/
theorem ledger_before_view_counterexample :
    ¬ (∀ (pre post : List Event) (e : Event),
        (ProcessTransaction Unit exactOps untrackedRpc usersOfA 100 (fun _ => 1700000700)
            100 trackedOutputTx false).1 = pre ++ e :: post →
        e.isLedger = true → ∃ v ∈ pre, v.isView = true) := by
  intro h
  have hrun : (ProcessTransaction Unit exactOps untrackedRpc usersOfA 100
      (fun _ => 1700000700) 100 trackedOutputTx false).1.map Event.isLedger
        = [true, false] := by
    decide!
  cases hev : (ProcessTransaction Unit exactOps untrackedRpc usersOfA 100
      (fun _ => 1700000700) 100 trackedOutputTx false).1 with
  | nil =>
    rw [hev] at hrun
    simp at hrun
  | cons e post =>
    rw [hev] at hrun
    have he : e.isLedger = true := by
      simp only [List.map_cons, List.cons.injEq] at hrun
      exact hrun.1
    obtain ⟨v, hv, _⟩ := h [] post e (by rw [hev]; rfl) he
    simp at hv

/-- C10 (amended): every message `ProcessTransaction` sends for one transaction is, in
the order of the sends, first the create-spendable records, then the delete-spendable
records, then the views: no view is sent before a create or delete record.  For a
related transaction the create records are those of `CreateSpendableOutputs` and the
delete records are the ones `DeleteSpendableOutputs` sent. -/
theorem processTransaction_ledger_first (R : Type) (fl : Float64Ops)
    (rpc : String → Option (TxRawResult fl.F))
    (usersData : String → Option AddressExtended) (tip : Int) (clock : Nat → Int)
    (blockHeight : Int) (txVerbose : TxRawResult fl.F) (isReSync : Bool) :
    (∃ (created : List AddSpOut) (deleted : List ReqDeleteSpOut) (views : List BTCTransaction),
      (ProcessTransaction R fl rpc usersData tip clock blockHeight txVerbose isReSync).1
        = created.map Event.addSpOut ++ deleted.map Event.delSpOut
            ++ views.map Event.transaction)
    ∧ (∀ multyTx, ParseRawTransaction R fl rpc usersData txVerbose = some (multyTx, true) →
        ∃ views : List BTCTransaction,
          (ProcessTransaction R fl rpc usersData tip clock blockHeight txVerbose isReSync).1
            = (CreateSpendableOutputs fl usersData txVerbose blockHeight).map Event.addSpOut
              ++ (DeleteSpendableOutputs rpc usersData txVerbose.Vin).1.map Event.delSpOut
              ++ views.map Event.transaction) := by
  have key : ∀ multyTx related,
      ParseRawTransaction R fl rpc usersData txVerbose = some (multyTx, related) →
      ∃ views : List BTCTransaction,
        (ProcessTransaction R fl rpc usersData tip clock blockHeight txVerbose isReSync).1
          = (if related then
              (CreateSpendableOutputs fl usersData txVerbose blockHeight).map Event.addSpOut
              ++ (DeleteSpendableOutputs rpc usersData txVerbose.Vin).1.map Event.delSpOut
             else [])
            ++ views.map Event.transaction := by
    intro multyTx related hparse
    unfold ProcessTransaction
    rw [hparse]
    cases related with
    | false =>
      cases multyTx with
      | none => exact ⟨[], by simp⟩
      | some m =>
        simp only [Bool.false_eq_true, if_false]
        cases setTransactionInfo fl rpc { m with BlockHeight := blockHeight } txVerbose
            blockHeight isReSync with
        | none => exact ⟨[], by simp⟩
        | some m' =>
          obtain ⟨views, hviews⟩ := dispatchViews_views txVerbose isReSync
            (splitTransaction m' blockHeight tip clock)
          exact ⟨views, by simp [hviews]⟩
    | true =>
      simp only [if_true]
      cases hdel : (DeleteSpendableOutputs rpc usersData txVerbose.Vin).2 with
      | false => exact ⟨[], by simp [hdel]⟩
      | true =>
        cases multyTx with
        | none => exact ⟨[], by simp [hdel]⟩
        | some m =>
          cases hset : setTransactionInfo fl rpc { m with BlockHeight := blockHeight }
              txVerbose blockHeight isReSync with
          | none => exact ⟨[], by simp [hdel, hset]⟩
          | some m' =>
            obtain ⟨views, hviews⟩ := dispatchViews_views txVerbose isReSync
              (splitTransaction m' blockHeight tip clock)
            exact ⟨views, by simp [hdel, hset, hviews]⟩
  constructor
  · cases hparse : ParseRawTransaction R fl rpc usersData txVerbose with
    | none =>
      refine ⟨[], [], [], ?_⟩
      unfold ProcessTransaction
      rw [hparse]
      rfl
    | some r =>
      obtain ⟨multyTx, related⟩ := r
      obtain ⟨views, hviews⟩ := key multyTx related hparse
      cases related with
      | false => exact ⟨[], [], views, by simpa using hviews⟩
      | true => exact ⟨_, _, views, by simpa using hviews⟩
  · intro multyTx hparse
    obtain ⟨views, hviews⟩ := key multyTx true hparse
    exact ⟨views, by simpa using hviews⟩

/-- Witness for C10 (amended): the transaction paying to the tracked address `A` is related, and its trace is the create records, the delete records, then the views. -/
theorem processTransaction_ledger_first_witness :
    ParseRawTransaction Unit exactOps untrackedRpc usersOfA trackedOutputTx
        = some (some trackedOutputParsed, true)
    ∧ ∃ views : List BTCTransaction,
        (ProcessTransaction Unit exactOps untrackedRpc usersOfA 100 (fun _ => 1700000700)
            100 trackedOutputTx false).1
          = (CreateSpendableOutputs exactOps usersOfA trackedOutputTx 100).map Event.addSpOut
            ++ (DeleteSpendableOutputs untrackedRpc usersOfA trackedOutputTx.Vin).1.map
                Event.delSpOut
            ++ views.map Event.transaction :=
  ⟨by decide!,
    (processTransaction_ledger_first Unit exactOps untrackedRpc usersOfA 100
      (fun _ => 1700000700) 100 trackedOutputTx false).2 (some trackedOutputParsed)
      (by decide!)⟩

/-! ### The `float64` arithmetic -/

/-- Values of `roundFloat64`: the decimals 0.29 and 0.7, a binary fraction, two ties at
`2 ^ 53`, the overflow at `2 ^ 1024` and two ties among the subnormal numbers. -/
theorem roundFloat64_values :
    roundFloat64 (29 / 100) = Float64.finite (5224175567749775 / 18014398509481984)
    ∧ roundFloat64 (7 / 10) = Float64.finite (3152519739159347 / 4503599627370496)
    ∧ roundFloat64 (1 / 2) = Float64.finite (1 / 2)
    ∧ roundFloat64 9007199254740993 = Float64.finite 9007199254740992
    ∧ roundFloat64 (-9007199254740995) = Float64.finite (-9007199254740996)
    ∧ roundFloat64 ((2 ^ 1024 - 2 ^ 970 : Nat) : ℚ) = Float64.inf false
    ∧ roundFloat64 ((2 ^ 1024 - 2 ^ 970 - 1 : Nat) : ℚ)
        = Float64.finite ((2 ^ 1024 - 2 ^ 971 : Nat) : ℚ)
    ∧ roundFloat64 (mkRat 1 (2 ^ 1075)) = Float64.finite 0
    ∧ roundFloat64 (mkRat 3 (2 ^ 1075)) = Float64.finite (mkRat 1 (2 ^ 1073)) := by
  decide!

/-- Values of the `float64` operations: `int64(0.29 * 100000000)` is 28_999_999,
`0.7 + 0.29` is the `float64` of 0.99, and `(1 - 0.99) * 100000000` converts to
1_000_000. -/
theorem float64_values :
    Float64.toInt64 (Float64.mul (roundFloat64 (29 / 100)) (Float64.finite 100000000))
        = 28999999
    ∧ Float64.add (roundFloat64 (7 / 10)) (roundFloat64 (29 / 100)) = roundFloat64 (99 / 100)
    ∧ Float64.toInt64 (Float64.mul
        (Float64.sub (Float64.finite 1) (roundFloat64 (99 / 100)))
        (Float64.finite 100000000)) = 1000000
    ∧ Float64.mul (Float64.inf true) (Float64.finite 0) = Float64.nan
    ∧ Float64.add (Float64.inf true) (Float64.inf false) = Float64.nan
    ∧ Float64.toInt64 (Float64.finite 9223372036854775808) = -9223372036854775808 := by
  decide!

theorem toInt64_isInt64 (x : Float64) : isInt64 (Float64.toInt64 x) := by
  cases x with
  | finite a =>
    show isInt64 (if isInt64 (truncToInt a) then truncToInt a else -9223372036854775808)
    split
    · assumption
    · decide
  | inf s => exact (by decide : isInt64 (-9223372036854775808))
  | nan => exact (by decide : isInt64 (-9223372036854775808))

theorem halvings_spec (fuel n : Nat) (hfuel : n ≤ fuel) (hn : 1 ≤ n) :
    2 ^ halvings fuel n ≤ n ∧ n < 2 ^ (halvings fuel n + 1) := by
  induction fuel generalizing n with
  | zero => omega
  | succ fuel ih =>
    unfold halvings
    by_cases h2 : 2 ≤ n
    · rw [if_pos h2]
      obtain ⟨h1, h3⟩ := ih (n / 2) (by omega) (by omega)
      rw [pow_succ, pow_succ]
      rw [pow_succ] at h3
      constructor <;> omega
    · rw [if_neg h2]
      constructor <;> simp <;> omega

/-- The value `floorLog2 n d` is the integer `e` with `2 ^ e ≤ n / d < 2 ^ (e + 1)`. -/
theorem floorLog2_spec (n d : Nat) (hn : 1 ≤ n) (hd : 1 ≤ d) :
    (2 : ℚ) ^ floorLog2 n d ≤ (n : ℚ) / d ∧ (n : ℚ) / d < (2 : ℚ) ^ (floorLog2 n d + 1) := by
  obtain ⟨hn1, hn2⟩ := halvings_spec n n le_rfl hn
  obtain ⟨hd1, hd2⟩ := halvings_spec d d le_rfl hd
  have hdq : (0 : ℚ) < d := by exact_mod_cast hd
  have hn1q : (2 : ℚ) ^ (halvings n n : Int) ≤ n := by
    rw [zpow_natCast]; exact_mod_cast hn1
  have hn2q : (n : ℚ) < (2 : ℚ) ^ ((halvings n n : Int) + 1) := by
    rw [← Nat.cast_succ, zpow_natCast]; exact_mod_cast hn2
  have hd1q : (2 : ℚ) ^ (halvings d d : Int) ≤ d := by
    rw [zpow_natCast]; exact_mod_cast hd1
  have hd2q : (d : ℚ) < (2 : ℚ) ^ ((halvings d d : Int) + 1) := by
    rw [← Nat.cast_succ, zpow_natCast]; exact_mod_cast hd2
  have h2 : (0 : ℚ) < 2 := by norm_num
  have key : ∀ k : Int,
      ((if 0 ≤ k then d * 2 ^ k.toNat ≤ n else d ≤ n * 2 ^ (-k).toNat)
        ↔ (2 : ℚ) ^ k ≤ (n : ℚ) / d) := by
    intro k
    rw [le_div_iff₀ hdq]
    by_cases hk : 0 ≤ k
    · rw [if_pos hk]
      obtain ⟨j, rfl⟩ := Int.eq_ofNat_of_zero_le hk
      simp only [Int.toNat_ofNat, zpow_natCast]
      rw [mul_comm]
      exact_mod_cast Iff.rfl
    · rw [if_neg hk]
      obtain ⟨j, hj⟩ := Int.eq_ofNat_of_zero_le (show 0 ≤ -k by omega)
      have hk' : k = -(j : Int) := by omega
      rw [hj, hk']
      simp only [Int.toNat_ofNat, zpow_neg, zpow_natCast]
      have hp : (0 : ℚ) < 2 ^ j := by positivity
      rw [inv_mul_le_iff₀ hp, mul_comm]
      exact_mod_cast Iff.rfl
  have hlow : (2 : ℚ) ^ ((halvings n n : Int) - (halvings d d : Int) - 1) ≤ (n : ℚ) / d := by
    rw [le_div_iff₀ hdq]
    calc (2 : ℚ) ^ ((halvings n n : Int) - (halvings d d : Int) - 1) * d
        ≤ (2 : ℚ) ^ ((halvings n n : Int) - (halvings d d : Int) - 1)
            * (2 : ℚ) ^ ((halvings d d : Int) + 1) :=
          mul_le_mul_of_nonneg_left hd2q.le (by positivity)
      _ = (2 : ℚ) ^ (halvings n n : Int) := by
          rw [← zpow_add₀ (by norm_num : (2 : ℚ) ≠ 0)]
          congr 1
          ring
      _ ≤ n := hn1q
  have hhigh : (n : ℚ) / d < (2 : ℚ) ^ ((halvings n n : Int) - (halvings d d : Int) + 1) := by
    rw [div_lt_iff₀ hdq]
    calc (n : ℚ) < (2 : ℚ) ^ ((halvings n n : Int) + 1) := hn2q
      _ = (2 : ℚ) ^ ((halvings n n : Int) - (halvings d d : Int) + 1)
            * (2 : ℚ) ^ (halvings d d : Int) := by
          rw [← zpow_add₀ (by norm_num : (2 : ℚ) ≠ 0)]
          congr 1
          ring
      _ ≤ (2 : ℚ) ^ ((halvings n n : Int) - (halvings d d : Int) + 1) * d :=
          mul_le_mul_of_nonneg_left hd1q (by positivity)
  unfold floorLog2
  simp only []
  by_cases hc : (if 0 ≤ (halvings n n : Int) - (halvings d d : Int)
      then d * 2 ^ ((halvings n n : Int) - (halvings d d : Int)).toNat ≤ n
      else d ≤ n * 2 ^ (-((halvings n n : Int) - (halvings d d : Int))).toNat)
  · rw [if_pos hc]
    exact ⟨(key _).1 hc, hhigh⟩
  · rw [if_neg hc]
    refine ⟨hlow, ?_⟩
    rw [sub_add_cancel]
    exact lt_of_not_le (fun h => hc ((key _).2 h))

/-- The value `roundHalfEven n d` is an integer nearest to `n / d`, and the even one of
the two when `n / d` lies half way between them. -/
theorem roundHalfEven_spec (n d : Nat) (hd : 1 ≤ d) :
    2 * (roundHalfEven n d * d) ≤ 2 * n + d ∧ 2 * n ≤ 2 * (roundHalfEven n d * d) + d
      ∧ ((2 * (roundHalfEven n d * d) = 2 * n + d ∨ 2 * n = 2 * (roundHalfEven n d * d) + d)
          → roundHalfEven n d % 2 = 0) := by
  have hdm := Nat.div_add_mod n d
  have hlt := Nat.mod_lt n hd
  rw [Nat.mul_comm] at hdm
  unfold roundHalfEven
  simp only []
  split_ifs with h1 h2 h3
  · generalize n / d * d = P at hdm ⊢
    refine ⟨by omega, by omega, ?_⟩
    rintro (h | h) <;> omega
  · rw [Nat.add_mul, Nat.one_mul]
    generalize n / d * d = P at hdm ⊢
    refine ⟨by omega, by omega, ?_⟩
    rintro (h | h) <;> omega
  · generalize n / d * d = P at hdm ⊢
    exact ⟨by omega, by omega, fun _ => h3⟩
  · rw [Nat.add_mul, Nat.one_mul]
    generalize hP : n / d * d = P at hdm ⊢
    exact ⟨by omega, by omega, fun _ => by omega⟩

set_option exponentiation.threshold 1100 in
/-- The value `roundFloat64 q` of `q ≠ 0` is `± r * 2 ^ p`, for the quantum `2 ^ p` of
the binade of `|q|` and an integer `r` nearest to `|q| / 2 ^ p`, even in a tie; it is an
infinity exactly when `r * 2 ^ p` reaches `2 ^ 1024`. -/
theorem roundFloat64_spec (q : ℚ) (hq : q.num ≠ 0) :
    ∃ r : Nat,
      2 * ((r : ℚ) * 2 ^ (max (floorLog2 q.num.natAbs q.den) (-1022) - 52))
          ≤ 2 * ((q.num.natAbs : ℚ) / q.den)
            + 2 ^ (max (floorLog2 q.num.natAbs q.den) (-1022) - 52)
      ∧ 2 * ((q.num.natAbs : ℚ) / q.den)
          ≤ 2 * ((r : ℚ) * 2 ^ (max (floorLog2 q.num.natAbs q.den) (-1022) - 52))
            + 2 ^ (max (floorLog2 q.num.natAbs q.den) (-1022) - 52)
      ∧ ((2 * ((r : ℚ) * 2 ^ (max (floorLog2 q.num.natAbs q.den) (-1022) - 52))
            = 2 * ((q.num.natAbs : ℚ) / q.den)
              + 2 ^ (max (floorLog2 q.num.natAbs q.den) (-1022) - 52)
          ∨ 2 * ((q.num.natAbs : ℚ) / q.den)
            = 2 * ((r : ℚ) * 2 ^ (max (floorLog2 q.num.natAbs q.den) (-1022) - 52))
              + 2 ^ (max (floorLog2 q.num.natAbs q.den) (-1022) - 52)) → r % 2 = 0)
      ∧ roundFloat64 q
          = if ((2 ^ 1024 : Nat) : ℚ)
                ≤ (r : ℚ) * 2 ^ (max (floorLog2 q.num.natAbs q.den) (-1022) - 52)
            then Float64.inf (decide (q.num < 0))
            else Float64.finite
              (if q.num < 0
                then -((r : ℚ) * 2 ^ (max (floorLog2 q.num.natAbs q.den) (-1022) - 52))
                else (r : ℚ) * 2 ^ (max (floorLog2 q.num.natAbs q.den) (-1022) - 52)) := by
  have hn : 1 ≤ q.num.natAbs := Nat.one_le_iff_ne_zero.2 (Int.natAbs_ne_zero.2 hq)
  have hd : 1 ≤ q.den := q.den_pos
  have hdq : (0 : ℚ) < q.den := by exact_mod_cast hd
  obtain ⟨he1, he2⟩ := floorLog2_spec q.num.natAbs q.den hn hd
  generalize hA : (q.num.natAbs : ℚ) / q.den = A at he1 he2 ⊢
  generalize hp : max (floorLog2 q.num.natAbs q.den) (-1022) - 52 = p
  have hdef : roundFloat64 q
      = if 0 ≤ p then
          (if 2 ^ 1024 ≤ roundHalfEven q.num.natAbs (q.den * 2 ^ p.toNat) * 2 ^ p.toNat
            then Float64.inf (decide (q.num < 0))
            else Float64.finite
              (if q.num < 0
                then -((roundHalfEven q.num.natAbs (q.den * 2 ^ p.toNat) * 2 ^ p.toNat : Nat) : ℚ)
                else ((roundHalfEven q.num.natAbs (q.den * 2 ^ p.toNat) * 2 ^ p.toNat : Nat) : ℚ)))
        else
          Float64.finite
            (if q.num < 0
              then -(mkRat (roundHalfEven (q.num.natAbs * 2 ^ (-p).toNat) q.den)
                (2 ^ (-p).toNat))
              else mkRat (roundHalfEven (q.num.natAbs * 2 ^ (-p).toNat) q.den)
                (2 ^ (-p).toNat)) := by
    unfold roundFloat64
    rw [if_neg hq]
    simp only [hp]
  rw [hdef]
  by_cases hp0 : 0 ≤ p
  · obtain ⟨j, rfl⟩ := Int.eq_ofNat_of_zero_le hp0
    simp only [Int.toNat_ofNat, if_pos hp0, zpow_natCast]
    have hpos : (0 : ℚ) < 2 ^ j := by positivity
    obtain ⟨h1, h2, h3⟩ := roundHalfEven_spec q.num.natAbs (q.den * 2 ^ j)
      (Nat.one_le_iff_ne_zero.2 (by positivity))
    generalize roundHalfEven q.num.natAbs (q.den * 2 ^ j) = r at h1 h2 h3 ⊢
    have hnA : (q.num.natAbs : ℚ) = A * q.den := by
      rw [← hA]; field_simp
    have h1q : (2 : ℚ) * (r * (q.den * 2 ^ j)) ≤ 2 * q.num.natAbs + q.den * 2 ^ j := by
      exact_mod_cast h1
    have h2q : (2 : ℚ) * q.num.natAbs ≤ 2 * (r * (q.den * 2 ^ j)) + q.den * 2 ^ j := by
      exact_mod_cast h2
    rw [hnA] at h1q h2q
    refine ⟨r, ?_, ?_, ?_, ?_⟩
    · have : (2 * ((r : ℚ) * 2 ^ j)) * q.den ≤ (2 * A + 2 ^ j) * q.den := by nlinarith
      exact le_of_mul_le_mul_right this hdq
    · have : (2 * A) * q.den ≤ (2 * ((r : ℚ) * 2 ^ j) + 2 ^ j) * q.den := by nlinarith
      exact le_of_mul_le_mul_right this hdq
    · intro h
      apply h3
      rcases h with h | h
      · left
        have : (2 : ℚ) * (r * (q.den * 2 ^ j)) = 2 * q.num.natAbs + q.den * 2 ^ j := by
          rw [hnA]; linear_combination (q.den : ℚ) * h
        exact_mod_cast this
      · right
        have : (2 : ℚ) * q.num.natAbs = 2 * (r * (q.den * 2 ^ j)) + q.den * 2 ^ j := by
          rw [hnA]; linear_combination (q.den : ℚ) * h
        exact_mod_cast this
    · generalize 2 ^ 1024 = B
      have hcast : ((r * 2 ^ j : Nat) : ℚ) = (r : ℚ) * 2 ^ j := by push_cast; rfl
      have hc : (B ≤ r * 2 ^ j) ↔ ((B : ℚ) ≤ (r : ℚ) * 2 ^ j) := by
        rw [← hcast]
        exact Nat.cast_le.symm
      by_cases hov : B ≤ r * 2 ^ j
      · rw [if_pos hov, if_pos (hc.1 hov)]
      · rw [if_neg hov, if_neg (fun h => hov (hc.2 h)), hcast]
  · obtain ⟨j, hj⟩ := Int.eq_ofNat_of_zero_le (show 0 ≤ -p by omega)
    have hpj : p = -(j : Int) := by omega
    subst hpj
    simp only [if_neg hp0, neg_neg, Int.toNat_ofNat, zpow_neg, zpow_natCast]
    have hpos : (0 : ℚ) < 2 ^ j := by positivity
    obtain ⟨h1, h2, h3⟩ := roundHalfEven_spec (q.num.natAbs * 2 ^ j) q.den hd
    generalize roundHalfEven (q.num.natAbs * 2 ^ j) q.den = r at h1 h2 h3 ⊢
    have hnA : (q.num.natAbs : ℚ) = A * q.den := by
      rw [← hA]; field_simp
    have h1q : (2 : ℚ) * (r * q.den) ≤ 2 * (q.num.natAbs * 2 ^ j) + q.den := by
      exact_mod_cast h1
    have h2q : (2 : ℚ) * (q.num.natAbs * 2 ^ j) ≤ 2 * (r * q.den) + q.den := by
      exact_mod_cast h2
    rw [hnA] at h1q h2q
    have hinv2 : ((2 : ℚ) ^ j)⁻¹ * 2 ^ j = 1 := inv_mul_cancel₀ (ne_of_gt hpos)
    have hmk : mkRat (r : Int) (2 ^ j) = (r : ℚ) * (2 ^ j)⁻¹ := by
      rw [Rat.mkRat_eq_div]
      push_cast
      rfl
    refine ⟨r, ?_, ?_, ?_, ?_⟩
    · have : (2 * ((r : ℚ) * (2 ^ j)⁻¹)) * (q.den * 2 ^ j)
          ≤ (2 * A + (2 ^ j)⁻¹) * (q.den * 2 ^ j) := by
        have e1 : (2 * ((r : ℚ) * (2 ^ j)⁻¹)) * (q.den * 2 ^ j) = 2 * (r * q.den) := by
          field_simp; ring
        have e2 : (2 * A + ((2 : ℚ) ^ j)⁻¹) * (q.den * 2 ^ j)
            = 2 * (A * q.den * 2 ^ j) + q.den := by
          field_simp; ring
        rw [e1, e2]; exact h1q
      exact le_of_mul_le_mul_right this (by positivity)
    · have : (2 * A) * (q.den * 2 ^ j)
          ≤ (2 * ((r : ℚ) * (2 ^ j)⁻¹) + (2 ^ j)⁻¹) * (q.den * 2 ^ j) := by
        have e1 : (2 * ((r : ℚ) * (2 ^ j)⁻¹) + ((2 : ℚ) ^ j)⁻¹) * (q.den * 2 ^ j)
            = 2 * (r * q.den) + q.den := by
          field_simp; ring
        rw [e1]; linarith
      exact le_of_mul_le_mul_right this (by positivity)
    · intro h
      apply h3
      rcases h with h | h
      · left
        have : (2 : ℚ) * (r * q.den) = 2 * (q.num.natAbs * 2 ^ j) + q.den := by
          rw [hnA]
          linear_combination ((q.den : ℚ) * 2 ^ j) * h
            - (2 * (r : ℚ) * q.den - q.den) * hinv2
        exact_mod_cast this
      · right
        have : (2 : ℚ) * (q.num.natAbs * 2 ^ j) = 2 * (r * q.den) + q.den := by
          rw [hnA]
          linear_combination ((q.den : ℚ) * 2 ^ j) * h
            + (2 * (r : ℚ) * q.den + q.den) * hinv2
        exact_mod_cast this
    · have hbound : (r : ℚ) * (2 ^ j)⁻¹ < ((2 ^ 1024 : Nat) : ℚ) := by
        have hle : floorLog2 q.num.natAbs q.den + 1 ≤ 52 := by
          have := le_max_left (floorLog2 q.num.natAbs q.den) (-1022)
          omega
        have hA52 : A < (2 : ℚ) ^ (52 : Int) :=
          lt_of_lt_of_le he2 (zpow_le_zpow_right₀ (by norm_num) hle)
        have hinv : ((2 : ℚ) ^ j)⁻¹ ≤ 1 := inv_le_one_of_one_le₀ (one_le_pow₀ (by norm_num))
        have hr : (r : ℚ) * (2 ^ j)⁻¹ < (2 : ℚ) ^ (53 : Int) := by
          have h53 : (2 : ℚ) ^ (53 : Int) = 2 * (2 : ℚ) ^ (52 : Int) := by norm_num
          have hstep : 2 * ((r : ℚ) * (2 ^ j)⁻¹) ≤ 2 * A + (2 ^ j)⁻¹ := by
            have : (2 * ((r : ℚ) * (2 ^ j)⁻¹)) * (q.den * 2 ^ j)
                ≤ (2 * A + (2 ^ j)⁻¹) * (q.den * 2 ^ j) := by
              have e1 : (2 * ((r : ℚ) * (2 ^ j)⁻¹)) * (q.den * 2 ^ j) = 2 * (r * q.den) := by
                field_simp; ring
              have e2 : (2 * A + ((2 : ℚ) ^ j)⁻¹) * (q.den * 2 ^ j)
                  = 2 * (A * q.den * 2 ^ j) + q.den := by
                field_simp; ring
              rw [e1, e2]; exact h1q
            exact le_of_mul_le_mul_right this (by positivity)
          have h52 : (1 : ℚ) ≤ (2 : ℚ) ^ (52 : Int) := by norm_num
          rw [h53]
          linarith
        have hbig : ∀ B : Nat, 2 ^ 53 ≤ B → (2 : ℚ) ^ (53 : Int) ≤ (B : ℚ) := by
          intro B hB
          have hq53 : (2 : ℚ) ^ (53 : Int) = ((2 ^ 53 : Nat) : ℚ) := by norm_num
          rw [hq53]
          exact Nat.cast_le.2 hB
        exact lt_of_lt_of_le hr
          (hbig _ (Nat.pow_le_pow_right (by norm_num) (by norm_num)))
      rw [if_neg (not_le.2 hbound), hmk]

/-! ### C9: the fee -/

theorem addresses_fold (fl : Float64Ops) (out : Vout fl.F) (addrs : List String)
    (acc : List AddressAmount) :
    addrs.foldl
        (fun (outputs : List AddressAmount) address =>
          let amount := fl.toInt64 (fl.mul out.Value fl.SatoshiToBitcoin)
          outputs ++ [newAddressAmount address amount])
        acc
      = acc ++ addrs.map (fun address =>
          newAddressAmount address (fl.toInt64 (fl.mul out.Value fl.SatoshiToBitcoin))) := by
  induction addrs generalizing acc with
  | nil => simp
  | cons a addrs ih =>
    rw [List.foldl_cons, ih]
    simp

theorem setTransactionInfoOutput_fold (fl : Float64Ops) (outs : List (Vout fl.F))
    (acc : List AddressAmount × fl.F) :
    outs.foldl (setTransactionInfoOutput fl) acc
      = (acc.1 ++ addressAmounts fl outs,
         outs.foldl (fun sum out => fl.add sum out.Value) acc.2) := by
  induction outs generalizing acc with
  | nil => simp [addressAmounts]
  | cons o outs ih =>
    rw [List.foldl_cons, ih]
    simp [setTransactionInfoOutput, addresses_fold, addressAmounts]

theorem setTransactionInfoOutputs_eq (fl : Float64Ops) (outs : List (Vout fl.F)) :
    setTransactionInfoOutputs fl outs = (addressAmounts fl outs, valueSum fl outs) := by
  unfold setTransactionInfoOutputs
  rw [setTransactionInfoOutput_fold]
  simp [valueSum]

theorem setTransactionInfoInput_fold (fl : Float64Ops)
    (rpc : String → Option (TxRawResult fl.F)) (vin : List Vin)
    (acc : List AddressAmount × fl.F) :
    vin.foldlM (setTransactionInfoInput fl rpc) acc
      = (resolveInputs rpc vin).map (fun prevs =>
          (acc.1 ++ addressAmounts fl prevs,
           prevs.foldl (fun sum out => fl.add sum out.Value) acc.2)) := by
  induction vin generalizing acc with
  | nil => simp [resolveInputs, addressAmounts]
  | cons input vin ih =>
    rw [List.foldlM_cons]
    cases hr : rpc input.Txid with
    | none => simp [setTransactionInfoInput, resolveInputs, hr]
    | some prev =>
      cases hp : prev.Vout[input.Vout]? with
      | none => simp [setTransactionInfoInput, resolveInputs, hr, hp]
      | some prevOut =>
        have hstep : setTransactionInfoInput fl rpc acc input
            = some (acc.1 ++ prevOut.ScriptPubKey.Addresses.map (fun address =>
                newAddressAmount address
                  (fl.toInt64 (fl.mul prevOut.Value fl.SatoshiToBitcoin))),
              fl.add acc.2 prevOut.Value) := by
          unfold setTransactionInfoInput
          simp only [hr, hp]
          rw [addresses_fold]
        rw [hstep]
        simp only [Option.some_bind, Option.bind_eq_bind]
        rw [ih]
        simp only [resolveInputs, hr, hp]
        cases resolveInputs rpc vin with
        | none => rfl
        | some outs => simp [addressAmounts]

theorem setTransactionInfoInputs_eq (fl : Float64Ops)
    (rpc : String → Option (TxRawResult fl.F)) (vin : List Vin) :
    setTransactionInfoInputs fl rpc vin
      = (resolveInputs rpc vin).map (fun prevs =>
          (addressAmounts fl prevs, valueSum fl prevs)) := by
  unfold setTransactionInfoInputs
  rw [setTransactionInfoInput_fold]
  simp [valueSum]

theorem resolveInputs_none_of_failed_lookup {F : Type} (rpc : String → Option (TxRawResult F))
    (vin : List Vin) (h : ∃ input ∈ vin, rpc input.Txid = none) :
    resolveInputs rpc vin = none := by
  induction vin with
  | nil =>
    obtain ⟨input, hin, _⟩ := h
    simp at hin
  | cons a vin ih =>
    cases hr : rpc a.Txid with
    | none => simp [resolveInputs, hr]
    | some prev =>
      cases hp : prev.Vout[a.Vout]? with
      | none => simp [resolveInputs, hr, hp]
      | some prevOut =>
        obtain ⟨input, hin, hfail⟩ := h
        rcases List.mem_cons.1 hin with rfl | hin
        · rw [hr] at hfail
          exact absurd hfail (by simp)
        · simp [resolveInputs, hr, hp, ih ⟨input, hin, hfail⟩]

/-- C11: a failed previous-transaction lookup is fatal in `setTransactionInfo`: whenever
the lookup of some input fails the function panics (the nil result is dereferenced at
line 80) and sets neither `tx_inputs`, `tx_outputs` nor `tx_fee`, whereas `parseInputs`
on the same transaction skips the input and returns. -/
theorem setTransactionInfo_failed_lookup {R : Type} (fl : Float64Ops)
    (rpc : String → Option (TxRawResult fl.F))
    (usersData : String → Option AddressExtended) (multyTx : MultyTx R)
    (txVerbose : TxRawResult fl.F) (blockHeight : Int) (isReSync : Bool)
    (hfail : ∃ input ∈ txVerbose.Vin, rpc input.Txid = none) :
    setTransactionInfo fl rpc multyTx txVerbose blockHeight isReSync = none
    ∧ ((∀ input ∈ txVerbose.Vin, rpc input.Txid = none) →
        parseInputs fl rpc usersData txVerbose multyTx = some multyTx) := by
  constructor
  · unfold setTransactionInfo
    rw [setTransactionInfoInputs_eq, resolveInputs_none_of_failed_lookup rpc _ hfail]
    rfl
  · intro hall
    exact (parseInputs_fold_untracked fl rpc usersData txVerbose txVerbose.Vin multyTx
      (fun input hi prev hp => by rw [hall input hi] at hp; exact absurd hp (by simp))).2
      (fun input hi prev hp => by rw [hall input hi] at hp; exact absurd hp (by simp))

/-- Witness for C11: the transaction paying to the tracked address `A` when the node
cannot return the previous transaction: the parser skips the input and reports the
transaction as related, the create record is sent, and `setTransactionInfo` panics
before any view is sent. -/
theorem setTransactionInfo_failed_lookup_witness :
    (∃ input ∈ trackedOutputTx.Vin, failingRpc input.Txid = none)
    ∧ setTransactionInfo exactOps failingRpc trackedOutputParsed trackedOutputTx 100 false
        = none
    ∧ ParseRawTransaction Unit exactOps failingRpc usersOfA trackedOutputTx
        = some (some trackedOutputParsed, true)
    ∧ (ProcessTransaction Unit exactOps failingRpc usersOfA 100 (fun _ => 1700000700) 100
        trackedOutputTx false).2 = false
    ∧ (ProcessTransaction Unit exactOps failingRpc usersOfA 100 (fun _ => 1700000700) 100
        trackedOutputTx false).1.map Event.isView = [false] :=
  ⟨⟨_, List.mem_cons_self _ _, rfl⟩,
    (setTransactionInfo_failed_lookup exactOps failingRpc usersOfA trackedOutputParsed
      trackedOutputTx 100 false ⟨_, List.mem_cons_self _ _, rfl⟩).1,
    by decide!, by decide!, by decide!⟩

/-! ### C12, C13 and C14: the spendable-output records -/

theorem wrapInt32_of_isInt32 (x : Int) (h : isInt32 x) : wrapInt32 x = x := by
  unfold isInt32 at h
  unfold wrapInt32
  omega

theorem foldl_append_filterMap {α β : Type} (g : α → Option β) (xs : List α) (acc : List β) :
    xs.foldl (fun acc x => match g x with
        | none => acc
        | some y => acc ++ [y]) acc
      = acc ++ xs.filterMap g := by
  induction xs generalizing acc with
  | nil => simp
  | cons x xs ih =>
    rw [List.foldl_cons, ih]
    cases hg : g x with
    | none => simp [List.filterMap_cons, hg]
    | some y => simp [List.filterMap_cons, hg]

/-- C12: `CreateSpendableOutputs` sends, in output order, one create record for every
output whose first address is in the users map and none for the other outputs; the record
carries the transaction's txid, the output's `n` (as `int32`), its value in satoshi, its
hex script and first address, the owner's `user_id`, `wallet_index` and `address_index`
(as `int32`), and status 1 when the block height is -1 and 2 otherwise.  When every
output number and every owner index fits an `int32` the record carries them unchanged. -/
theorem createSpendableOutputs_records (fl : Float64Ops)
    (usersData : String → Option AddressExtended) (tx : TxRawResult fl.F)
    (blockHeight : Int) :
    CreateSpendableOutputs fl usersData tx blockHeight
      = tx.Vout.filterMap (fun output =>
          match output.ScriptPubKey.Addresses.head? with
          | none => none
          | some address =>
            match usersData address with
            | none => none
            | some owner =>
              some { TxID := tx.Txid,
                     TxOutID := wrapInt32 output.N,
                     TxOutAmount := fl.toInt64 (fl.mul output.Value fl.SatoshiToBitcoin),
                     TxOutScript := output.ScriptPubKey.Hex,
                     Address := address,
                     UserID := owner.UserID,
                     TxStatus := if blockHeight = -1 then 1 else 2,
                     WalletIndex := wrapInt32 owner.WalletIndex,
                     AddressIndex := wrapInt32 owner.AddressIndex })
    ∧ ((∀ output ∈ tx.Vout, isInt32 output.N) →
        (∀ address owner, usersData address = some owner →
          isInt32 owner.WalletIndex ∧ isInt32 owner.AddressIndex) →
        CreateSpendableOutputs fl usersData tx blockHeight
          = tx.Vout.filterMap (fun output =>
              match output.ScriptPubKey.Addresses.head? with
              | none => none
              | some address =>
                match usersData address with
                | none => none
                | some owner =>
                  some { TxID := tx.Txid,
                         TxOutID := output.N,
                         TxOutAmount := fl.toInt64 (fl.mul output.Value fl.SatoshiToBitcoin),
                         TxOutScript := output.ScriptPubKey.Hex,
                         Address := address,
                         UserID := owner.UserID,
                         TxStatus := if blockHeight = -1 then 1 else 2,
                         WalletIndex := owner.WalletIndex,
                         AddressIndex := owner.AddressIndex })) := by
  have hstatus : wrapInt32 (if blockHeight = -1 then storeTxStatusAppearedInMempoolIncoming
      else storeTxStatusAppearedInBlockIncoming) = if blockHeight = -1 then 1 else 2 := by
    split <;> decide
  have hmain : CreateSpendableOutputs fl usersData tx blockHeight
      = tx.Vout.filterMap (fun output =>
          match output.ScriptPubKey.Addresses.head? with
          | none => none
          | some address =>
            match usersData address with
            | none => none
            | some owner =>
              some { TxID := tx.Txid,
                     TxOutID := wrapInt32 output.N,
                     TxOutAmount := fl.toInt64 (fl.mul output.Value fl.SatoshiToBitcoin),
                     TxOutScript := output.ScriptPubKey.Hex,
                     Address := address,
                     UserID := owner.UserID,
                     TxStatus := if blockHeight = -1 then 1 else 2,
                     WalletIndex := wrapInt32 owner.WalletIndex,
                     AddressIndex := wrapInt32 owner.AddressIndex }) := by
    unfold CreateSpendableOutputs
    rw [← List.nil_append (List.filterMap _ tx.Vout), ← foldl_append_filterMap]
    congr 1
    funext sent output
    cases ha : output.ScriptPubKey.Addresses with
    | nil => simp
    | cons address rest =>
      cases hu : usersData address with
      | none => simp [hu]
      | some owner => simp [hu, spOutToGenerated, hstatus]
  refine ⟨hmain, ?_⟩
  intro hN hidx
  rw [hmain]
  apply List.filterMap_congr
  intro output hout
  cases ha : output.ScriptPubKey.Addresses.head? with
  | none => rfl
  | some address =>
    cases hu : usersData address with
    | none => simp only [hu]
    | some owner =>
      simp only [hu, wrapInt32_of_isInt32 _ (hN output hout),
        wrapInt32_of_isInt32 _ (hidx address owner hu).1,
        wrapInt32_of_isInt32 _ (hidx address owner hu).2]

/-- Witness for C12: the transaction paying 0.5 BTC to the tracked address `A`, in a
block: one create record with status 2. -/
theorem createSpendableOutputs_records_witness :
    CreateSpendableOutputs exactOps usersOfA trackedOutputTx 100
      = trackedOutputTx.Vout.filterMap (fun output =>
          match output.ScriptPubKey.Addresses.head? with
          | none => none
          | some address =>
            match usersOfA address with
            | none => none
            | some owner =>
              some { TxID := trackedOutputTx.Txid,
                     TxOutID := output.N,
                     TxOutAmount :=
                       exactOps.toInt64 (exactOps.mul output.Value exactOps.SatoshiToBitcoin),
                     TxOutScript := output.ScriptPubKey.Hex,
                     Address := address,
                     UserID := owner.UserID,
                     TxStatus := if (100 : Int) = -1 then 1 else 2,
                     WalletIndex := owner.WalletIndex,
                     AddressIndex := owner.AddressIndex })
    ∧ CreateSpendableOutputs exactOps usersOfA trackedOutputTx 100
      = [{ TxID := "t7", TxOutID := 0, TxOutAmount := 50000000, TxOutScript := "sa",
           Address := "A", UserID := "U", TxStatus := 2, WalletIndex := 0,
           AddressIndex := 0 }] :=
  ⟨(createSpendableOutputs_records exactOps usersOfA trackedOutputTx 100).2
      (by decide)
      (by
        intro address owner h
        unfold usersOfA at h
        split at h
        · simp only [Option.some.injEq] at h
          subst h
          decide
        · exact absurd h (by simp)),
    by decide!⟩

theorem deleteSpendableOutputs_eq {F : Type} (rpc : String → Option (TxRawResult F))
    (usersData : String → Option AddressExtended) (vin : List Vin)
    (hrange : ∀ input ∈ vin, ∀ prev, rpc input.Txid = some prev →
      input.Vout < prev.Vout.length) :
    DeleteSpendableOutputs rpc usersData vin
      = (vin.filterMap (fun input =>
          match rpc input.Txid with
          | none => none
          | some previousTx =>
            match previousTx.Vout[input.Vout]? with
            | none => none
            | some prevOut =>
              match prevOut.ScriptPubKey.Addresses.head? with
              | none => none
              | some address =>
                match usersData address with
                | none => none
                | some owner =>
                  some { UserID := owner.UserID, TxID := previousTx.Txid,
                         Address := address }), true) := by
  induction vin with
  | nil => rfl
  | cons input vin ih =>
    have ih' := ih (fun i hi => hrange i (List.mem_cons_of_mem _ hi))
    cases hr : rpc input.Txid with
    | none => simp only [DeleteSpendableOutputs, List.filterMap_cons, hr, ih']
    | some prev =>
      cases hp : prev.Vout[input.Vout]? with
      | none =>
        have := hrange input (by simp) prev hr
        rw [List.getElem?_eq_none_iff] at hp
        omega
      | some prevOut =>
        cases ha : prevOut.ScriptPubKey.Addresses with
        | nil =>
          simp only [DeleteSpendableOutputs, List.filterMap_cons, hr, hp, ha, ih',
            List.head?_nil]
        | cons address rest =>
          cases hu : usersData address with
          | none =>
            simp only [DeleteSpendableOutputs, List.filterMap_cons, hr, hp, ha, ih',
              List.head?_cons, hu]
          | some owner =>
            simp only [DeleteSpendableOutputs, List.filterMap_cons, hr, hp, ha, ih',
              List.head?_cons, hu, delSpOutToGenerated]

theorem untrackedRpc_cases (txid : String) (prev : TxRawResult ℚ)
    (h : untrackedRpc txid = some prev) :
    (txid = "p1" ∧ prev = untrackedPrev1) ∨ (txid = "p2" ∧ prev = untrackedPrev2) := by
  unfold untrackedRpc at h
  split at h
  · left
    exact ⟨by assumption, (Option.some.inj h).symm⟩
  · split at h
    · right
      exact ⟨by assumption, (Option.some.inj h).symm⟩
    · exact absurd h (by simp)

/-- C13: when every resolved input refers to an existing previous output,
`DeleteSpendableOutputs` runs to its end and sends, in input order, one delete record for
every input whose previous transaction resolves and whose previous output has a tracked
first address, and none for the other inputs (unresolved inputs are skipped); the record
carries the owner's `user_id`, the previous transaction's txid and that first address. -/
theorem deleteSpendableOutputs_records {F : Type} (rpc : String → Option (TxRawResult F))
    (usersData : String → Option AddressExtended) (vin : List Vin)
    (hrange : ∀ input ∈ vin, ∀ prev, rpc input.Txid = some prev →
      input.Vout < prev.Vout.length) :
    DeleteSpendableOutputs rpc usersData vin
      = (vin.filterMap (fun input =>
          match rpc input.Txid with
          | none => none
          | some previousTx =>
            match previousTx.Vout[input.Vout]? with
            | none => none
            | some prevOut =>
              match prevOut.ScriptPubKey.Addresses.head? with
              | none => none
              | some address =>
                match usersData address with
                | none => none
                | some owner =>
                  some { UserID := owner.UserID, TxID := previousTx.Txid,
                         Address := address }), true) :=
  deleteSpendableOutputs_eq rpc usersData vin hrange

/-- Witness for C13: of three inputs the first does not resolve, the second spends the
tracked address `Q2` and the third an untracked address: one delete record, naming the
previous transaction `p2`. -/
theorem deleteSpendableOutputs_records_witness :
    DeleteSpendableOutputs untrackedRpc usersOfQ2 spendingVin
      = ([{ UserID := "V", TxID := "p2", Address := "Q2" }], true) :=
  (deleteSpendableOutputs_records untrackedRpc usersOfQ2 spendingVin
    (by
      intro input hi prev hp
      rcases untrackedRpc_cases _ prev hp with ⟨ht, rfl⟩ | ⟨ht, rfl⟩
      · simp only [spendingVin, List.mem_cons, List.mem_singleton, List.not_mem_nil,
          or_false] at hi
        rcases hi with rfl | rfl | rfl
        · exact absurd ht (by decide)
        · exact absurd ht (by decide)
        · decide
      · simp only [spendingVin, List.mem_cons, List.mem_singleton, List.not_mem_nil,
          or_false] at hi
        rcases hi with rfl | rfl | rfl
        · exact absurd ht (by decide)
        · decide
        · exact absurd ht (by decide))).trans (by decide!)

theorem resyncDelOut_fold {F : Type} (rpc : String → Option (TxRawResult F))
    (usersData : String → Option AddressExtended) (vin : List Vin)
    (delOuts : List ReqDeleteSpOut) :
    vin.foldlM (resyncDelOut rpc usersData) delOuts
      = if (DeleteSpendableOutputs rpc usersData vin).2 = true then
          some (delOuts ++ (DeleteSpendableOutputs rpc usersData vin).1)
        else none := by
  induction vin generalizing delOuts with
  | nil => simp [DeleteSpendableOutputs]
  | cons input vin ih =>
    rw [List.foldlM_cons]
    cases hr : rpc input.Txid with
    | none =>
      have hstep : resyncDelOut rpc usersData delOuts input = some delOuts := by
        simp only [resyncDelOut, hr]
      simp only [hstep, Option.some_bind, Option.bind_eq_bind, ih, DeleteSpendableOutputs, hr]
    | some prev =>
      cases hp : prev.Vout[input.Vout]? with
      | none =>
        have hstep : resyncDelOut rpc usersData delOuts input = none := by
          simp only [resyncDelOut, hr, hp]
        simp [hstep, DeleteSpendableOutputs, hr, hp]
      | some prevOut =>
        cases ha : prevOut.ScriptPubKey.Addresses with
        | nil =>
          have hstep : resyncDelOut rpc usersData delOuts input = some delOuts := by
            simp only [resyncDelOut, hr, hp, ha]
          simp only [hstep, Option.some_bind, Option.bind_eq_bind, ih,
            DeleteSpendableOutputs, hr, hp, ha]
        | cons address rest =>
          cases hu : usersData address with
          | none =>
            have hstep : resyncDelOut rpc usersData delOuts input = some delOuts := by
              simp only [resyncDelOut, hr, hp, ha, hu]
            simp only [hstep, Option.some_bind, Option.bind_eq_bind, ih,
              DeleteSpendableOutputs, hr, hp, ha, hu]
          | some owner =>
            have hstep : resyncDelOut rpc usersData delOuts input
                = some (delOuts ++ [delSpOutToGenerated
                    { UserID := owner.UserID, TxID := prev.Txid, Address := address }]) := by
              simp only [resyncDelOut, hr, hp, ha, hu]
            simp only [hstep, Option.some_bind, Option.bind_eq_bind, ih,
              DeleteSpendableOutputs, hr, hp, ha, hu, List.append_assoc,
              List.singleton_append]

/-- C14: `ResyncSpendableOutputs` returns exactly when `DeleteSpendableOutputs` runs to
its end on the same inputs, and then the create list it returns is the sequence of
records `CreateSpendableOutputs` sends and the delete list is the sequence
`DeleteSpendableOutputs` sends; the result does not depend on the `address` and `userid`
arguments. -/
theorem resyncSpendableOutputs_collects (fl : Float64Ops)
    (rpc : String → Option (TxRawResult fl.F))
    (usersData : String → Option AddressExtended) (tx : TxRawResult fl.F)
    (blockHeight : Int) (address userid : String) :
    ResyncSpendableOutputs fl rpc usersData tx blockHeight address userid
      = (if (DeleteSpendableOutputs rpc usersData tx.Vin).2 = true then
          some (CreateSpendableOutputs fl usersData tx blockHeight,
                (DeleteSpendableOutputs rpc usersData tx.Vin).1)
         else none)
    ∧ ∀ address' userid' : String,
        ResyncSpendableOutputs fl rpc usersData tx blockHeight address userid
          = ResyncSpendableOutputs fl rpc usersData tx blockHeight address' userid' := by
  refine ⟨?_, fun _ _ => rfl⟩
  unfold ResyncSpendableOutputs
  rw [resyncDelOut_fold]
  have hcreate : resyncSpOuts fl usersData tx blockHeight
      = CreateSpendableOutputs fl usersData tx blockHeight := rfl
  rw [hcreate]
  cases (DeleteSpendableOutputs rpc usersData tx.Vin).2 with
  | false => simp
  | true => simp

/-! ### C15: scenario 4 -/

theorem setTransactionInfo_record {R : Type} (fl : Float64Ops)
    (rpc : String → Option (TxRawResult fl.F)) (multyTx : MultyTx R)
    (txVerbose : TxRawResult fl.F) (blockHeight : Int) (isReSync : Bool)
    (prevs : List (Vout fl.F)) (hres : resolveInputs rpc txVerbose.Vin = some prevs) :
    setTransactionInfo fl rpc multyTx txVerbose blockHeight isReSync
      = some { multyTx with
          MempoolTime :=
            if blockHeight = -1 ∨ isReSync = true then txVerbose.Time
            else multyTx.MempoolTime,
          BlockTime := if blockHeight ≠ -1 then txVerbose.Blocktime else multyTx.BlockTime,
          TxInputs := addressAmounts fl prevs,
          TxOutputs := addressAmounts fl txVerbose.Vout,
          TxFee := fl.toInt64 (fl.mul (fl.sub (valueSum fl prevs)
            (valueSum fl txVerbose.Vout)) fl.SatoshiToBitcoin) } := by
  unfold setTransactionInfo
  rw [setTransactionInfoOutputs_eq, setTransactionInfoInputs_eq, hres]
  cases isReSync <;> by_cases h2 : blockHeight = -1 <;> simp [h2]

/-- Counterexample for C15: the views of scenario 4 do not carry the transaction's own
time 1700000000 as `mempool_time`; they carry the time at which they were classified. -/
theorem scenario4_mempool_time_counterexample :
    ¬ (∀ m' : MultyTx Unit,
        setTransactionInfo exactOps untrackedRpc scenario4Tx scenario4Verbose (-1) false
          = some m' →
        (splitTransaction m' (-1) 100 (fun _ => 1700000700)).length = 2
        ∧ ∀ v ∈ splitTransaction m' (-1) 100 (fun _ => 1700000700),
            v.WalletsInput = [] ∧ v.TxStatus = 1 ∧ v.Confirmations = 0
            ∧ v.MempoolTime = scenario4Verbose.Time) := by
  intro h
  have hrun : (setTransactionInfo exactOps untrackedRpc scenario4Tx scenario4Verbose (-1)
      false).map (fun m => (m.MempoolTime,
        (splitTransaction m (-1) 100 (fun _ => 1700000700)).map (fun v => v.MempoolTime)))
      = some (1700000000, [1700000700, 1700000700]) := by
    decide!
  cases hm : setTransactionInfo exactOps untrackedRpc scenario4Tx scenario4Verbose (-1)
      false with
  | none =>
    rw [hm] at hrun
    simp at hrun
  | some m' =>
    rw [hm] at hrun
    simp only [Option.map_some', Option.some.injEq, Prod.mk.injEq] at hrun
    obtain ⟨_, hall⟩ := h m' hm
    cases hs : splitTransaction m' (-1) 100 (fun _ => 1700000700) with
    | nil =>
      rw [hs] at hrun
      simp at hrun
    | cons v vs =>
      rw [hs] at hrun hall
      have h1 := (hall v (by simp)).2.2.2
      simp only [List.map_cons, List.cons.injEq] at hrun
      rw [hrun.2.1] at h1
      exact absurd h1 (by decide)

/-- C15 (amended): scenario 4.  For a mempool transaction (block height -1, tip from 0
to below the `int64` maximum) with output touches `a` of wallet 0 and `b` of wallet 3 and
no input touch, `setTransactionInfo` sets `mempool_time` to the transaction's own time
and `splitTransaction` then yields exactly two views, one per touch, each with empty
`wallets_input`, `tx_status = 1`, `confirmations = 0`, `block_time = -1` and
`mempool_time` equal to the time read when the view was classified. -/
theorem scenario4_views {R : Type} (fl : Float64Ops)
    (rpc : String → Option (TxRawResult fl.F)) (multyTx : MultyTx R)
    (txVerbose : TxRawResult fl.F) (isReSync : Bool) (tip : Int) (clock : Nat → Int)
    (a b : WalletForTx) (prevs : List (Vout fl.F))
    (hres : resolveInputs rpc txVerbose.Vin = some prevs)
    (htip : 0 ≤ tip ∧ tip < 9223372036854775807)
    (hin : multyTx.WalletsInput = []) (hout : multyTx.WalletsOutput = [a, b])
    (ha : a.WalletIndex = 0) (hb : b.WalletIndex = 3) :
    ∃ m' v1 v2,
      setTransactionInfo fl rpc multyTx txVerbose (-1) isReSync = some m'
      ∧ m'.MempoolTime = txVerbose.Time
      ∧ splitTransaction m' (-1) tip clock = [v1, v2]
      ∧ (v1.WalletsInput = [] ∧ v1.WalletsOutput = [a] ∧ v1.TxStatus = 1
          ∧ v1.Confirmations = 0 ∧ v1.BlockTime = -1 ∧ v1.MempoolTime = clock 0)
      ∧ (v2.WalletsInput = [] ∧ v2.WalletsOutput = [b] ∧ v2.TxStatus = 1
          ∧ v2.Confirmations = 0 ∧ v2.BlockTime = -1 ∧ v2.MempoolTime = clock 1) := by
  have hset := setTransactionInfo_record fl rpc multyTx txVerbose (-1) isReSync prevs hres
  have hkey : walletKey b ∉ [walletKey a] := by
    simp [walletKey, ha, hb]
  have hdiff : wrapInt64 (tip - -1) = tip + 1 := by
    unfold wrapInt64
    omega
  have hgt : tip + 1 > tip := by omega
  obtain ⟨m', hm'⟩ : ∃ m', setTransactionInfo fl rpc multyTx txVerbose (-1) isReSync
      = some m' ∧ m'.MempoolTime = txVerbose.Time ∧ m'.WalletsInput = []
        ∧ m'.WalletsOutput = [a, b] :=
    ⟨_, hset, by simp, hin, hout⟩
  refine ⟨m', incomingView m' (tip + 1) tip (clock 0) a,
    incomingView m' (tip + 1) tip (clock 1) b, hm'.1, hm'.2.1, ?_, ?_, ?_⟩
  · rw [splitTransaction_eq]
    simp only [hm'.2.2.1, hm'.2.2.2, List.length_nil, gt_iff_lt, lt_self_iff_false, if_false,
      List.nil_append, freshTouches, List.not_mem_nil, hkey, incomingViews, hdiff]
  · simp [incomingView, setTransactionStatus, hgt, TxStatusAppearedInMempoolIncoming]
  · simp [incomingView, setTransactionStatus, hgt, TxStatusAppearedInMempoolIncoming]

/-- Witness for C15 (amended): scenario 4 on the concrete transaction, classified at
time 1700000700. -/
theorem scenario4_views_witness :
    ∃ m' v1 v2,
      setTransactionInfo exactOps untrackedRpc scenario4Tx scenario4Verbose (-1) false
        = some m'
      ∧ m'.MempoolTime = 1700000000
      ∧ splitTransaction m' (-1) 100 (fun _ => 1700000700) = [v1, v2]
      ∧ (v1.TxStatus = 1 ∧ v1.Confirmations = 0 ∧ v1.MempoolTime = 1700000700)
      ∧ (v2.TxStatus = 1 ∧ v2.Confirmations = 0 ∧ v2.MempoolTime = 1700000700) := by
  obtain ⟨m', v1, v2, h1, h2, h3, h4, h5⟩ :=
    scenario4_views exactOps untrackedRpc scenario4Tx scenario4Verbose false 100
      (fun _ => 1700000700) (exampleTouch "U" 0 "A" 20000000 0)
      (exampleTouch "V" 3 "B" 30000000 1)
      [{ Value := (1 : ℚ), N := 0, ScriptPubKey := { Hex := "r0", Addresses := ["Q"] } }]
      (show resolveInputs (F := ℚ) untrackedRpc scenario4Verbose.Vin
          = some [{ Value := (1 : ℚ), N := 0,
                    ScriptPubKey := { Hex := "r0", Addresses := ["Q"] } }] by decide!) (by decide) rfl rfl rfl rfl
  exact ⟨m', v1, v2, h1, h2, h3, ⟨h4.2.2.1, h4.2.2.2.1, h4.2.2.2.2.2⟩,
    ⟨h5.2.2.1, h5.2.2.2.1, h5.2.2.2.2.2⟩⟩

/-! ### C16 and C17: the dispatch override and the user id -/

theorem length_pos_iff_ne_nil {α : Type} (l : List α) : l.length > 0 ↔ l ≠ [] := by
  cases l <;> simp

theorem saveMultyTransaction_eq {R : Type} (tx : MultyTx R) (resync : Bool) :
    saveMultyTransaction tx resync
      = if tx.WalletsInput ≠ [] then
          (if tx.WalletsOutput ≠ [] then
            (overrideAmount tx).map (fun amount =>
              [storeTxToGenerated
                { tx with TxOutAmount := amount,
                          UserID := fetchUserID tx.WalletsInput tx.UserID }])
           else
            some [storeTxToGenerated
                { tx with UserID := fetchUserID tx.WalletsInput tx.UserID }])
        else if tx.WalletsOutput ≠ [] then
          some [{ storeTxToGenerated
                    { tx with UserID := fetchUserID tx.WalletsOutput tx.UserID } with
                  Resync := resync }]
        else some [] := by
  unfold saveMultyTransaction
  simp only [length_pos_iff_ne_nil]
  by_cases hin : tx.WalletsInput = [] <;> by_cases hout : tx.WalletsOutput = []
  · simp [hin, hout]
  · simp [hin, hout]
  · simp [hin, hout]
  · simp only [hin, hout, ne_eq, not_false_eq_true, and_self, if_true]
    cases overrideAmount tx with
    | none => rfl
    | some amount => rfl

theorem amountAt_fold_simple (first : String) (entries : List AddressAmount) (acc : Int) :
    entries.foldlM
        (fun (amount : Int) (e : AddressAmount) =>
          some (if e.Address = first then wrapInt64 (amount + e.Amount) else amount))
        acc
      = some (if entries.filter (fun e => e.Address = first) = [] then acc
              else wrapInt64 (acc
                + ((entries.filter (fun e => e.Address = first)).map (fun e => e.Amount)).sum)) := by
  induction entries generalizing acc with
  | nil => simp
  | cons e entries ih =>
    rw [List.foldlM_cons]
    simp only [Option.some_bind, Option.bind_eq_bind]
    rw [ih]
    by_cases he : e.Address = first
    · by_cases hrest : entries.filter (fun e => e.Address = first) = []
      · simp [he, hrest]
      · simp [he, hrest, wrapInt64_add_left, add_assoc]
    · simp [he]

theorem overrideAmount_eq {R : Type} (tx : MultyTx R) (first : String) (rest : List String)
    (h : tx.TxAddress = first :: rest) :
    overrideAmount tx
      = some (if wrapInt64 ((tx.TxInputs.filter (fun e => e.Address = first)).map
                  (fun e => e.Amount)).sum ≠ 0 then
                wrapInt64 ((tx.TxInputs.filter (fun e => e.Address = first)).map
                  (fun e => e.Amount)).sum
              else
                wrapInt64 ((tx.TxOutputs.filter (fun e => e.Address = first)).map
                  (fun e => e.Amount)).sum) := by
  have h0 : tx.TxAddress[0]? = some first := by simp [h]
  have hw0 : wrapInt64 0 = 0 := by decide
  have hsum : ∀ entries : List AddressAmount,
      (if entries.filter (fun e => e.Address = first) = [] then (0 : Int)
        else wrapInt64 (0
          + ((entries.filter (fun e => e.Address = first)).map (fun e => e.Amount)).sum))
      = wrapInt64 ((entries.filter (fun e => e.Address = first)).map
          (fun e => e.Amount)).sum := by
    intro entries
    by_cases he : entries.filter (fun e => e.Address = first) = []
    · simp [he, hw0]
    · simp [he]
  have hI := amountAt_fold_simple first tx.TxInputs 0
  have hO := amountAt_fold_simple first tx.TxOutputs 0
  rw [hsum] at hI hO
  have hlen : tx.TxAddress.length ≠ 0 := by simp [h]
  unfold overrideAmount
  simp only [hlen, ne_eq, not_false_eq_true, if_true, h0, hI]
  by_cases hz : wrapInt64 ((tx.TxInputs.filter (fun e => e.Address = first)).map
      (fun e => e.Amount)).sum = 0
  · simp only [hz, if_true, ne_eq, not_true_eq_false, if_false, hO]
  · simp only [hz, if_false, ne_eq, not_false_eq_true, if_true]

/-- C16: for a view with non-empty `wallets_input`, `wallets_output` and `tx_address`,
`saveMultyTransaction` sends one message whose `tx_out_amount` is the (`int64`) sum of
the amounts of the `tx_inputs` entries at `tx_address[0]` when that sum is not zero, and
otherwise the (`int64`) sum of the amounts of the `tx_outputs` entries at
`tx_address[0]`; for a view with non-empty `wallets_input` and empty `wallets_output`
the message carries the view's `tx_out_amount` unchanged. -/
theorem saveMultyTransaction_override {R : Type} (tx : MultyTx R) (resync : Bool) :
    (∀ (first : String) (rest : List String),
      tx.WalletsInput ≠ [] → tx.WalletsOutput ≠ [] → tx.TxAddress = first :: rest →
      ∃ e, saveMultyTransaction tx resync = some [e]
        ∧ e.TxOutAmount
            = (if wrapInt64 ((tx.TxInputs.filter (fun e => e.Address = first)).map
                    (fun e => e.Amount)).sum ≠ 0 then
                wrapInt64 ((tx.TxInputs.filter (fun e => e.Address = first)).map
                    (fun e => e.Amount)).sum
               else
                wrapInt64 ((tx.TxOutputs.filter (fun e => e.Address = first)).map
                    (fun e => e.Amount)).sum)
        ∧ (isInt64 ((tx.TxInputs.filter (fun e => e.Address = first)).map
                    (fun e => e.Amount)).sum →
           isInt64 ((tx.TxOutputs.filter (fun e => e.Address = first)).map
                    (fun e => e.Amount)).sum →
           e.TxOutAmount
            = (if ((tx.TxInputs.filter (fun e => e.Address = first)).map
                    (fun e => e.Amount)).sum ≠ 0 then
                ((tx.TxInputs.filter (fun e => e.Address = first)).map
                    (fun e => e.Amount)).sum
               else
                ((tx.TxOutputs.filter (fun e => e.Address = first)).map
                    (fun e => e.Amount)).sum)))
    ∧ (tx.WalletsInput ≠ [] → tx.WalletsOutput = [] →
        ∃ e, saveMultyTransaction tx resync = some [e] ∧ e.TxOutAmount = tx.TxOutAmount) := by
  constructor
  · intro first rest hin hout haddr
    rw [saveMultyTransaction_eq]
    simp only [hin, hout, ne_eq, not_false_eq_true, if_true,
      overrideAmount_eq tx first rest haddr, Option.map_some']
    refine ⟨_, rfl, rfl, ?_⟩
    intro hI hO
    show (if _ then _ else _) = _
    rw [wrapInt64_of_isInt64 _ hI, wrapInt64_of_isInt64 _ hO]
  · intro hin hout
    rw [saveMultyTransaction_eq]
    simp only [hin, hout, ne_eq, not_false_eq_true, not_true_eq_false, if_true, if_false]
    exact ⟨_, rfl, rfl⟩

/-- Witness for C16: the finalized outgoing view of scenario 3 (`tx_out_amount`
71_000_000, `tx_address = [A]`) is sent with `tx_out_amount` 100_000_000, the amount of
the `tx_inputs` entry at `A`. -/
theorem saveMultyTransaction_override_witness :
    ∃ e, saveMultyTransaction scenario3Finalized false = some [e]
      ∧ e.TxOutAmount = 100000000 := by
  obtain ⟨e, h1, _, h3⟩ :=
    (saveMultyTransaction_override scenario3Finalized false).1 "A" [] (by decide)
      (by decide) rfl
  exact ⟨e, h1, (h3 (by decide) (by decide)).trans (by decide)⟩

theorem fetchUserID_spec (l : List WalletForTx) (u : String) :
    (∃ pre w post, l = pre ++ w :: post ∧ (∀ x ∈ pre, x.UserID = "") ∧ w.UserID ≠ ""
        ∧ fetchUserID l u = w.UserID)
    ∨ ((∀ x ∈ l, x.UserID = "") ∧ fetchUserID l u = u) := by
  induction l with
  | nil => exact Or.inr ⟨by simp, rfl⟩
  | cons a l ih =>
    by_cases ha : a.UserID = ""
    · have hstep : fetchUserID (a :: l) u = fetchUserID l u := by
        simp [fetchUserID, List.find?_cons, ha]
      rcases ih with ⟨pre, w, post, hl, hpre, hw, hf⟩ | ⟨hall, hf⟩
      · refine Or.inl ⟨a :: pre, w, post, by simp [hl], ?_, hw, by rw [hstep, hf]⟩
        intro x hx
        rcases List.mem_cons.1 hx with rfl | hx
        · exact ha
        · exact hpre x hx
      · refine Or.inr ⟨?_, by rw [hstep, hf]⟩
        intro x hx
        rcases List.mem_cons.1 hx with rfl | hx
        · exact ha
        · exact hall x hx
    · refine Or.inl ⟨[], a, l, rfl, by simp, ha, ?_⟩
      simp [fetchUserID, List.find?_cons, ha]

/-- C17: every message `saveMultyTransaction` sends carries as `user_id` the first
non-empty `user_id` of the input touches when `wallets_input` is non-empty, and otherwise
of the output touches; when none of these touches has a non-empty `user_id` it carries
the view's own `user_id`.  A message is sent whenever the view has a touch and, if it has
touches on both sides, a non-empty `tx_address`. -/
theorem saveMultyTransaction_userID {R : Type} (tx : MultyTx R) (resync : Bool) :
    (∀ (sent : List BTCTransaction) (e : BTCTransaction),
      saveMultyTransaction tx resync = some sent → e ∈ sent →
      (∃ pre w post,
          (if tx.WalletsInput ≠ [] then tx.WalletsInput else tx.WalletsOutput)
            = pre ++ w :: post
          ∧ (∀ x ∈ pre, x.UserID = "") ∧ w.UserID ≠ "" ∧ e.UserID = w.UserID)
      ∨ ((∀ x ∈ (if tx.WalletsInput ≠ [] then tx.WalletsInput else tx.WalletsOutput),
            x.UserID = "")
          ∧ e.UserID = tx.UserID))
    ∧ ((tx.WalletsInput ≠ [] ∨ tx.WalletsOutput ≠ []) →
        (tx.WalletsInput = [] ∨ tx.WalletsOutput = [] ∨ tx.TxAddress ≠ []) →
        ∃ e, saveMultyTransaction tx resync = some [e]) := by
  constructor
  · intro sent e hsent he
    rw [saveMultyTransaction_eq] at hsent
    by_cases hin : tx.WalletsInput = []
    · by_cases hout : tx.WalletsOutput = []
      · simp only [hin, hout, ne_eq, not_true_eq_false, if_false, Option.some.injEq] at hsent
        subst hsent
        simp at he
      · simp only [hin, hout, ne_eq, not_true_eq_false, not_false_eq_true, if_false, if_true,
          Option.some.injEq] at hsent
        subst hsent
        simp only [List.mem_singleton] at he
        subst he
        simp only [hin, ne_eq, not_true_eq_false, if_false]
        exact fetchUserID_spec tx.WalletsOutput tx.UserID
    · simp only [hin, ne_eq, not_false_eq_true, if_true]
      have hspec := fetchUserID_spec tx.WalletsInput tx.UserID
      by_cases hout : tx.WalletsOutput = []
      · simp only [hin, hout, ne_eq, not_true_eq_false, not_false_eq_true, if_false, if_true,
          Option.some.injEq] at hsent
        subst hsent
        simp only [List.mem_singleton] at he
        subst he
        exact hspec
      · simp only [hin, hout, ne_eq, not_false_eq_true, if_true] at hsent
        cases hamt : overrideAmount tx with
        | none => simp [hamt] at hsent
        | some amount =>
          simp only [hamt, Option.map_some', Option.some.injEq] at hsent
          subst hsent
          simp only [List.mem_singleton] at he
          subst he
          exact hspec
  · intro htouch hsafe
    rw [saveMultyTransaction_eq]
    by_cases hin : tx.WalletsInput = []
    · have hout : tx.WalletsOutput ≠ [] := by
        rcases htouch with h | h
        · exact absurd hin h
        · exact h
      simp only [hin, hout, ne_eq, not_true_eq_false, not_false_eq_true, if_false, if_true]
      exact ⟨_, rfl⟩
    · by_cases hout : tx.WalletsOutput = []
      · simp only [hin, hout, ne_eq, not_true_eq_false, not_false_eq_true, if_false, if_true]
        exact ⟨_, rfl⟩
      · have haddr : tx.TxAddress ≠ [] := by
          rcases hsafe with h | h | h
          · exact absurd h hin
          · exact absurd h hout
          · exact h
        obtain ⟨first, rest, hfr⟩ : ∃ first rest, tx.TxAddress = first :: rest := by
          cases hta : tx.TxAddress with
          | nil => exact absurd hta haddr
          | cons first rest => exact ⟨first, rest, rfl⟩
        simp only [hin, hout, ne_eq, not_false_eq_true, if_true,
          overrideAmount_eq tx first rest hfr, Option.map_some']
        exact ⟨_, rfl⟩

/-- Witness for C17: the message sent for the finalized outgoing view of scenario 3
carries the `user_id` of its first input touch, `U`. -/
theorem saveMultyTransaction_userID_witness :
    (∃ e, saveMultyTransaction scenario3Finalized false = some [e])
    ∧ ((∃ pre w post,
          (if scenario3Finalized.WalletsInput ≠ [] then scenario3Finalized.WalletsInput
            else scenario3Finalized.WalletsOutput) = pre ++ w :: post
          ∧ (∀ x ∈ pre, x.UserID = "") ∧ w.UserID ≠ ""
          ∧ (storeTxToGenerated
              { scenario3Finalized with TxOutAmount := 100000000, UserID := "U" }).UserID
              = w.UserID)
      ∨ ((∀ x ∈ (if scenario3Finalized.WalletsInput ≠ [] then scenario3Finalized.WalletsInput
            else scenario3Finalized.WalletsOutput), x.UserID = "")
          ∧ (storeTxToGenerated
              { scenario3Finalized with TxOutAmount := 100000000, UserID := "U" }).UserID
              = scenario3Finalized.UserID)) :=
  ⟨(saveMultyTransaction_userID scenario3Finalized false).2 (Or.inl (by decide))
      (Or.inr (Or.inr (by decide))),
    (saveMultyTransaction_userID scenario3Finalized false).1
      [storeTxToGenerated { scenario3Finalized with TxOutAmount := 100000000, UserID := "U" }]
      (storeTxToGenerated { scenario3Finalized with TxOutAmount := 100000000, UserID := "U" })
      (by decide) (List.mem_singleton.2 rfl)⟩

/-! ### C18: the fields the splitter copies -/

theorem setTransactionStatus_frame {R : Type} (tx : MultyTx R) (d tip : Int) (f : Bool)
    (now : Int) :
    setTransactionStatus tx d tip f now
      = { tx with
          TxStatus := (setTransactionStatus tx d tip f now).TxStatus,
          Confirmations := (setTransactionStatus tx d tip f now).Confirmations,
          BlockTime := (setTransactionStatus tx d tip f now).BlockTime,
          MempoolTime := (setTransactionStatus tx d tip f now).MempoolTime } := by
  unfold setTransactionStatus
  split_ifs <;> rfl

theorem mem_incomingViews_eq {R : Type} (m : MultyTx R) (d tip : Int) (clock : Nat → Int)
    (k : Nat) (ws : List WalletForTx) (v : MultyTx R)
    (hv : v ∈ incomingViews m d tip clock k ws) :
    ∃ j w, w ∈ ws ∧ v = incomingView m d tip (clock j) w := by
  induction ws generalizing k with
  | nil => simp [incomingViews] at hv
  | cons w ws ih =>
    simp only [incomingViews, List.mem_cons] at hv
    rcases hv with rfl | hv
    · exact ⟨k, w, by simp, rfl⟩
    · obtain ⟨j, w', hw', h⟩ := ih (k + 1) hv
      exact ⟨j, w', List.mem_cons_of_mem _ hw', h⟩

theorem mem_splitTransaction {R : Type} (m : MultyTx R) (blockHeight tip : Int)
    (clock : Nat → Int) (v : MultyTx R) (hv : v ∈ splitTransaction m blockHeight tip clock) :
    ∃ (base : MultyTx R) (f : Bool) (now : Int),
      v = setTransactionStatus base (wrapInt64 (tip - blockHeight)) tip f now
      ∧ base.UserID = "" ∧ base.TxID = m.TxID ∧ base.TxHash = m.TxHash
      ∧ base.TxOutScript = m.TxOutScript ∧ base.TxAddress = m.TxAddress
      ∧ base.TxOutAmount = m.TxOutAmount ∧ base.BlockHeight = m.BlockHeight
      ∧ base.TxFee = m.TxFee ∧ base.StockExchangeRate = m.StockExchangeRate
      ∧ base.TxInputs = m.TxInputs ∧ base.TxOutputs = m.TxOutputs
      ∧ base.TxStatus = m.TxStatus ∧ base.Confirmations = 0
      ∧ base.BlockTime = m.BlockTime ∧ base.MempoolTime = m.MempoolTime := by
  rw [splitTransaction_eq] at hv
  rcases List.mem_append.1 hv with h | h
  · split at h
    · rw [List.mem_singleton] at h
      refine ⟨outgoingEntity m, true, clock 0, h, ?_⟩
      rw [outgoingEntity_eq]
      simp [newEntity]
    · simp at h
  · obtain ⟨j, w, _, hvw⟩ := mem_incomingViews_eq _ _ _ _ _ _ v h
    refine ⟨{ newEntity m with WalletsInput := [], WalletsOutput := [w] }, false, clock j,
      hvw, ?_⟩
    simp [newEntity]

/-- C18: every view `splitTransaction` returns has the `tx_id`, `tx_hash`,
`tx_out_script`, `tx_address`, `tx_out_amount`, `block_height`, `tx_fee`, `tx_inputs`,
`tx_outputs` and exchange rates of the input, but not its `user_id`: `newEntity` does not
copy `UserID`, so every view has the empty `user_id`. -/
theorem splitTransaction_frame {R : Type} (multyTx : MultyTx R) (blockHeight tip : Int)
    (clock : Nat → Int) (v : MultyTx R)
    (hv : v ∈ splitTransaction multyTx blockHeight tip clock) :
    v.TxID = multyTx.TxID ∧ v.TxHash = multyTx.TxHash
    ∧ v.TxOutScript = multyTx.TxOutScript ∧ v.TxAddress = multyTx.TxAddress
    ∧ v.TxOutAmount = multyTx.TxOutAmount ∧ v.BlockHeight = multyTx.BlockHeight
    ∧ v.TxFee = multyTx.TxFee ∧ v.TxInputs = multyTx.TxInputs
    ∧ v.TxOutputs = multyTx.TxOutputs
    ∧ v.StockExchangeRate = multyTx.StockExchangeRate
    ∧ v.UserID = "" := by
  obtain ⟨base, f, now, hvb, h1, h2, h3, h4, h5, h6, h7, h8, h9, h10, h11, _⟩ :=
    mem_splitTransaction multyTx blockHeight tip clock v hv
  rw [hvb, setTransactionStatus_frame]
  exact ⟨h2, h3, h4, h5, h6, h7, h8, h10, h11, h9, h1⟩

/-- Witness for C18: the transaction with `user_id = U` is split into one view whose
`user_id` is empty. -/
theorem splitTransaction_frame_witness :
    ∃ v, splitTransaction resyncUserTx 100 100 (fun _ => 1700000700) = [v]
      ∧ resyncUserTx.UserID = "U" ∧ v.UserID = "" ∧ v.TxID = resyncUserTx.TxID := by
  obtain ⟨v, hv⟩ : ∃ v, splitTransaction resyncUserTx 100 100 (fun _ => 1700000700) = [v] :=
    ⟨_, splitTransaction_single_output resyncUserTx 100 100 _ _ rfl rfl⟩
  have h := splitTransaction_frame resyncUserTx 100 100 (fun _ => 1700000700) v
    (by rw [hv]; exact List.mem_singleton.2 rfl)
  exact ⟨v, hv, rfl, h.2.2.2.2.2.2.2.2.2.2, h.1⟩

/-! ### C20: the incoming views -/

theorem freshTouches_first (seen : List WalletKey) (ws : List WalletForTx) (w : WalletForTx)
    (hw : w ∈ freshTouches seen ws) :
    ∃ pre post, ws = pre ++ w :: post ∧ ∀ x ∈ pre, walletKey x ≠ walletKey w := by
  induction ws generalizing seen with
  | nil => simp [freshTouches] at hw
  | cons a ws ih =>
    unfold freshTouches at hw
    split_ifs at hw with h
    · obtain ⟨pre, post, hws, hpre⟩ := ih seen hw
      refine ⟨a :: pre, post, by simp [hws], ?_⟩
      intro x hx
      rcases List.mem_cons.1 hx with rfl | hx
      · intro hc
        exact (mem_freshTouches seen ws w hw).2 (hc ▸ h)
      · exact hpre x hx
    · rcases List.mem_cons.1 hw with rfl | hw
      · exact ⟨[], ws, rfl, by simp⟩
      · obtain ⟨pre, post, hws, hpre⟩ := ih _ hw
        refine ⟨a :: pre, post, by simp [hws], ?_⟩
        intro x hx
        rcases List.mem_cons.1 hx with rfl | hx
        · intro hc
          exact (mem_freshTouches _ ws w hw).2 (by simp [hc])
        · exact hpre x hx

theorem freshTouches_length_le (seen : List WalletKey) (ws : List WalletForTx) :
    (freshTouches seen ws).length ≤ ws.length := by
  induction ws generalizing seen with
  | nil => simp [freshTouches]
  | cons a ws ih =>
    unfold freshTouches
    split_ifs
    · exact Nat.le_succ_of_le (ih seen)
    · simp only [List.length_cons]
      exact Nat.succ_le_succ (ih _)

theorem incomingViews_outputs {R : Type} (m : MultyTx R) (d tip : Int) (clock : Nat → Int)
    (k : Nat) (ws : List WalletForTx) :
    (incomingViews m d tip clock k ws).flatMap (fun v => v.WalletsOutput) = ws := by
  induction ws generalizing k with
  | nil => rfl
  | cons w ws ih =>
    simp [incomingViews, ih, incomingView_wallets]

theorem filter_key_length_le_one (l : List WalletForTx) (k : WalletKey)
    (h : (l.map walletKey).Nodup) :
    (l.filter (fun w => walletKey w = k)).length ≤ 1 := by
  induction l with
  | nil => simp
  | cons a l ih =>
    rw [List.map_cons, List.nodup_cons] at h
    by_cases ha : walletKey a = k
    · have hnone : l.filter (fun w => walletKey w = k) = [] := by
        rw [List.filter_eq_nil_iff]
        intro w hw hk
        simp only [decide_eq_true_eq] at hk
        exact h.1 (List.mem_map.2 ⟨w, hw, hk.trans ha.symm⟩)
      simp [List.filter_cons, ha, hnone]
    · simp only [List.filter_cons, ha, decide_False, Bool.false_eq_true, if_false]
      exact ih h.2

/-- C20: every view of `splitTransaction` without input touches has exactly one output
touch, the first touch of `wallets_output` that carries its wallet; of the output
touches of a wallet that is on no input touch at most one appears in the views in all
(the later touches of the wallet are in no view); and there are at most 1 + the number
of output touches views. -/
theorem splitTransaction_incoming_views {R : Type} (multyTx : MultyTx R)
    (blockHeight tip : Int) (clock : Nat → Int) :
    (∀ v ∈ splitTransaction multyTx blockHeight tip clock, v.WalletsInput = [] →
      ∃ pre w post, multyTx.WalletsOutput = pre ++ w :: post
        ∧ (∀ x ∈ pre, walletKey x ≠ walletKey w) ∧ v.WalletsOutput = [w])
    ∧ (∀ k : WalletKey, k ∉ multyTx.WalletsInput.map walletKey →
        (((splitTransaction multyTx blockHeight tip clock).flatMap
            (fun v => v.WalletsOutput)).filter (fun w => walletKey w = k)).length ≤ 1)
    ∧ (splitTransaction multyTx blockHeight tip clock).length
        ≤ 1 + multyTx.WalletsOutput.length := by
  have hsplit := splitTransaction_eq multyTx blockHeight tip clock
  refine ⟨?_, ?_, ?_⟩
  · intro v hv hempty
    rw [hsplit] at hv
    rcases List.mem_append.1 hv with h | h
    · split at h
      · rename_i hlen
        rw [List.mem_singleton] at h
        have : v.WalletsInput = multyTx.WalletsInput := by
          rw [h, (setTransactionStatus_wallets _ _ _ _ _).1, outgoingEntity_eq]
          simp [newEntity]
        rw [this] at hempty
        simp [hempty] at hlen
      · simp at h
    · obtain ⟨_, w, hw, hvw⟩ := mem_incomingViews _ _ _ _ _ _ v h
      obtain ⟨pre, post, hws, hpre⟩ := freshTouches_first _ _ w hw
      exact ⟨pre, w, post, hws, hpre, hvw⟩
  · intro k hk
    rw [hsplit, List.flatMap_append, incomingViews_outputs, List.filter_append,
      List.length_append]
    by_cases hlen : multyTx.WalletsInput.length > 0
    · have hout : ([setTransactionStatus (outgoingEntity multyTx)
            (wrapInt64 (tip - blockHeight)) tip true (clock 0)].flatMap
              (fun v => v.WalletsOutput)).filter (fun w => walletKey w = k) = [] := by
        rw [List.filter_eq_nil_iff]
        intro w hw hwk
        simp only [decide_eq_true_eq] at hwk
        simp only [List.flatMap_cons, List.flatMap_nil, List.append_nil,
          (setTransactionStatus_wallets _ _ _ _ _).2, outgoingEntity_eq] at hw
        have hsame := (List.mem_filter.1 hw).2
        rw [isTheSameWallet_iff] at hsame
        exact hk (hwk ▸ hsame)
      simp only [hlen, if_true, hout, List.length_nil, Nat.zero_add]
      exact filter_key_length_le_one _ k (freshTouches_nodup _ _)
    · simp only [hlen, if_false, List.flatMap_nil, List.filter_nil, List.length_nil,
        Nat.zero_add]
      exact filter_key_length_le_one _ k (freshTouches_nodup _ _)
  · rw [hsplit, List.length_append, incomingViews_length]
    have h1 := freshTouches_length_le
      (if multyTx.WalletsInput.length > 0 then
        multyTx.WalletsInput.map walletKey
          ++ (multyTx.WalletsOutput.filter
                (fun w => isTheSameWallet multyTx.WalletsInput w)).map walletKey
       else []) multyTx.WalletsOutput
    have h2 : (if multyTx.WalletsInput.length > 0 then
          [setTransactionStatus (outgoingEntity multyTx) (wrapInt64 (tip - blockHeight)) tip
            true (clock 0)]
         else []).length ≤ 1 := by
      split <;> simp
    omega

/-- Witness for C20: of the output touches `A` of `(U, 0)`, `B` of `(V, 3)` and `C` of
`(U, 0)` the two views carry `A` and `B`; `C` is in no view. -/
theorem splitTransaction_incoming_views_witness :
    (splitTransaction threeOutputsTx (-1) 100 (fun _ => 1700000700)).map
        (fun v => v.WalletsOutput)
      = [[exampleTouch "U" 0 "A" 20000000 0], [exampleTouch "V" 3 "B" 30000000 1]]
    ∧ (((splitTransaction threeOutputsTx (-1) 100 (fun _ => 1700000700)).flatMap
            (fun v => v.WalletsOutput)).filter
          (fun w => walletKey w = { UserID := "U", WalletIndex := 0 })).length ≤ 1 :=
  ⟨by decide,
    (splitTransaction_incoming_views threeOutputsTx (-1) 100 (fun _ => 1700000700)).2.1
      { UserID := "U", WalletIndex := 0 } (by decide)⟩

/-! ### C19: the parser -/

theorem withInputTouches_append {R F : Type} (txVerbose : TxRawResult F) (m : MultyTx R)
    (ts us : List WalletForTx) :
    withInputTouches txVerbose (withInputTouches txVerbose m ts) us
      = withInputTouches txVerbose m (ts ++ us) := by
  unfold withInputTouches
  by_cases h1 : ts = [] <;> by_cases h2 : us = [] <;> simp [h1, h2]

theorem withOutputTouches_append {R F : Type} (txVerbose : TxRawResult F) (m : MultyTx R)
    (ts us : List WalletForTx) :
    withOutputTouches txVerbose (withOutputTouches txVerbose m ts) us
      = withOutputTouches txVerbose m (ts ++ us) := by
  unfold withOutputTouches
  by_cases h1 : ts = [] <;> by_cases h2 : us = [] <;> simp [h1, h2]

theorem parseInputAddress_fold {R : Type} (fl : Float64Ops)
    (usersData : String → Option AddressExtended) (txVerbose : TxRawResult fl.F)
    (input : Vin) (prevOut : Vout fl.F) (addrs : List String) (m : MultyTx R) :
    addrs.foldl (parseInputAddress fl usersData txVerbose input prevOut) m
      = withInputTouches txVerbose m
          (addrs.filterMap (fun address =>
            (usersData address).map (fun owner =>
              { UserID := owner.UserID,
                WalletIndex := owner.WalletIndex,
                Address :=
                  { AddressIndex := owner.AddressIndex,
                    Address := address,
                    Amount := fl.toInt64 (fl.mul fl.SatoshiToBitcoin prevOut.Value),
                    AddressOutIndex := input.Vout } }))) := by
  induction addrs generalizing m with
  | nil => simp [withInputTouches]
  | cons a addrs ih =>
    rw [List.foldl_cons, ih]
    cases hu : usersData a with
    | none =>
      have hstep : parseInputAddress fl usersData txVerbose input prevOut m a = m := by
        simp only [parseInputAddress, hu]
      rw [hstep]
      simp [List.filterMap_cons, hu]
    | some owner =>
      have hstep : parseInputAddress fl usersData txVerbose input prevOut m a
          = withInputTouches txVerbose m
              [{ UserID := owner.UserID,
                 WalletIndex := owner.WalletIndex,
                 Address :=
                   { AddressIndex := owner.AddressIndex,
                     Address := a,
                     Amount := fl.toInt64 (fl.mul fl.SatoshiToBitcoin prevOut.Value),
                     AddressOutIndex := input.Vout } }] := by
        simp only [parseInputAddress, hu, withInputTouches]
        simp
      rw [hstep, withInputTouches_append]
      simp [List.filterMap_cons, hu]

theorem parseOutputAddress_fold {R : Type} (fl : Float64Ops)
    (usersData : String → Option AddressExtended) (txVerbose : TxRawResult fl.F)
    (output : Vout fl.F) (addrs : List String) (m : MultyTx R) :
    addrs.foldl (parseOutputAddress fl usersData txVerbose output) m
      = withOutputTouches txVerbose m
          (addrs.filterMap (fun address =>
            (usersData address).map (fun owner =>
              { UserID := owner.UserID,
                WalletIndex := owner.WalletIndex,
                Address :=
                  { AddressIndex := owner.AddressIndex,
                    Address := address,
                    Amount := fl.toInt64 (fl.mul fl.SatoshiToBitcoin output.Value),
                    AddressOutIndex := output.N } }))) := by
  induction addrs generalizing m with
  | nil => simp [withOutputTouches]
  | cons a addrs ih =>
    rw [List.foldl_cons, ih]
    cases hu : usersData a with
    | none =>
      have hstep : parseOutputAddress fl usersData txVerbose output m a = m := by
        simp only [parseOutputAddress, hu]
      rw [hstep]
      simp [List.filterMap_cons, hu]
    | some owner =>
      have hstep : parseOutputAddress fl usersData txVerbose output m a
          = withOutputTouches txVerbose m
              [{ UserID := owner.UserID,
                 WalletIndex := owner.WalletIndex,
                 Address :=
                   { AddressIndex := owner.AddressIndex,
                     Address := a,
                     Amount := fl.toInt64 (fl.mul fl.SatoshiToBitcoin output.Value),
                     AddressOutIndex := output.N } }] := by
        simp only [parseOutputAddress, hu, withOutputTouches]
        simp
      rw [hstep, withOutputTouches_append]
      simp [List.filterMap_cons, hu]

theorem parseOutputs_eq {R : Type} (fl : Float64Ops)
    (usersData : String → Option AddressExtended) (txVerbose : TxRawResult fl.F)
    (vout : List (Vout fl.F)) (m : MultyTx R) :
    vout.foldl
      (fun (multyTx : MultyTx R) output =>
        output.ScriptPubKey.Addresses.foldl
          (parseOutputAddress fl usersData txVerbose output) multyTx)
      m
      = withOutputTouches txVerbose m
          (vout.flatMap (expectedOutputTouches fl usersData)) := by
  induction vout generalizing m with
  | nil => simp [withOutputTouches]
  | cons o vout ih =>
    rw [List.foldl_cons, ih, parseOutputAddress_fold, withOutputTouches_append]
    simp [expectedOutputTouches]

theorem parseInputs_eq {R : Type} (fl : Float64Ops)
    (rpc : String → Option (TxRawResult fl.F))
    (usersData : String → Option AddressExtended) (txVerbose : TxRawResult fl.F)
    (vin : List Vin) (prevs : List (Vout fl.F)) (m : MultyTx R)
    (hres : resolveInputs rpc vin = some prevs) :
    vin.foldlM (parseInput fl rpc usersData txVerbose) m
      = some (withInputTouches txVerbose m
          ((List.zip vin prevs).flatMap
            (fun p => expectedInputTouches fl usersData p.1 p.2))) := by
  induction vin generalizing m prevs with
  | nil =>
    simp only [resolveInputs, Option.some.injEq] at hres
    subst hres
    simp [withInputTouches]
  | cons input vin ih =>
    rw [List.foldlM_cons]
    cases hr : rpc input.Txid with
    | none => simp [resolveInputs, hr] at hres
    | some prev =>
      cases hp : prev.Vout[input.Vout]? with
      | none => simp [resolveInputs, hr, hp] at hres
      | some prevOut =>
        cases hrest : resolveInputs rpc vin with
        | none => simp [resolveInputs, hr, hp, hrest] at hres
        | some outs =>
          simp only [resolveInputs, hr, hp, hrest, Option.some.injEq] at hres
          subst hres
          have hstep : parseInput fl rpc usersData txVerbose m input
              = some (withInputTouches txVerbose m
                  (expectedInputTouches fl usersData input prevOut)) := by
            simp only [parseInput, hr, hp, parseInputAddress_fold, expectedInputTouches]
          rw [hstep]
          simp only [Option.some_bind, Option.bind_eq_bind]
          rw [ih outs _ hrest, withInputTouches_append]
          simp

/-- C19: for a transaction with a non-empty txid whose inputs all resolve (to `prevs`),
`ParseRawTransaction` returns `(nil, false)` when no address of an output or of a
previous output is in the users map, and otherwise returns `related = true` with a
transaction whose `wallets_input` lists, in input order then address order, one touch
per tracked address of each previous output (with the owner's `user_id`, `wallet_index`
and `address_index` and `address_out_index` = the input's vout), whose `wallets_output`
lists likewise one touch per tracked address of each output (`address_out_index` = the
output's `n`), and whose `tx_id` and `tx_hash` are the transaction's txid and hash. -/
theorem parseRawTransaction_touches (R : Type) (fl : Float64Ops)
    (rpc : String → Option (TxRawResult fl.F))
    (usersData : String → Option AddressExtended) (txVerbose : TxRawResult fl.F)
    (prevs : List (Vout fl.F)) (htxid : txVerbose.Txid ≠ "")
    (hres : resolveInputs rpc txVerbose.Vin = some prevs) :
    (((List.zip txVerbose.Vin prevs).flatMap
          (fun p => expectedInputTouches fl usersData p.1 p.2) = []
        ∧ txVerbose.Vout.flatMap (expectedOutputTouches fl usersData) = []) →
      ParseRawTransaction R fl rpc usersData txVerbose = some (none, false))
    ∧ (¬ ((List.zip txVerbose.Vin prevs).flatMap
          (fun p => expectedInputTouches fl usersData p.1 p.2) = []
        ∧ txVerbose.Vout.flatMap (expectedOutputTouches fl usersData) = []) →
      ParseRawTransaction R fl rpc usersData txVerbose
        = some (some { MultyTx.zero R with
                  TxID := txVerbose.Txid,
                  TxHash := txVerbose.Hash,
                  WalletsInput :=
                    (List.zip txVerbose.Vin prevs).flatMap
                      (fun p => expectedInputTouches fl usersData p.1 p.2),
                  WalletsOutput :=
                    txVerbose.Vout.flatMap (expectedOutputTouches fl usersData) },
                true)) := by
  have hparse : ParseRawTransaction R fl rpc usersData txVerbose
      = (if (withOutputTouches txVerbose
              (withInputTouches txVerbose (MultyTx.zero R)
                ((List.zip txVerbose.Vin prevs).flatMap
                  (fun p => expectedInputTouches fl usersData p.1 p.2)))
              (txVerbose.Vout.flatMap (expectedOutputTouches fl usersData))).TxID ≠ "" then
          some (some (withOutputTouches txVerbose
              (withInputTouches txVerbose (MultyTx.zero R)
                ((List.zip txVerbose.Vin prevs).flatMap
                  (fun p => expectedInputTouches fl usersData p.1 p.2)))
              (txVerbose.Vout.flatMap (expectedOutputTouches fl usersData))), true)
         else some (none, false)) := by
    unfold ParseRawTransaction parseInputs
    rw [parseInputs_eq fl rpc usersData txVerbose txVerbose.Vin prevs _ hres]
    simp only [parseOutputs, parseOutputs_eq]
  rw [hparse]
  constructor
  · rintro ⟨h1, h2⟩
    simp [h1, h2, withInputTouches, withOutputTouches, MultyTx.zero]
  · intro hne
    by_cases h1 : (List.zip txVerbose.Vin prevs).flatMap
        (fun p => expectedInputTouches fl usersData p.1 p.2) = []
    · have h2 : txVerbose.Vout.flatMap (expectedOutputTouches fl usersData) ≠ [] :=
        fun h => hne ⟨h1, h⟩
      simp [h1, h2, withInputTouches, withOutputTouches, MultyTx.zero, htxid]
    · by_cases h2 : txVerbose.Vout.flatMap (expectedOutputTouches fl usersData) = []
      · simp [h1, h2, withInputTouches, withOutputTouches, MultyTx.zero, htxid]
      · simp [h1, h2, withInputTouches, withOutputTouches, MultyTx.zero, htxid]

/-- Witness for C19: `changeRaw` is parsed into the input touch `A` (1 BTC, previous
output 0) and the output touch `B` (0.25 BTC, output 1); the output to `X` gives no
touch. -/
theorem parseRawTransaction_touches_witness :
    ParseRawTransaction Unit exactOps changeRpc usersOfAB changeRaw
      = some (some { MultyTx.zero Unit with
                TxID := "t3", TxHash := "h3",
                WalletsInput := [exampleTouch "U" 0 "A" 100000000 0],
                WalletsOutput :=
                  [{ UserID := "U", WalletIndex := 0,
                     Address := { AddressIndex := 1, Address := "B", Amount := 25000000,
                                  AddressOutIndex := 1 } }] },
              true) :=
  ((parseRawTransaction_touches Unit exactOps changeRpc usersOfAB changeRaw
      [{ Value := (1 : ℚ), N := 0, ScriptPubKey := { Hex := "pa", Addresses := ["A"] } }]
      (by decide)
      (show resolveInputs (F := ℚ) changeRpc changeRaw.Vin
          = some [{ Value := (1 : ℚ), N := 0,
                    ScriptPubKey := { Hex := "pa", Addresses := ["A"] } }] by decide!)).2
    (by decide!)).trans (by decide!)

/-! ### C21: the index of the dispatch override -/

theorem finalizeOutgoingOutputs_fold_some {R F : Type} (txVerbose : TxRawResult F)
    (ws : List WalletForTx) (tx r : MultyTx R)
    (h : ws.foldlM (finalizeOutgoingOutput txVerbose) tx = some r) :
    r.TxStatus = tx.TxStatus ∧ r.TxAddress = tx.TxAddress
      ∧ r.WalletsInput = tx.WalletsInput
      ∧ r.WalletsOutput.length = tx.WalletsOutput.length + ws.length := by
  induction ws generalizing tx with
  | nil =>
    simp only [List.foldlM_nil, Option.pure_def, Option.some.injEq] at h
    subst h
    simp
  | cons w ws ih =>
    rw [List.foldlM_cons] at h
    cases hstep : finalizeOutgoingOutput txVerbose tx w with
    | none => simp [hstep] at h
    | some mid =>
      rw [hstep] at h
      simp only [Option.some_bind, Option.bind_eq_bind] at h
      obtain ⟨h1, h2, h3, h4⟩ := ih mid h
      unfold finalizeOutgoingOutput at hstep
      cases hm : matchVout txVerbose w tx.TxOutScript with
      | none => simp [hm] at hstep
      | some p =>
        simp only [hm, Option.some.injEq] at hstep
        subst hstep
        simp only [List.length_append, List.length_singleton, List.length_cons, List.length_nil] at h4 ⊢
        exact ⟨h1, h2, h3, by omega⟩

theorem finalizeIncomingOutputs_fold_some {R F : Type} (txVerbose : TxRawResult F)
    (ws : List WalletForTx) (tx r : MultyTx R)
    (h : ws.foldlM (finalizeIncomingOutput txVerbose) tx = some r) :
    r.TxStatus = tx.TxStatus
      ∧ r.TxAddress = tx.TxAddress ++ ws.map (fun w => w.Address.Address)
      ∧ r.WalletsInput = tx.WalletsInput
      ∧ r.WalletsOutput.length = tx.WalletsOutput.length + ws.length := by
  induction ws generalizing tx with
  | nil =>
    simp only [List.foldlM_nil, Option.pure_def, Option.some.injEq] at h
    subst h
    simp
  | cons w ws ih =>
    rw [List.foldlM_cons] at h
    cases hstep : finalizeIncomingOutput txVerbose tx w with
    | none => simp [hstep] at h
    | some mid =>
      rw [hstep] at h
      simp only [Option.some_bind, Option.bind_eq_bind] at h
      obtain ⟨h1, h2, h3, h4⟩ := ih mid h
      unfold finalizeIncomingOutput at hstep
      cases hm : matchVout txVerbose w tx.TxOutScript with
      | none => simp [hm] at hstep
      | some p =>
        simp only [hm, Option.some.injEq] at hstep
        subst hstep
        simp only [List.length_append, List.length_singleton, List.length_cons, List.length_nil,
          List.map_cons, List.append_assoc, List.singleton_append] at h2 h4 ⊢
        exact ⟨h1, h2, h3, by omega⟩

/-- Whatever `finalizeTransaction` returns keeps the status and the input touches, has as
many output touches as before, and has the addresses of the branch's touches appended to
`TxAddress`. -/
theorem finalizeTransaction_some {R F : Type} (tx r : MultyTx R) (txVerbose : TxRawResult F)
    (h : finalizeTransaction tx txVerbose = some r) :
    r.TxStatus = tx.TxStatus ∧ r.WalletsInput = tx.WalletsInput
      ∧ r.WalletsOutput.length = tx.WalletsOutput.length
      ∧ r.TxAddress = tx.TxAddress ++
          (if tx.TxStatus = TxStatusInBlockConfirmedOutcoming
              ∨ tx.TxStatus = TxStatusAppearedInBlockOutcoming
              ∨ tx.TxStatus = TxStatusAppearedInMempoolOutcoming
            then tx.WalletsInput.map (fun w => w.Address.Address)
            else tx.WalletsOutput.map (fun w => w.Address.Address)) := by
  unfold finalizeTransaction at h
  by_cases hb : tx.TxStatus = TxStatusInBlockConfirmedOutcoming
      ∨ tx.TxStatus = TxStatusAppearedInBlockOutcoming
      ∨ tx.TxStatus = TxStatusAppearedInMempoolOutcoming
  · rw [if_pos hb] at h
    unfold finalizeOutgoingOutputs at h
    obtain ⟨h1, h2, h3, h4⟩ := finalizeOutgoingOutputs_fold_some txVerbose _ _ _ h
    unfold finalizeInputs at h1 h2 h3 h4
    rw [finalizeInputs_fold] at h1 h2 h3 h4
    rw [if_pos hb]
    simp only [List.length_nil, zero_add] at h4
    exact ⟨h1, h3, h4, h2⟩
  · rw [if_neg hb] at h
    unfold finalizeIncomingOutputs at h
    obtain ⟨h1, h2, h3, h4⟩ := finalizeIncomingOutputs_fold_some txVerbose _ _ _ h
    rw [if_neg hb]
    simp only [List.length_nil, zero_add] at h4
    exact ⟨h1, h3, h4, h2⟩

theorem finalized_address_ne_nil {R F : Type} (tx r : MultyTx R) (txVerbose : TxRawResult F)
    (h : finalizeTransaction tx txVerbose = some r) (hin : r.WalletsInput ≠ [])
    (hout : r.WalletsOutput ≠ []) : r.TxAddress ≠ [] := by
  obtain ⟨_, h2, h3, h4⟩ := finalizeTransaction_some tx r txVerbose h
  have hin' : tx.WalletsInput ≠ [] := h2 ▸ hin
  have hout' : tx.WalletsOutput ≠ [] := by
    intro h0
    rw [h0] at h3
    exact hout (List.length_eq_zero.1 h3)
  rw [h4]
  split <;> simp [hin', hout']

theorem saveMultyTransaction_returns {R : Type} (tx : MultyTx R) (resync : Bool)
    (h : tx.WalletsInput = [] ∨ tx.WalletsOutput = [] ∨ tx.TxAddress ≠ []) :
    ∃ sent, saveMultyTransaction tx resync = some sent := by
  rw [saveMultyTransaction_eq]
  by_cases hin : tx.WalletsInput = []
  · by_cases hout : tx.WalletsOutput = [] <;> simp [hin, hout]
  · by_cases hout : tx.WalletsOutput = []
    · simp [hin, hout]
    · have haddr : tx.TxAddress ≠ [] := by tauto
      obtain ⟨first, rest, hfr⟩ := List.exists_cons_of_ne_nil haddr
      rw [overrideAmount_eq tx first rest hfr]
      simp [hin, hout]

theorem dispatchViews_completes {R F : Type} (txVerbose : TxRawResult F) (isReSync : Bool)
    (views : List (MultyTx R))
    (h : ∀ v ∈ views, ∃ v', finalizeTransaction v txVerbose = some v'
      ∧ ∃ sent, saveMultyTransaction v' isReSync = some sent) :
    (dispatchViews txVerbose isReSync views).2 = true := by
  induction views with
  | nil => rfl
  | cons t ts ih =>
    obtain ⟨v', hfin, sent, hsave⟩ := h t (List.mem_cons_self _ _)
    unfold dispatchViews
    simp only [hfin, hsave]
    exact ih (fun v hv => h v (List.mem_cons_of_mem _ hv))

theorem finalizeTransaction_returns {R F : Type} (tx : MultyTx R) (txVerbose : TxRawResult F)
    (hidx : outputsIndexed txVerbose) : ∃ r, finalizeTransaction tx txVerbose = some r := by
  by_cases hb : tx.TxStatus = TxStatusInBlockConfirmedOutcoming
      ∨ tx.TxStatus = TxStatusAppearedInBlockOutcoming
      ∨ tx.TxStatus = TxStatusAppearedInMempoolOutcoming
  · obtain ⟨_, _, _, h⟩ := finalizeTransaction_outgoing_eq tx txVerbose hidx hb
    exact ⟨_, h⟩
  · obtain ⟨_, _, _, h⟩ := finalizeTransaction_incoming_eq tx txVerbose hidx hb
    exact ⟨_, h⟩

/-- C21: the index `tx.TxAddress[0]` of `saveMultyTransaction` is in range on the pipeline.
For every parsed transaction (the parser's empty `tx_address` included), every view of
`splitTransaction` that `finalizeTransaction` returns with touches on both sides has a
non-empty `tx_address`: the view's former addresses followed by the input addresses under
status 3, 4 or 6 and by the output addresses under any other status, the unclassified
status 0 among them.  On it the override's lookup succeeds and the view is emitted; and
when every output of the raw transaction sits at its own index all views are dispatched. -/
theorem saveMultyTransaction_index_in_range {R F : Type} (multyTx : MultyTx R)
    (txVerbose : TxRawResult F) (blockHeight tip : Int) (clock : Nat → Int) (resync : Bool) :
    (∀ v ∈ splitTransaction multyTx blockHeight tip clock, ∀ v',
        finalizeTransaction v txVerbose = some v' →
        v'.WalletsInput ≠ [] → v'.WalletsOutput ≠ [] →
        v'.TxAddress = multyTx.TxAddress ++
            (if v.TxStatus = TxStatusInBlockConfirmedOutcoming
                ∨ v.TxStatus = TxStatusAppearedInBlockOutcoming
                ∨ v.TxStatus = TxStatusAppearedInMempoolOutcoming
              then v.WalletsInput.map (fun w => w.Address.Address)
              else v.WalletsOutput.map (fun w => w.Address.Address))
          ∧ v'.TxAddress ≠ [] ∧ v'.TxAddress[0]? ≠ none ∧ overrideAmount v' ≠ none
          ∧ ∃ e, saveMultyTransaction v' resync = some [e])
    ∧ (outputsIndexed txVerbose →
        (dispatchViews txVerbose resync
          (splitTransaction multyTx blockHeight tip clock)).2 = true) := by
  constructor
  · intro v hv v' hfin hin hout
    have hne := finalized_address_ne_nil v v' txVerbose hfin hin hout
    obtain ⟨first, rest, hfr⟩ := List.exists_cons_of_ne_nil hne
    obtain ⟨_, _, _, h4⟩ := finalizeTransaction_some v v' txVerbose hfin
    obtain ⟨base, f, now, hbase, _, _, _, _, haddr, _⟩ :=
      mem_splitTransaction multyTx blockHeight tip clock v hv
    have hva : v.TxAddress = multyTx.TxAddress := by
      rw [hbase, setTransactionStatus_frame]
      exact haddr
    refine ⟨by rw [h4, hva], hne, by simp [hfr], ?_, ?_⟩
    · rw [overrideAmount_eq v' first rest hfr]
      simp
    · rw [saveMultyTransaction_eq, overrideAmount_eq v' first rest hfr]
      simp [hin, hout]
  · intro hidx
    apply dispatchViews_completes
    intro v _
    obtain ⟨v', hfin⟩ := finalizeTransaction_returns v txVerbose hidx
    refine ⟨v', hfin, saveMultyTransaction_returns v' resync ?_⟩
    by_cases hin : v'.WalletsInput = []
    · exact Or.inl hin
    · by_cases hout : v'.WalletsOutput = []
      · exact Or.inr (Or.inl hout)
      · exact Or.inr (Or.inr (finalized_address_ne_nil v v' txVerbose hfin hin hout))

theorem saveMultyTransaction_index_in_range_witness :
    scenario3Tx ∈ splitTransaction scenario3Tx 0 100 (fun _ => 1700000700)
    ∧ finalizeTransaction scenario3Tx scenario3Verbose = some unclassifiedFinalized
    ∧ unclassifiedFinalized.TxStatus = 0
    ∧ unclassifiedFinalized.TxAddress = ["B"]
    ∧ (∃ e, saveMultyTransaction unclassifiedFinalized false = some [e])
    ∧ (dispatchViews scenario3Verbose false
        (splitTransaction scenario3Tx 0 100 (fun _ => 1700000700))).2 = true :=
  have h := (saveMultyTransaction_index_in_range scenario3Tx scenario3Verbose 0 100
    (fun _ => 1700000700) false).1 scenario3Tx (by decide) unclassifiedFinalized
    (by decide!) (by decide) (by decide)
  ⟨by decide, by decide!, rfl, rfl, h.2.2.2.2,
    (saveMultyTransaction_index_in_range scenario3Tx scenario3Verbose 0 100
      (fun _ => 1700000700) false).2 (by decide)⟩

/-! ### C22: the deltas the classifier passes over -/

theorem setTransactionStatus_noop {R : Type} (tx : MultyTx R) (d tip : Int) (f : Bool)
    (now : Int) (h1 : ¬ d > tip) (h2 : ¬ (d ≥ 0 ∧ d < 6)) (h3 : ¬ (d ≥ 6 ∧ d < tip)) :
    setTransactionStatus tx d tip f now = tx := by
  unfold setTransactionStatus
  rw [if_neg h1, if_neg h2, if_neg h3]

theorem setTransactionStatus_assigns {R : Type} (tx : MultyTx R) (d tip : Int) (f : Bool)
    (now : Int) (h : d > tip ∨ (d ≥ 0 ∧ d < 6) ∨ (d ≥ 6 ∧ d < tip)) :
    (setTransactionStatus tx d tip f now).TxStatus ∈ ([1, 2, 3, 4, 5, 6] : List Int) := by
  unfold setTransactionStatus
  by_cases h1 : d > tip
  · rw [if_pos h1]
    cases f <;> simp [TxStatusAppearedInMempoolOutcoming, TxStatusAppearedInMempoolIncoming]
  · rw [if_neg h1]
    by_cases h2 : d ≥ 0 ∧ d < 6
    · rw [if_pos h2]
      cases f <;> simp [TxStatusAppearedInBlockOutcoming, TxStatusAppearedInBlockIncoming]
    · rw [if_neg h2]
      have h3 : d ≥ 6 ∧ d < tip := by tauto
      rw [if_pos h3]
      cases f <;> simp [TxStatusInBlockConfirmedOutcoming, TxStatusInBlockConfirmedIncoming]

/-- A transaction whose status is none of the six codes comes back unchanged from
`setTransactionStatus`, for an arbitrary pair of arguments, exactly when `d ≤ tip` and `d`
is negative or equal to a `tip` of at least 6. -/
theorem setTransactionStatus_eq_self_iff {R : Type} (tx : MultyTx R) (d tip : Int) (f : Bool)
    (now : Int) (hs : tx.TxStatus ∉ ([1, 2, 3, 4, 5, 6] : List Int)) :
    setTransactionStatus tx d tip f now = tx
      ↔ (d < 0 ∧ d ≤ tip) ∨ (d ≥ 6 ∧ d = tip) := by
  constructor
  · intro h
    by_contra hc
    have hb : d > tip ∨ (d ≥ 0 ∧ d < 6) ∨ (d ≥ 6 ∧ d < tip) := by omega
    have hm := setTransactionStatus_assigns tx d tip f now hb
    rw [h] at hm
    exact hs hm
  · intro h
    exact setTransactionStatus_noop tx d tip f now (by omega) (by omega) (by omega)

/-- C22: for a chain tip `tip ≥ 0` (a block count), `setTransactionStatus` leaves the
transaction unchanged, whatever the transaction, exactly when `delta < 0`, or `delta ≥ 6`
and `delta = tip`; for every other `delta` it assigns one of the six status codes.  In
particular every view that `splitTransaction` makes of a transaction at block height 0
under a tip of at least 6, or at a block height above the tip, keeps the `tx_status` of
the parsed transaction and the confirmations 0, the block time and the mempool time that
the fresh view had before classification. -/
theorem setTransactionStatus_unchanged {R : Type} (multyTx : MultyTx R)
    (delta tip blockHeight : Int) (clock : Nat → Int) :
    (0 ≤ tip → (delta < 0 ∨ (delta ≥ 6 ∧ delta = tip)) →
      ∀ (tx : MultyTx R) (fromInput : Bool) (now : Int),
        setTransactionStatus tx delta tip fromInput now = tx)
    ∧ (¬ (delta < 0 ∨ (delta ≥ 6 ∧ delta = tip)) →
      ∀ (tx : MultyTx R) (fromInput : Bool) (now : Int),
        (setTransactionStatus tx delta tip fromInput now).TxStatus
          ∈ ([1, 2, 3, 4, 5, 6] : List Int))
    ∧ (0 ≤ tip →
      ((∀ (tx : MultyTx R) (fromInput : Bool) (now : Int),
          setTransactionStatus tx delta tip fromInput now = tx)
        ↔ (delta < 0 ∨ (delta ≥ 6 ∧ delta = tip))))
    ∧ (0 ≤ tip → isInt64 tip → isInt64 blockHeight →
      (blockHeight = 0 ∧ 6 ≤ tip) ∨ tip < blockHeight →
      ∀ v ∈ splitTransaction multyTx blockHeight tip clock,
        v.TxStatus = multyTx.TxStatus ∧ v.Confirmations = 0
        ∧ v.BlockTime = multyTx.BlockTime ∧ v.MempoolTime = multyTx.MempoolTime
        ∧ (multyTx.TxStatus ∉ ([1, 2, 3, 4, 5, 6] : List Int) →
            v.TxStatus ∉ ([1, 2, 3, 4, 5, 6] : List Int))) := by
  have hif : 0 ≤ tip → (delta < 0 ∨ (delta ≥ 6 ∧ delta = tip)) →
      ∀ (tx : MultyTx R) (fromInput : Bool) (now : Int),
        setTransactionStatus tx delta tip fromInput now = tx := by
    intro htip hc tx f now
    exact setTransactionStatus_noop tx delta tip f now (by omega) (by omega) (by omega)
  have honly : ¬ (delta < 0 ∨ (delta ≥ 6 ∧ delta = tip)) →
      ∀ (tx : MultyTx R) (fromInput : Bool) (now : Int),
        (setTransactionStatus tx delta tip fromInput now).TxStatus
          ∈ ([1, 2, 3, 4, 5, 6] : List Int) := by
    intro hc tx f now
    exact setTransactionStatus_assigns tx delta tip f now (by omega)
  refine ⟨hif, honly, ?_, ?_⟩
  · intro htip
    constructor
    · intro h
      by_contra hc
      have hm := honly hc { multyTx with TxStatus := 0 } false 0
      rw [h] at hm
      simp at hm
    · exact hif htip
  · intro htip ht hb hcase v hv
    obtain ⟨base, f, now, hbase, _, _, _, _, _, _, _, _, _, _, _, hst, hconf, hbt, hmt⟩ :=
      mem_splitTransaction multyTx blockHeight tip clock v hv
    have hd : wrapInt64 (tip - blockHeight) = tip - blockHeight := by
      apply wrapInt64_of_isInt64
      unfold isInt64 at ht hb ⊢
      omega
    have hv' : v = base := by
      rw [hbase, hd]
      exact setTransactionStatus_noop base _ tip f now (by omega) (by omega) (by omega)
    subst hv'
    exact ⟨hst, hconf, hbt, hmt, fun h => hst ▸ h⟩

theorem setTransactionStatus_unchanged_witness :
    (∀ (tx : MultyTx Unit) (fromInput : Bool) (now : Int),
        setTransactionStatus tx (-1) 100 fromInput now = tx)
    ∧ (∃ v, splitTransaction scenario2Tx 101 100 (fun _ => 1700000700) = [v]
        ∧ v.TxStatus = 0 ∧ v.Confirmations = 0) := by
  refine ⟨(setTransactionStatus_unchanged scenario2Tx (-1) 100 101
      (fun _ => 1700000700)).1 (by decide) (Or.inl (by decide)), ?_⟩
  obtain ⟨v, hv⟩ : ∃ v, splitTransaction scenario2Tx 101 100 (fun _ => 1700000700) = [v] :=
    ⟨_, splitTransaction_single_output scenario2Tx 101 100 _ _ rfl rfl⟩
  have h := (setTransactionStatus_unchanged scenario2Tx (-1) 100 101
      (fun _ => 1700000700)).2.2.2 (by decide) (by decide) (by decide)
      (Or.inr (by decide)) v (by rw [hv]; exact List.mem_singleton.2 rfl)
  exact ⟨v, hv, h.1, h.2.1⟩

/-! ### C23: the resync flag of the events -/

/-- C23: `saveMultyTransaction` sends a view without input touches and with output touches
as one event with its `tx_out_amount` as it was (the override of the incoming branch never
runs) and with the resync flag of the call; a view with input touches is sent, if at all,
as one event with the resync flag false whatever the argument, and it is sent whenever it
comes out of `finalizeTransaction`; a view without touches sends nothing. -/
theorem saveMultyTransaction_resync {R F : Type} (tx : MultyTx R) (resync : Bool)
    (txVerbose : TxRawResult F) (view : MultyTx R) :
    (tx.WalletsInput = [] → tx.WalletsOutput ≠ [] →
      ∃ e, saveMultyTransaction tx resync = some [e]
        ∧ e.TxOutAmount = tx.TxOutAmount ∧ e.Resync = resync)
    ∧ (tx.WalletsInput ≠ [] →
        (∀ sent, saveMultyTransaction tx resync = some sent →
          ∃ e, sent = [e] ∧ e.Resync = false)
        ∧ saveMultyTransaction tx resync = saveMultyTransaction tx (!resync)
        ∧ (tx.WalletsOutput = [] ∨ tx.TxAddress ≠ [] →
            ∃ e, saveMultyTransaction tx resync = some [e] ∧ e.Resync = false))
    ∧ (finalizeTransaction view txVerbose = some tx → tx.WalletsInput ≠ [] →
        ∃ e, saveMultyTransaction tx resync = some [e] ∧ e.Resync = false)
    ∧ (tx.WalletsInput = [] → tx.WalletsOutput = [] →
        saveMultyTransaction tx resync = some []) := by
  have hsent : tx.WalletsInput ≠ [] → ∀ sent, saveMultyTransaction tx resync = some sent →
      ∃ e, sent = [e] ∧ e.Resync = false := by
    intro hin sent hs
    rw [saveMultyTransaction_eq, if_pos hin] at hs
    by_cases hout : tx.WalletsOutput = []
    · simp only [hout, ne_eq, not_true_eq_false, if_false, Option.some.injEq] at hs
      exact ⟨_, hs.symm, rfl⟩
    · rw [if_pos hout] at hs
      cases ha : overrideAmount tx with
      | none => simp [ha] at hs
      | some amount =>
        simp only [ha, Option.map_some', Option.some.injEq] at hs
        exact ⟨_, hs.symm, rfl⟩
  have hsome : tx.WalletsInput ≠ [] → tx.WalletsOutput = [] ∨ tx.TxAddress ≠ [] →
      ∃ e, saveMultyTransaction tx resync = some [e] ∧ e.Resync = false := by
    intro hin h
    obtain ⟨sent, hs⟩ := saveMultyTransaction_returns tx resync (Or.inr h)
    obtain ⟨e, he, hr⟩ := hsent hin sent hs
    exact ⟨e, he ▸ hs, hr⟩
  refine ⟨?_, ?_, ?_, ?_⟩
  · intro hin hout
    rw [saveMultyTransaction_eq]
    simp only [hin, hout, ne_eq, not_true_eq_false, not_false_eq_true, if_false, if_true]
    exact ⟨_, rfl, rfl, rfl⟩
  · intro hin
    refine ⟨hsent hin, ?_, hsome hin⟩
    rw [saveMultyTransaction_eq, saveMultyTransaction_eq, if_pos hin, if_pos hin]
  · intro hfin hin
    apply hsome hin
    by_cases hout : tx.WalletsOutput = []
    · exact Or.inl hout
    · exact Or.inr (finalized_address_ne_nil view tx txVerbose hfin hin hout)
  · intro hin hout
    rw [saveMultyTransaction_eq]
    simp [hin, hout]

theorem saveMultyTransaction_resync_witness :
    (∃ e, saveMultyTransaction scenario2View true = some [e]
        ∧ e.TxOutAmount = scenario2View.TxOutAmount ∧ e.Resync = true)
    ∧ (∃ e, saveMultyTransaction scenario3Finalized true = some [e] ∧ e.Resync = false)
    ∧ saveMultyTransaction (MultyTx.zero Unit) true = some [] :=
  ⟨(saveMultyTransaction_resync scenario2View true scenario3Verbose scenario3View).1
      (by decide) (by decide),
    (saveMultyTransaction_resync scenario3Finalized true scenario3Verbose scenario3View).2.2.1
      (by decide!) (by decide),
    (saveMultyTransaction_resync (MultyTx.zero Unit) true scenario3Verbose scenario3View).2.2.2
      (by decide) (by decide)⟩

end Btc
